import Mathlib

/-!
# Verification development for `nomad_entity.hpp` (opengl-ecs)

A shallow embedding of the entity-component-system runtime of
`src/include/nomad_entity.hpp`, followed by theorems about it.

Conventions of the embedding:

* `std::unordered_map<K, V>` is a finite map with unique keys (`AList`); the
  three ways the source touches a map are kept apart: `insert({k, v})` does
  not overwrite (`Map.emplace`), `m[k] = v` overwrites (`Map.assign`) and a
  read `m[k]` value-initialises a missing entry (`Map.index`).
* `std::array<T, N>` is a function on slot numbers; an access outside
  `[0, N)` is undefined behaviour and is reported as `Fault.undefinedBehaviour`.
* `size_t` is 64 bit, `uint32_t` 32 bit and `ComponentType` (`uint8_t`) 8 bit:
  they are natural numbers, increments and decrements taken modulo the width.
* `std::bitset<32>` is the natural number with the same binary digits.
* `typeid(T).name()` is an abstract key `TypeName`; all component types carry
  values of one type `α` (instantiate it with a sum type for several payloads).
-/

namespace Nomad

/-- The constant `MAX_COMPONENTS`. -/
def MAX_COMPONENTS : Nat := 32

/-- The constant `MAX_ENTITIES`. -/
def MAX_ENTITIES : Nat := 5000

/-- Width of `size_t`. -/
def SIZE_MOD : Nat := 2 ^ 64

/-- Width of `uint32_t`. -/
def U32_MOD : Nat := 2 ^ 32

/-- Width of `ComponentType = std::uint8_t`. -/
def U8_MOD : Nat := 2 ^ 8

/-- `using Signature = std::bitset<MAX_COMPONENTS>`: bit `k` is `Nat.testBit s k`. -/
abbrev Signature := Nat

/-- `class Entity`: the wrapped `int mId`. -/
abbrev Entity := Int

/-- The key `typeid(T).name()` of a component or system type. -/
abbrev TypeName := Nat

/-- The two ways a call can leave the defined, normal path. -/
inductive Fault where
  /-- undefined behaviour of C++ (out-of-bounds array access, `front()` of an
  empty queue, null pointer dereference) -/
  | undefinedBehaviour
  /-- the exception `std::out_of_range` of `std::bitset::set` -/
  | outOfRange
  deriving DecidableEq, Repr

/-- Outcome of a call: a value, or a fault. -/
abbrev Result (α : Type) := Except Fault α

/-- `std::unordered_map<K, V>`. -/
abbrev Map (K V : Type) := AList (fun _ : K => V)

namespace Map

variable {K V : Type} [DecidableEq K]

/-- `m.find(k)`, `none` standing for `m.end()`. -/
def find (m : Map K V) (k : K) : Option V := AList.lookup k m

/-- `m.insert({k, v})`: inserts only when `k` is not yet a key. -/
def emplace (m : Map K V) (k : K) (v : V) : Map K V :=
  if k ∈ m then m else AList.insert k v m

/-- `m[k] = v`. -/
def assign (m : Map K V) (k : K) (v : V) : Map K V := AList.insert k v m

/-- Read access `m[k]`: a missing key is first inserted with the
value-initialised `dflt`; returns the value and the map afterwards. -/
def index (m : Map K V) (k : K) (dflt : V) : V × Map K V :=
  match AList.lookup k m with
  | some v => (v, m)
  | none => (dflt, AList.insert k dflt m)

/-- `m.erase(k)`. -/
def erase (m : Map K V) (k : K) : Map K V := AList.erase k m

end Map

/-! ## ComponentArray -/

/-- `class ComponentArray<T>` (its four data members). -/
structure ComponentArray (α : Type) where
  mComponentArray : Nat → α
  mEntityToIndexMap : Map Int Nat
  mIndexToEntityMap : Map Nat Int
  mSize : Nat

namespace ComponentArray

variable {α : Type}

/-- A freshly constructed `ComponentArray<T>`. -/
def empty [Inhabited α] : ComponentArray α :=
  { mComponentArray := fun _ => default
    mEntityToIndexMap := ∅
    mIndexToEntityMap := ∅
    mSize := 0 }

/-- `ComponentArray::insertData`. -/
def insertData (c : ComponentArray α) (entity : Entity) (component : α) :
    Result (ComponentArray α) :=
  let newIndex := c.mSize
  let e2i := c.mEntityToIndexMap.assign entity newIndex
  let i2e := c.mIndexToEntityMap.assign newIndex entity
  if newIndex < MAX_ENTITIES then
    .ok { mComponentArray := Function.update c.mComponentArray newIndex component
          mEntityToIndexMap := e2i
          mIndexToEntityMap := i2e
          mSize := (c.mSize + 1) % SIZE_MOD }
  else .error .undefinedBehaviour

/-- `ComponentArray::removeData`. -/
def removeData (c : ComponentArray α) (entity : Entity) : Result (ComponentArray α) :=
  let r := c.mEntityToIndexMap.index entity 0
  let indexOfRemovedEntity := r.1
  let indexOfLastElement := (c.mSize + SIZE_MOD - 1) % SIZE_MOD
  if indexOfRemovedEntity < MAX_ENTITIES ∧ indexOfLastElement < MAX_ENTITIES then
    let arr := Function.update c.mComponentArray indexOfRemovedEntity
      (c.mComponentArray indexOfLastElement)
    let q := c.mIndexToEntityMap.index indexOfLastElement 0
    let entityOfLastElement : Entity := q.1
    let e2i := r.2.assign entityOfLastElement indexOfRemovedEntity
    let i2e := q.2.assign indexOfRemovedEntity entityOfLastElement
    .ok { mComponentArray := arr
          mEntityToIndexMap := e2i.erase entity
          mIndexToEntityMap := i2e.erase indexOfLastElement
          mSize := (c.mSize + SIZE_MOD - 1) % SIZE_MOD }
  else .error .undefinedBehaviour

/-- `ComponentArray::getData`: the referenced value and the array afterwards
(the read `mEntityToIndexMap[entity.id()]` can add an entry). -/
def getData (c : ComponentArray α) (entity : Entity) : Result (α × ComponentArray α) :=
  let r := c.mEntityToIndexMap.index entity 0
  if r.1 < MAX_ENTITIES then
    .ok (c.mComponentArray r.1, { c with mEntityToIndexMap := r.2 })
  else .error .undefinedBehaviour

/-- `ComponentArray::entityDestroyed`. -/
def entityDestroyed (c : ComponentArray α) (entity : Entity) : Result (ComponentArray α) :=
  if (c.mEntityToIndexMap.find entity).isSome then c.removeData entity else .ok c

/-- The entity has an entry in the entity-to-index map. -/
def present (c : ComponentArray α) (entity : Entity) : Prop :=
  entity ∈ c.mEntityToIndexMap

instance (c : ComponentArray α) (entity : Entity) : Decidable (c.present entity) := by
  unfold present; infer_instance

end ComponentArray

/-! ## ComponentManager -/

/-- `class ComponentManager`. A null `shared_ptr` is never stored by a call
that returns: `getComponentArray` on an unknown key inserts one and the caller
dereferences it at once, which is undefined behaviour. -/
structure ComponentManager (α : Type) where
  mComponentTypes : Map TypeName Nat
  mComponentArrays : Map TypeName (ComponentArray α)
  mNextComponentType : Nat

namespace ComponentManager

variable {α : Type}

/-- A freshly constructed `ComponentManager`. -/
def empty : ComponentManager α :=
  { mComponentTypes := ∅, mComponentArrays := ∅, mNextComponentType := 0 }

/-- `ComponentManager::registerComponent<T>`. -/
def registerComponent [Inhabited α] (m : ComponentManager α) (typeName : TypeName) :
    ComponentManager α :=
  { mComponentTypes := m.mComponentTypes.emplace typeName m.mNextComponentType
    mComponentArrays := m.mComponentArrays.emplace typeName ComponentArray.empty
    mNextComponentType := (m.mNextComponentType + 1) % U8_MOD }

/-- `ComponentManager::getComponentType<T>`. -/
def getComponentType (m : ComponentManager α) (typeName : TypeName) :
    Nat × ComponentManager α :=
  let r := m.mComponentTypes.index typeName 0
  (r.1, { m with mComponentTypes := r.2 })

/-- `ComponentManager::getComponentArray<T>` followed by the dereference of
its result. -/
def getComponentArray (m : ComponentManager α) (typeName : TypeName) :
    Result (ComponentArray α) :=
  match m.mComponentArrays.find typeName with
  | some arr => .ok arr
  | none => .error .undefinedBehaviour

/-- `ComponentManager::addComponent<T>`. -/
def addComponent (m : ComponentManager α) (typeName : TypeName) (entity : Entity)
    (component : α) : Result (ComponentManager α) := do
  let arr ← m.getComponentArray typeName
  let arr ← arr.insertData entity component
  pure { m with mComponentArrays := m.mComponentArrays.assign typeName arr }

/-- `ComponentManager::removeComponent<T>`. -/
def removeComponent (m : ComponentManager α) (typeName : TypeName) (entity : Entity) :
    Result (ComponentManager α) := do
  let arr ← m.getComponentArray typeName
  let arr ← arr.removeData entity
  pure { m with mComponentArrays := m.mComponentArrays.assign typeName arr }

/-- `ComponentManager::getComponent<T>`. -/
def getComponent (m : ComponentManager α) (typeName : TypeName) (entity : Entity) :
    Result (α × ComponentManager α) := do
  let arr ← m.getComponentArray typeName
  let r ← arr.getData entity
  pure (r.1, { m with mComponentArrays := m.mComponentArrays.assign typeName r.2 })

/-- One iteration of the loop of `ComponentManager::entityDestroyed`, for the
pair with key `typeName`. -/
def entityDestroyedAt (entity : Entity) (arrays : Map TypeName (ComponentArray α))
    (typeName : TypeName) : Result (Map TypeName (ComponentArray α)) :=
  match arrays.find typeName with
  | some arr => do
    let arr ← arr.entityDestroyed entity
    pure (arrays.assign typeName arr)
  | none => pure arrays

/-- `ComponentManager::entityDestroyed`: the loop over all pairs of
`mComponentArrays`. -/
def entityDestroyed (m : ComponentManager α) (entity : Entity) :
    Result (ComponentManager α) := do
  let arrays ← m.mComponentArrays.keys.foldlM (entityDestroyedAt entity) m.mComponentArrays
  pure { m with mComponentArrays := arrays }

end ComponentManager

/-! ## EntityManager -/

/-- `class EntityManager`: the queue is a list with its front first. -/
structure EntityManager where
  mAvailableEntities : List Int
  mSignatures : Nat → Signature
  mLivingEntityCount : Nat

namespace EntityManager

/-- The constructor `EntityManager::EntityManager`: the loop pushes
`0, 1, ..., MAX_ENTITIES - 1` in this order. -/
def new : EntityManager :=
  { mAvailableEntities := (List.range' 0 MAX_ENTITIES).map Int.ofNat
    mSignatures := fun _ => 0
    mLivingEntityCount := 0 }

/-- `EntityManager::createEntity`. -/
def createEntity (m : EntityManager) : Result (Entity × EntityManager) :=
  match m.mAvailableEntities with
  | [] => .error .undefinedBehaviour
  | id :: rest =>
    .ok (id, { m with mAvailableEntities := rest
                      mLivingEntityCount := (m.mLivingEntityCount + 1) % U32_MOD })

/-- The index `entity.id()` lies inside `std::array<Signature, MAX_ENTITIES>`. -/
def inRange (entity : Int) : Prop := 0 ≤ entity ∧ entity < (MAX_ENTITIES : Int)

instance (entity : Int) : Decidable (inRange entity) := by
  unfold inRange; infer_instance

/-- `EntityManager::destroyEntity`. -/
def destroyEntity (m : EntityManager) (entity : Entity) : Result EntityManager :=
  if inRange entity then
    .ok { mSignatures := Function.update m.mSignatures entity.toNat 0
          mAvailableEntities := m.mAvailableEntities ++ [entity]
          mLivingEntityCount := (m.mLivingEntityCount + U32_MOD - 1) % U32_MOD }
  else .error .undefinedBehaviour

/-- `EntityManager::setSignature`. -/
def setSignature (m : EntityManager) (entity : Entity) (signature : Signature) :
    Result EntityManager :=
  if inRange entity then
    .ok { m with mSignatures := Function.update m.mSignatures entity.toNat signature }
  else .error .undefinedBehaviour

/-- `EntityManager::getSignature`. -/
def getSignature (m : EntityManager) (entity : Entity) : Result Signature :=
  if inRange entity then .ok (m.mSignatures entity.toNat) else .error .undefinedBehaviour

end EntityManager

/-- `std::bitset<32>::set(pos, val)`: throws `std::out_of_range` when `pos`
is not a valid position. -/
def Signature.set (s : Signature) (pos : Nat) (val : Bool) : Result Signature :=
  if pos < MAX_COMPONENTS then
    .ok (if val then s ||| 2 ^ pos else s ^^^ (s &&& 2 ^ pos))
  else .error .outOfRange

/-! ## SystemManager -/

/-- `class System`: `std::set<Entity>`, ordered by id. -/
structure System where
  mEntities : Finset Int
  deriving DecidableEq

/-- `class SystemManager`. -/
structure SystemManager where
  mSignatures : Map TypeName Signature
  mSystems : Map TypeName System

namespace SystemManager

/-- A freshly constructed `SystemManager`. -/
def empty : SystemManager := { mSignatures := ∅, mSystems := ∅ }

/-- `SystemManager::registerSystem<T>` (the returned pointer is left out). -/
def registerSystem (m : SystemManager) (typeName : TypeName) : SystemManager :=
  { m with mSystems := m.mSystems.emplace typeName { mEntities := ∅ } }

/-- `SystemManager::setSignature<T>`. -/
def setSignature (m : SystemManager) (typeName : TypeName) (signature : Signature) :
    SystemManager :=
  { m with mSignatures := m.mSignatures.emplace typeName signature }

/-- One iteration of the loop of `SystemManager::entityDestroyed`. -/
def entityDestroyedAt (entity : Entity) (systems : Map TypeName System)
    (typeName : TypeName) : Map TypeName System :=
  match systems.find typeName with
  | some system => systems.assign typeName { mEntities := system.mEntities.erase entity }
  | none => systems

/-- `SystemManager::entityDestroyed`. -/
def entityDestroyed (m : SystemManager) (entity : Entity) : SystemManager :=
  { m with mSystems := m.mSystems.keys.foldl (entityDestroyedAt entity) m.mSystems }

/-- One iteration of the loop of `SystemManager::entitySignatureChanged`, for
the pair with key `type`. -/
def entitySignatureChangedAt (entity : Entity) (entitySignature : Signature)
    (m : SystemManager) (type : TypeName) : SystemManager :=
  match m.mSystems.find type with
  | some system =>
    let r := m.mSignatures.index type 0
    let systemSignature := r.1
    if entitySignature &&& systemSignature = systemSignature then
      { mSignatures := r.2
        mSystems := m.mSystems.assign type { mEntities := insert entity system.mEntities } }
    else
      { mSignatures := r.2
        mSystems := m.mSystems.assign type { mEntities := system.mEntities.erase entity } }
  | none => m

/-- `SystemManager::entitySignatureChanged`. -/
def entitySignatureChanged (m : SystemManager) (entity : Entity)
    (entitySignature : Signature) : SystemManager :=
  m.mSystems.keys.foldl (entitySignatureChangedAt entity entitySignature) m

end SystemManager

/-! ## ECS -/

/-- `class ECS` after `init()`: the three managers. -/
structure ECS (α : Type) where
  mComponentManager : ComponentManager α
  mEntityManager : EntityManager
  mSystemManager : SystemManager

namespace ECS

variable {α : Type}

/-- `ECS::init`. -/
def init : ECS α :=
  { mComponentManager := ComponentManager.empty
    mEntityManager := EntityManager.new
    mSystemManager := SystemManager.empty }

/-- `ECS::createEntity`. -/
def createEntity (s : ECS α) : Result (Entity × ECS α) := do
  let r ← s.mEntityManager.createEntity
  pure (r.1, { s with mEntityManager := r.2 })

/-- `ECS::destroyEntity`. -/
def destroyEntity (s : ECS α) (entity : Entity) : Result (ECS α) := do
  let em ← s.mEntityManager.destroyEntity entity
  let cm ← s.mComponentManager.entityDestroyed entity
  pure { mEntityManager := em
         mComponentManager := cm
         mSystemManager := s.mSystemManager.entityDestroyed entity }

/-- `ECS::registerComponent<T>`. -/
def registerComponent [Inhabited α] (s : ECS α) (typeName : TypeName) : ECS α :=
  { s with mComponentManager := s.mComponentManager.registerComponent typeName }

/-- `ECS::addComponent<T>`. -/
def addComponent (s : ECS α) (typeName : TypeName) (entity : Entity) (component : α) :
    Result (ECS α) := do
  let cm ← s.mComponentManager.addComponent typeName entity component
  let signature ← s.mEntityManager.getSignature entity
  let t := cm.getComponentType typeName
  let signature ← Signature.set signature t.1 true
  let em ← s.mEntityManager.setSignature entity signature
  pure { mComponentManager := t.2
         mEntityManager := em
         mSystemManager := s.mSystemManager.entitySignatureChanged entity signature }

/-- `ECS::removeComponent<T>`. -/
def removeComponent (s : ECS α) (typeName : TypeName) (entity : Entity) :
    Result (ECS α) := do
  let cm ← s.mComponentManager.removeComponent typeName entity
  let signature ← s.mEntityManager.getSignature entity
  let t := cm.getComponentType typeName
  let signature ← Signature.set signature t.1 false
  let em ← s.mEntityManager.setSignature entity signature
  pure { mComponentManager := t.2
         mEntityManager := em
         mSystemManager := s.mSystemManager.entitySignatureChanged entity signature }

/-- `ECS::getComponent<T>`. -/
def getComponent (s : ECS α) (typeName : TypeName) (entity : Entity) :
    Result (α × ECS α) := do
  let r ← s.mComponentManager.getComponent typeName entity
  pure (r.1, { s with mComponentManager := r.2 })

/-- `ECS::getComponentType<T>`. -/
def getComponentType (s : ECS α) (typeName : TypeName) : Nat × ECS α :=
  let r := s.mComponentManager.getComponentType typeName
  (r.1, { s with mComponentManager := r.2 })

/-- `ECS::registerSystem<T>`. -/
def registerSystem (s : ECS α) (typeName : TypeName) : ECS α :=
  { s with mSystemManager := s.mSystemManager.registerSystem typeName }

/-- `ECS::setSystemSignature<T>`. -/
def setSystemSignature (s : ECS α) (typeName : TypeName) (signature : Signature) : ECS α :=
  { s with mSystemManager := s.mSystemManager.setSignature typeName signature }

/-- The entity is a key of the entity-to-index map of the store of `typeName`. -/
def hasComponent (s : ECS α) (typeName : TypeName) (entity : Entity) : Prop :=
  ∃ a, s.mComponentManager.mComponentArrays.find typeName = some a ∧ a.present entity

/-- The entity is a member of `mEntities` of the system registered as `typeName`. -/
def interested (s : ECS α) (typeName : TypeName) (entity : Entity) : Prop :=
  ∃ sys, s.mSystemManager.mSystems.find typeName = some sys ∧ entity ∈ sys.mEntities

end ECS

/-! ## Call sequences -/

/-- A call of the public interface of `ECS`. -/
inductive Call (α : Type) where
  | registerComponent (typeName : TypeName)
  | createEntity
  | destroyEntity (entity : Entity)
  | addComponent (typeName : TypeName) (entity : Entity) (component : α)
  | removeComponent (typeName : TypeName) (entity : Entity)
  | getComponent (typeName : TypeName) (entity : Entity)
  | getComponentType (typeName : TypeName)
  | registerSystem (typeName : TypeName)
  | setSystemSignature (typeName : TypeName) (signature : Signature)

namespace ECS

variable {α : Type} [Inhabited α]

/-- Effect of one call: the entity handed out, if the call is `createEntity`,
and the state afterwards. -/
def call (s : ECS α) : Call α → Result (Option Entity × ECS α)
  | .registerComponent t => .ok (none, s.registerComponent t)
  | .createEntity => (s.createEntity).map fun r => (some r.1, r.2)
  | .destroyEntity e => (s.destroyEntity e).map fun s' => (none, s')
  | .addComponent t e v => (s.addComponent t e v).map fun s' => (none, s')
  | .removeComponent t e => (s.removeComponent t e).map fun s' => (none, s')
  | .getComponent t e => (s.getComponent t e).map fun r => (none, r.2)
  | .getComponentType t => .ok (none, (s.getComponentType t).2)
  | .registerSystem t => .ok (none, s.registerSystem t)
  | .setSystemSignature t sig => .ok (none, s.setSystemSignature t sig)

/-- A sequence of calls, stopping at the first fault. -/
def run (s : ECS α) : List (Call α) → Result (ECS α)
  | [] => .ok s
  | c :: cs =>
    match s.call c with
    | .ok r => run r.2 cs
    | .error f => .error f

end ECS

/-- An `ECS` together with the list of live entities: those handed out by
`createEntity` and not destroyed since. The list is bookkeeping of the
verification, the source keeps only their number. -/
structure Tracked (α : Type) where
  ecs : ECS α
  live : List Entity

instance {α : Type} (s : ECS α) (t : TypeName) (e : Entity) : Decidable (s.hasComponent t e) :=
  match h : s.mComponentManager.mComponentArrays.find t with
  | some a =>
    if hp : a.present e then isTrue ⟨a, h, hp⟩
    else isFalse (fun ⟨b, hb, hbp⟩ => hp (by rw [h] at hb; cases hb; exact hbp))
  | none => isFalse (fun ⟨b, hb, _⟩ => by rw [h] at hb; cases hb)

instance {α : Type} (s : ECS α) (t : TypeName) (e : Entity) : Decidable (s.interested t e) :=
  match h : s.mSystemManager.mSystems.find t with
  | some sys =>
    if hp : e ∈ sys.mEntities then isTrue ⟨sys, h, hp⟩
    else isFalse (fun ⟨b, hb, hbp⟩ => hp (by rw [h] at hb; cases hb; exact hbp))
  | none => isFalse (fun ⟨b, hb, _⟩ => by rw [h] at hb; cases hb)

namespace Tracked

variable {α : Type}

/-- The tracked initial state. -/
def init : Tracked α := { ecs := ECS.init, live := [] }

/-- The live list after a call that returned `reply`. -/
def liveAfter (live : List Entity) (c : Call α) (reply : Option Entity) : List Entity :=
  match c, reply with
  | .destroyEntity e, _ => live.erase e
  | _, some e => e :: live
  | _, none => live

/-- Precondition on entity arguments: the entity that is destroyed or that
receives or loses a component is live. -/
def entitiesLive (w : Tracked α) : Call α → Prop
  | .destroyEntity e => e ∈ w.live
  | .addComponent _ e _ => e ∈ w.live
  | .removeComponent _ e => e ∈ w.live
  | _ => True

/-- Preconditions of the component stores: `registerComponent` is called
while `mNextComponentType` is below `MAX_COMPONENTS`, a component is added
only where there is none, removed or read only where there is one, and
`getComponentType` is asked for registered types. -/
def storesRespected (w : Tracked α) : Call α → Prop
  | .registerComponent _ => w.ecs.mComponentManager.mNextComponentType < MAX_COMPONENTS
  | .addComponent t e _ => ¬ w.ecs.hasComponent t e
  | .removeComponent t e => w.ecs.hasComponent t e
  | .getComponent t e => w.ecs.hasComponent t e
  | .getComponentType t => t ∈ w.ecs.mComponentManager.mComponentTypes
  | _ => True

/-- Preconditions of the interest sets: a system is registered once and is
given a non-empty required signature that no live entity matches, and
components are added or removed only when every registered system has its
signature. -/
def systemsRespected (w : Tracked α) : Call α → Prop
  | .addComponent _ _ _ =>
    ∀ k ∈ w.ecs.mSystemManager.mSystems.keys, k ∈ w.ecs.mSystemManager.mSignatures
  | .removeComponent _ _ =>
    ∀ k ∈ w.ecs.mSystemManager.mSystems.keys, k ∈ w.ecs.mSystemManager.mSignatures
  | .registerSystem t =>
    t ∉ w.ecs.mSystemManager.mSystems ∧ t ∉ w.ecs.mSystemManager.mSignatures
  | .setSystemSignature t sig =>
    t ∈ w.ecs.mSystemManager.mSystems ∧ t ∉ w.ecs.mSystemManager.mSignatures ∧ sig ≠ 0 ∧
    ∀ e ∈ w.live, w.ecs.mEntityManager.mSignatures e.toNat &&& sig ≠ sig
  | _ => True

/-- Live entity arguments and respected store preconditions. -/
def storesAndEntities (w : Tracked α) (c : Call α) : Prop :=
  w.entitiesLive c ∧ w.storesRespected c

/-- Live entity arguments and respected system preconditions. -/
def systemsAndEntities (w : Tracked α) (c : Call α) : Prop :=
  w.entitiesLive c ∧ w.systemsRespected c

end Tracked

instance {α : Type} (w : Tracked α) (c : Call α) : Decidable (w.entitiesLive c) := by
  cases c <;> unfold Tracked.entitiesLive <;> infer_instance

instance {α : Type} (w : Tracked α) (c : Call α) : Decidable (w.storesRespected c) := by
  cases c <;> unfold Tracked.storesRespected <;> infer_instance

instance {α : Type} (w : Tracked α) (c : Call α) : Decidable (w.systemsRespected c) := by
  cases c <;> unfold Tracked.systemsRespected <;> infer_instance

instance {α : Type} (w : Tracked α) (c : Call α) : Decidable (w.storesAndEntities c) := by
  unfold Tracked.storesAndEntities; infer_instance

instance {α : Type} (w : Tracked α) (c : Call α) : Decidable (w.systemsAndEntities c) := by
  unfold Tracked.systemsAndEntities; infer_instance

namespace Tracked

variable {α : Type} [Inhabited α]

/-- One call with the bookkeeping of the live list; `none` when the call
faults. -/
def step (w : Tracked α) (c : Call α) : Option (Tracked α) :=
  match w.ecs.call c with
  | .ok r => some { ecs := r.2, live := liveAfter w.live c r.1 }
  | .error _ => none

/-- A sequence of calls; `none` when one of them faults. -/
def run (w : Tracked α) : List (Call α) → Option (Tracked α)
  | [] => some w
  | c :: cs =>
    match w.step c with
    | some w' => run w' cs
    | none => none

/-- A sequence of calls each of which satisfies the precondition `pre` in the
state where it is made; `none` when a precondition is violated or a call
faults. -/
def runWhere (pre : Tracked α → Call α → Prop) [∀ w c, Decidable (pre w c)]
    (w : Tracked α) : List (Call α) → Option (Tracked α)
  | [] => some w
  | c :: cs =>
    if pre w c then
      match w.step c with
      | some w' => runWhere pre w' cs
      | none => none
    else none

end Tracked

/-! ## Well-formedness and invariants -/

/-- Well-formed store: the two index maps are mutually inverse, the slots in
use are exactly `0, ..., mSize - 1`, `mSize` is the number of present entities
and does not exceed the capacity of the dense array. -/
structure ComponentArray.WF {α : Type} (c : ComponentArray α) : Prop where
  inverse : ∀ e i, c.mEntityToIndexMap.find e = some i ↔ c.mIndexToEntityMap.find i = some e
  dense : ∀ i, i ∈ c.mIndexToEntityMap ↔ i < c.mSize
  count : c.mEntityToIndexMap.keys.length = c.mSize
  capacity : c.mSize ≤ MAX_ENTITIES

/-- The value `getData` reads for a present entity, without the side effect
of the map access. -/
def ComponentArray.valueOf {α : Type} (c : ComponentArray α) (entity : Entity) : Option α :=
  (c.mEntityToIndexMap.find entity).map c.mComponentArray

/-- Two stores agree on every entity other than `e`, and `e` is not added. -/
def ComponentArray.SameExcept {α : Type} (e : Entity) (a a' : ComponentArray α) : Prop :=
  (∀ e', e' ≠ e → ((a'.present e' ↔ a.present e') ∧ a'.valueOf e' = a.valueOf e')) ∧
  (a'.present e → a.present e)

/-- The interest set after the test of `entitySignatureChanged` against the
required signature `systemSignature`. -/
def System.retest (entity : Entity) (entitySignature systemSignature : Signature)
    (system : System) : System :=
  if entitySignature &&& systemSignature = systemSignature then
    { mEntities := insert entity system.mEntities }
  else { mEntities := system.mEntities.erase entity }

/-- The signature `entitySignatureChanged` tests the system `t` against: the
stored one, or the value-initialised empty one. -/
def SystemManager.required (m : SystemManager) (t : TypeName) : Signature :=
  (m.mSignatures.find t).getD 0

/-- The interest record of `t` once `entitySignatureChanged` has visited it. -/
def SystemManager.systemAfter (entity : Entity) (entitySignature : Signature)
    (m : SystemManager) (t : TypeName) : Option System :=
  (m.mSystems.find t).map (System.retest entity entitySignature (m.required t))

/-- The stored signature of `t` once `entitySignatureChanged` has visited it:
a registered system without one has received the empty signature. -/
def SystemManager.signatureAfter (m : SystemManager) (t : TypeName) : Option Signature :=
  if (m.mSystems.find t).isSome then some (m.required t) else m.mSignatures.find t

/-- Invariant of the entity pool with respect to the live list. -/
structure EntityManager.Inv (m : EntityManager) (live : List Entity) : Prop where
  queueNodup : m.mAvailableEntities.Nodup
  liveNodup : live.Nodup
  disjoint : ∀ e ∈ live, e ∉ m.mAvailableEntities
  cover : ∀ e, EntityManager.inRange e ↔ (e ∈ live ∨ e ∈ m.mAvailableEntities)

/-- Invariant of the type bookkeeping of the component manager: ids are
pairwise different, below the next id, and that within the signature width. -/
structure ComponentManager.TypesInv {α : Type} (m : ComponentManager α) : Prop where
  sameKeys : ∀ t, t ∈ m.mComponentTypes ↔ t ∈ m.mComponentArrays
  bound : m.mNextComponentType ≤ MAX_COMPONENTS
  below : ∀ t k, m.mComponentTypes.find t = some k → k < m.mNextComponentType
  injective : ∀ t t' k, m.mComponentTypes.find t = some k →
    m.mComponentTypes.find t' = some k → t = t'

/-- Signature consistency: presence in the store of a type is the bit of the
type's id in the entity's signature. -/
def ECS.SignatureConsistent {α : Type} (s : ECS α) : Prop :=
  ∀ t a k, s.mComponentManager.mComponentArrays.find t = some a →
    s.mComponentManager.mComponentTypes.find t = some k →
    ∀ e, a.present e ↔
      (EntityManager.inRange e ∧ (s.mEntityManager.mSignatures e.toNat).testBit k = true)

/-- Interest correctness: a registered system whose required signature is
stored holds exactly the entities whose signature contains it; one without a
stored signature holds none. -/
def ECS.InterestCorrect {α : Type} (s : ECS α) : Prop :=
  ∀ t sys, s.mSystemManager.mSystems.find t = some sys →
    match s.mSystemManager.mSignatures.find t with
    | some req => req ≠ 0 ∧ ∀ e, e ∈ sys.mEntities ↔
        (EntityManager.inRange e ∧ s.mEntityManager.mSignatures e.toNat &&& req = req)
    | none => sys.mEntities = ∅

/-- Invariant of the component stores, the type ids and the signatures. -/
structure ECS.StoreInv {α : Type} (s : ECS α) : Prop where
  types : s.mComponentManager.TypesInv
  stores : ∀ t a, s.mComponentManager.mComponentArrays.find t = some a → a.WF
  consistent : s.SignatureConsistent
  bits : ∀ n k, (s.mEntityManager.mSignatures n).testBit k = true →
    k < s.mComponentManager.mNextComponentType

/-- Invariant of the entity pool: the pool invariant for the live list, and
an empty signature for every entity that is not live. -/
structure Tracked.PoolInv {α : Type} (w : Tracked α) : Prop where
  pool : w.ecs.mEntityManager.Inv w.live
  clean : ∀ e, EntityManager.inRange e → e ∉ w.live →
    w.ecs.mEntityManager.mSignatures e.toNat = 0

/-! ## Sequences of store and pool operations, observations -/

deriving instance DecidableEq for Except

/-- The result is a value and the value satisfies `p`. -/
def Result.holds {σ : Type} (r : Result σ) (p : σ → Prop) [DecidablePred p] : Bool :=
  match r with
  | .ok s => decide (p s)
  | .error _ => false

/-- `insertData` for each pair of the list, in order. -/
def ComponentArray.insertAll {α : Type} (c : ComponentArray α) :
    List (Entity × α) → Result (ComponentArray α)
  | [] => .ok c
  | p :: ps =>
    match c.insertData p.1 p.2 with
    | .ok c' => ComponentArray.insertAll c' ps
    | .error f => .error f

/-- `n` consecutive calls of `EntityManager::createEntity`: the entities
returned, in order, and the manager afterwards. -/
def EntityManager.createMany : Nat → EntityManager → Result (List Entity × EntityManager)
  | 0, m => .ok ([], m)
  | n + 1, m =>
    match m.createEntity with
    | .ok r =>
      match EntityManager.createMany n r.2 with
      | .ok rs => .ok (r.1 :: rs.1, rs.2)
      | .error f => .error f
    | .error f => .error f

/-- A call of the entity pool. -/
inductive PoolCall where
  | createEntity
  | destroyEntity (entity : Entity)

/-- A sequence of pool calls in which only live entities are destroyed; the
second component is the list of live entities. -/
def EntityManager.runLive (m : EntityManager) (live : List Entity) :
    List PoolCall → Option (EntityManager × List Entity)
  | [] => some (m, live)
  | .createEntity :: cs =>
    match m.createEntity with
    | .ok r => EntityManager.runLive r.2 (r.1 :: live) cs
    | .error _ => none
  | .destroyEntity e :: cs =>
    if e ∈ live then
      match m.destroyEntity e with
      | .ok m' => EntityManager.runLive m' (live.erase e) cs
      | .error _ => none
    else none

/-- The value stored for the entity in the store of `typeName`, if any. -/
def ECS.componentValue {α : Type} (s : ECS α) (typeName : TypeName) (entity : Entity) :
    Option α :=
  (s.mComponentManager.mComponentArrays.find typeName).bind fun a => a.valueOf entity

/-! ## Concrete call sequences -/

/-- A call sequence that respects the preconditions: one component type, one
system requiring it, two entities, two components added and one removed. -/
def demoCalls : List (Call Nat) :=
  [.registerComponent 0, .registerSystem 9, .setSystemSignature 9 1, .createEntity,
   .createEntity, .addComponent 0 0 10, .addComponent 0 1 11, .removeComponent 0 0]

/-- The tracked state after `demoCalls`. -/
def demoWorld : Tracked Nat := (Tracked.init.run demoCalls).getD Tracked.init

/-- A component is added twice to entity 0, then removed from it and from
entity 1, which never had one. -/
def doubleAddCalls : List (Call Nat) :=
  [.registerComponent 0, .createEntity, .createEntity, .addComponent 0 0 10,
   .addComponent 0 0 20, .removeComponent 0 0, .removeComponent 0 1]

/-- The scenario of the specification: a component is added to entity 0, and
only then a system requiring the component is registered. -/
def lateSystemCalls : List (Call Nat) :=
  [.registerComponent 0, .createEntity, .addComponent 0 0 7, .registerSystem 5,
   .setSystemSignature 5 1]

/-- Three distinct entities with their component values. -/
def demoEntries : List (Entity × Nat) := [(1, 10), (2, 20), (3, 30)]

/-- The store built by inserting `demoEntries` into an empty store. -/
def demoStore : ComponentArray Nat :=
  match ComponentArray.empty.insertAll demoEntries with
  | .ok c => c
  | .error _ => ComponentArray.empty

/-- Entity 0 receives its component twice; after removals and insertions of
other entities its stale second slot is the last dense slot of the store. -/
def staleSlotCalls : List (Call Nat) :=
  [.registerComponent 0, .createEntity, .createEntity, .createEntity, .addComponent 0 1 11,
   .addComponent 0 0 10, .addComponent 0 0 20, .removeComponent 0 1, .addComponent 0 2 12,
   .removeComponent 0 0]

/-- Entity 0 is given the component value 42 and then destroyed. -/
def destroyedCalls : List (Call Nat) :=
  [.registerComponent 0, .createEntity, .addComponent 0 0 42, .destroyEntity 0]

/-- Three entities are created and entity 1 is destroyed. -/
def demoPoolCalls : List PoolCall :=
  [.createEntity, .createEntity, .createEntity, .destroyEntity 1]

/-- The pool and the live list after `demoPoolCalls`. -/
def demoPool : EntityManager × List Entity :=
  (EntityManager.new.runLive [] demoPoolCalls).getD (EntityManager.new, [])

/-- The result of `createEntity` in the state `demoWorld`. -/
def demoCreated : Entity × ECS Nat :=
  match demoWorld.ecs.createEntity with
  | .ok r => r
  | .error _ => (0, demoWorld.ecs)

/-- A component is added to the entity with id 0 before any entity has been
created (`Entity` has a public constructor from `int`). -/
def earlyAddCalls : List (Call Nat) :=
  [.registerComponent 0, .addComponent 0 0 7]

/-! ## Sequences of type-registry calls -/

/-- A call of the type bookkeeping of `ComponentManager`. -/
inductive TypeCall where
  | registerComponent (typeName : TypeName)
  | getComponentType (typeName : TypeName)

/-- A sequence of `registerComponent` and `getComponentType` calls. -/
def ComponentManager.runTypes {α : Type} [Inhabited α] (m : ComponentManager α) :
    List TypeCall → ComponentManager α
  | [] => m
  | .registerComponent t :: cs => ComponentManager.runTypes (m.registerComponent t) cs
  | .getComponentType t :: cs => ComponentManager.runTypes (m.getComponentType t).2 cs

/-- A sequence of type-registry calls in which every type is registered at
most once, at most `2 ^ 8` types are registered and `getComponentType` is
asked only for registered types; the second component lists the registered
types in the order of their registration. -/
def ComponentManager.runTypesChecked {α : Type} [Inhabited α] (m : ComponentManager α)
    (regs : List TypeName) : List TypeCall → Option (ComponentManager α × List TypeName)
  | [] => some (m, regs)
  | .registerComponent t :: cs =>
    if t ∉ regs ∧ regs.length < U8_MOD then
      ComponentManager.runTypesChecked (m.registerComponent t) (regs ++ [t]) cs
    else none
  | .getComponentType t :: cs =>
    if t ∈ regs then ComponentManager.runTypesChecked (m.getComponentType t).2 regs cs
    else none

/-- `registerComponent` for each type of the list, in order. -/
def ComponentManager.registerAll {α : Type} [Inhabited α] (m : ComponentManager α) :
    List TypeName → ComponentManager α
  | [] => m
  | t :: ts => ComponentManager.registerAll (m.registerComponent t) ts

/-- Type 1 is asked for its id before it is registered. -/
def earlyTypeQueryCalls : List TypeCall :=
  [.registerComponent 0, .getComponentType 1, .registerComponent 1]

/-- Two types are registered and both are asked for their id. -/
def demoTypeCalls : List TypeCall :=
  [.registerComponent 4, .getComponentType 4, .registerComponent 7, .getComponentType 7]

/-- The registry and the registration order after `demoTypeCalls`. -/
def demoTypes : ComponentManager Nat × List TypeName :=
  ((ComponentManager.empty : ComponentManager Nat).runTypesChecked [] demoTypeCalls).getD
    (ComponentManager.empty, [])

/-- Invariant of `runTypesChecked`: the ids are the positions in the
registration order. -/
structure ComponentManager.Ordered {α : Type} (m : ComponentManager α)
    (regs : List TypeName) : Prop where
  nodup : regs.Nodup
  size : regs.length ≤ U8_MOD
  next : m.mNextComponentType = regs.length % U8_MOD
  ids : ∀ t i, m.mComponentTypes.find t = some i ↔ regs[i]? = some t
  arrays : ∀ t, t ∈ m.mComponentArrays ↔ t ∈ regs

/-! ## Scenarios of system registration -/

/-- The scenario of the specification up to the registration of the system:
the component type 0 is registered (it has id 0) and entity 0 is given one. -/
def positionCalls : List (Call Nat) :=
  [.registerComponent 0, .createEntity, .addComponent 0 0 7]

/-- A system manager with the system 9, which requires bit 0 and holds
entity 1. -/
def demoSystems : SystemManager :=
  ((SystemManager.empty.registerSystem 9).setSignature 9 1).entitySignatureChanged 1 1

/-- A component is added between `registerSystem<S>` and
`setSystemSignature<S>`: the system 5 is registered, entity 0 receives the
component type 0, the system is then given the required signature 2 (bit 1),
and entity 1 receives the component type 0. -/
def lateSignatureCalls : List (Call Nat) :=
  [.registerComponent 0, .registerComponent 1, .registerSystem 5, .createEntity,
   .addComponent 0 0 7, .setSystemSignature 5 2, .createEntity, .addComponent 0 1 8]

/-- The system 5 is given the required signature 1 and then the required
signature 2 (bit 1); entity 0 then receives the component type 0. -/
def secondSignatureCalls : List (Call Nat) :=
  [.registerComponent 0, .registerComponent 1, .registerSystem 5, .setSystemSignature 5 1,
   .setSystemSignature 5 2, .createEntity, .addComponent 0 0 7]

/-! ## Stores at the capacity limit and outside well-formedness -/

/-- The entities `0, ..., n - 1`, each with its id as component value. -/
def entriesUpTo (n : Nat) : List (Entity × Nat) :=
  (List.range n).map fun k => (Int.ofNat k, k)

/-- The store after `getData` of entity 9 on an empty store: entity 9 has an
entry for slot 0 and `mSize` is 0. -/
def staleStore : ComponentArray Nat :=
  match (ComponentArray.empty : ComponentArray Nat).getData 9 with
  | .ok r => r.2
  | .error _ => ComponentArray.empty

/-- The value that `getData` returns, without the store afterwards. -/
def ComponentArray.readData {α : Type} (c : ComponentArray α) (entity : Entity) : Result α :=
  (c.getData entity).map Prod.fst

/-! ## More component types than signature bits -/

/-- The fault of a call that does not return. -/
def Result.fault {σ : Type} (r : Result σ) : Option Fault :=
  match r with
  | .ok _ => none
  | .error f => some f

/-- The 33 component types `0, ..., 32` are registered, and the last of them
is added to entity 0. -/
def manyTypesCalls : List (Call Nat) :=
  (List.range 33).map Call.registerComponent ++ [.createEntity, .addComponent 32 0 7]

/-! ## Adding and removing a component -/

/-- All three groups of preconditions: live entity arguments, respected
store preconditions and respected system preconditions. -/
def Tracked.allRespected {α : Type} (w : Tracked α) (c : Call α) : Prop :=
  w.entitiesLive c ∧ w.storesRespected c ∧ w.systemsRespected c

instance {α : Type} (w : Tracked α) (c : Call α) : Decidable (w.allRespected c) := by
  unfold Tracked.allRespected; infer_instance

/-- The call `addComponent<T>(e, v)` followed by `removeComponent<T>(e)`. -/
def ECS.addThenRemove {α : Type} (s : ECS α) (typeName : TypeName) (entity : Entity)
    (component : α) : Result (ECS α) := do
  let s1 ← s.addComponent typeName entity component
  s1.removeComponent typeName entity

/-- Entity 0 has the component type 0 when the system 5, which requires it,
is registered; the component type 1 is registered and not used. -/
def lateInterestCalls : List (Call Nat) :=
  [.registerComponent 0, .registerComponent 1, .createEntity, .addComponent 0 0 7,
   .registerSystem 5, .setSystemSignature 5 1]

/-- Entity 0 has the component type 0 with value 7, and the component is
removed from entity 1, which has none. -/
def staleValueCalls : List (Call Nat) :=
  [.registerComponent 0, .createEntity, .createEntity, .addComponent 0 0 7,
   .removeComponent 0 1]

/-- The entity with id 3 is given the component type 0 before it is created;
the system 6, which requires the type, is registered while no entity is
live, and then the entities 0 to 3 are created. -/
def earlyComponentCalls : List (Call Nat) :=
  [.registerComponent 0, .registerComponent 1, .addComponent 0 3 7, .registerSystem 6,
   .setSystemSignature 6 1, .createEntity, .createEntity, .createEntity, .createEntity]

/-! ## Writes through `getEntityManager`, reissued ids -/

/-- `ECS::getEntityManager`: the entity manager behind the returned pointer. -/
def ECS.getEntityManager {α : Type} (s : ECS α) : EntityManager := s.mEntityManager

/-- The call `getEntityManager()->setSignature(entity, signature)`: the write
goes through the pointer into the entity manager of the `ECS`. -/
def ECS.setSignatureByPointer {α : Type} (s : ECS α) (entity : Entity)
    (signature : Signature) : Result (ECS α) := do
  let em ← s.getEntityManager.setSignature entity signature
  pure { s with mEntityManager := em }

/-- One component type is registered and entity 0 is created. -/
def oneEntityCalls : List (Call Nat) := [.registerComponent 0, .createEntity]

/-- Entity 0 is created, receives a component and is destroyed. -/
def recycleCalls : List (Call Nat) :=
  [.registerComponent 0, .createEntity, .addComponent 0 0 7, .destroyEntity 0]

/-- The tracked state after `recycleCalls`. -/
def recycledWorld : Tracked Nat := (Tracked.init.run recycleCalls).getD Tracked.init

/-! ## A system that receives its signature first -/

/-- Calls made after the system 5 has received its required signature 2 (bit
1): two component types are registered, entity 0 is created and receives the
component type 1. -/
def signedCalls : List (Call Nat) :=
  [.registerComponent 0, .registerComponent 1, .createEntity, .addComponent 1 0 7]

/-- The state after `registerSystem<5>`, `setSystemSignature<5>(2)` and
`signedCalls`. -/
def signedWorld : ECS Nat :=
  match (((ECS.init : ECS Nat).registerSystem 5).setSystemSignature 5 2).run signedCalls with
  | .ok s => s
  | .error _ => ECS.init

/-! ## Lemmas on maps -/

namespace Map

variable {K V : Type} [DecidableEq K]

theorem find_empty (k : K) : (∅ : Map K V).find k = none := AList.lookup_empty k

theorem not_mem_iff_find {m : Map K V} {k : K} : k ∉ m ↔ m.find k = none :=
  AList.lookup_eq_none.symm

theorem mem_iff_find {m : Map K V} {k : K} : k ∈ m ↔ ∃ v, m.find k = some v := by
  rw [← AList.lookup_isSome, Option.isSome_iff_exists]; rfl

theorem mem_of_find {m : Map K V} {k : K} {v : V} (h : m.find k = some v) : k ∈ m :=
  mem_iff_find.2 ⟨v, h⟩

theorem find_assign (m : Map K V) (k : K) (v : V) (k' : K) :
    (m.assign k v).find k' = if k' = k then some v else m.find k' := by
  unfold assign find
  split
  · next h => subst h; exact AList.lookup_insert m
  · next h => exact AList.lookup_insert_ne h

theorem find_erase (m : Map K V) (k k' : K) :
    (m.erase k).find k' = if k' = k then none else m.find k' := by
  unfold erase find
  split
  · next h => subst h; exact AList.lookup_erase _ m
  · next h => exact AList.lookup_erase_ne h

theorem mem_assign {m : Map K V} {k k' : K} {v : V} : k' ∈ m.assign k v ↔ k' = k ∨ k' ∈ m :=
  AList.mem_insert m

theorem mem_erase {m : Map K V} {k k' : K} : k' ∈ m.erase k ↔ k' ≠ k ∧ k' ∈ m :=
  AList.mem_erase

theorem emplace_of_mem {m : Map K V} {k : K} (v : V) (h : k ∈ m) : m.emplace k v = m := by
  unfold emplace; rw [if_pos h]

theorem emplace_of_not_mem {m : Map K V} {k : K} (v : V) (h : k ∉ m) :
    m.emplace k v = m.assign k v := by
  unfold emplace; rw [if_neg h]; rfl

theorem index_of_find {m : Map K V} {k : K} {v : V} (d : V) (h : m.find k = some v) :
    m.index k d = (v, m) := by
  unfold find at h; unfold index; rw [h]

theorem index_of_not_mem {m : Map K V} {k : K} (d : V) (h : k ∉ m) :
    m.index k d = (d, m.assign k d) := by
  have h' := not_mem_iff_find.1 h
  unfold find at h'; unfold index; rw [h']; rfl

theorem length_keys_assign_of_mem {m : Map K V} {k : K} (v : V) (h : k ∈ m) :
    (m.assign k v).keys.length = m.keys.length := by
  unfold assign
  rw [AList.keys_insert, List.length_cons, List.length_erase_of_mem (AList.mem_keys.1 h)]
  have : 0 < m.keys.length := List.length_pos_of_mem (AList.mem_keys.1 h)
  omega

theorem length_keys_assign_of_not_mem {m : Map K V} {k : K} (v : V) (h : k ∉ m) :
    (m.assign k v).keys.length = m.keys.length + 1 := by
  unfold assign
  rw [AList.keys_insert, List.length_cons,
    List.erase_of_not_mem (fun hk => h (AList.mem_keys.2 hk))]

theorem length_keys_erase_of_mem {m : Map K V} {k : K} (h : k ∈ m) :
    (m.erase k).keys.length + 1 = m.keys.length := by
  unfold erase
  rw [AList.keys_erase, List.length_erase_of_mem (AList.mem_keys.1 h)]
  have : 0 < m.keys.length := List.length_pos_of_mem (AList.mem_keys.1 h)
  omega

end Map

/-! ## Lemmas on the component store -/

namespace ComponentArray
variable {α : Type}

theorem present_iff_find {c : ComponentArray α} {e : Entity} :
    c.present e ↔ ∃ i, c.mEntityToIndexMap.find e = some i := Map.mem_iff_find

theorem insertData_eq {c : ComponentArray α} (h : c.mSize < MAX_ENTITIES) (e : Entity) (v : α) :
    c.insertData e v = .ok
      { mComponentArray := Function.update c.mComponentArray c.mSize v
        mEntityToIndexMap := c.mEntityToIndexMap.assign e c.mSize
        mIndexToEntityMap := c.mIndexToEntityMap.assign c.mSize e
        mSize := c.mSize + 1 } := by
  have h2 : (c.mSize + 1) % SIZE_MOD = c.mSize + 1 := by
    unfold MAX_ENTITIES at h; unfold SIZE_MOD; omega
  simp only [insertData, if_pos h, h2]

theorem insertData_ok_size {c c' : ComponentArray α} {e : Entity} {v : α}
    (h : c.insertData e v = .ok c') : c.mSize < MAX_ENTITIES := by
  by_contra hn
  simp only [insertData, if_neg hn] at h
  cases h

theorem slot_lt {c : ComponentArray α} (h : c.WF) {e : Entity} {i : Nat}
    (he : c.mEntityToIndexMap.find e = some i) : i < c.mSize :=
  (h.dense i).1 (Map.mem_of_find ((h.inverse e i).1 he))

theorem last_entity {c : ComponentArray α} (h : c.WF) (hs : 0 < c.mSize) :
    ∃ x, c.mIndexToEntityMap.find (c.mSize - 1) = some x ∧
      c.mEntityToIndexMap.find x = some (c.mSize - 1) := by
  have hm : c.mSize - 1 ∈ c.mIndexToEntityMap := (h.dense _).2 (by omega)
  obtain ⟨x, hx⟩ := Map.mem_iff_find.1 hm
  exact ⟨x, hx, (h.inverse x _).2 hx⟩

/-- The store after the swap-remove of a present entity. -/
theorem removeData_eq {c : ComponentArray α} (h : c.WF) {e x : Entity} {i : Nat}
    (he : c.mEntityToIndexMap.find e = some i)
    (hx : c.mIndexToEntityMap.find (c.mSize - 1) = some x) :
    c.removeData e = .ok
      { mComponentArray := Function.update c.mComponentArray i (c.mComponentArray (c.mSize - 1))
        mEntityToIndexMap := (c.mEntityToIndexMap.assign x i).erase e
        mIndexToEntityMap := (c.mIndexToEntityMap.assign i x).erase (c.mSize - 1)
        mSize := c.mSize - 1 } := by
  have hi := slot_lt h he
  have hc := h.capacity
  have h2 : (c.mSize + SIZE_MOD - 1) % SIZE_MOD = c.mSize - 1 := by
    unfold MAX_ENTITIES at hc; unfold SIZE_MOD; omega
  have hg : i < MAX_ENTITIES ∧ c.mSize - 1 < MAX_ENTITIES := by omega
  simp only [removeData, Map.index_of_find 0 he, h2, Map.index_of_find 0 hx, if_pos hg]

end ComponentArray

namespace ComponentArray
variable {α : Type}

/-- The store that `removeData` leaves, for entity `e` at slot `i` and last entity `x`. -/
theorem removeData_wf {c : ComponentArray α} (h : c.WF) {e x : Entity} {i : Nat}
    (he : c.mEntityToIndexMap.find e = some i)
    (hx : c.mIndexToEntityMap.find (c.mSize - 1) = some x) :
    ComponentArray.WF
      { mComponentArray := Function.update c.mComponentArray i (c.mComponentArray (c.mSize - 1))
        mEntityToIndexMap := (c.mEntityToIndexMap.assign x i).erase e
        mIndexToEntityMap := (c.mIndexToEntityMap.assign i x).erase (c.mSize - 1)
        mSize := c.mSize - 1 } := by
  have hi := slot_lt h he
  have hx' : c.mEntityToIndexMap.find x = some (c.mSize - 1) := (h.inverse _ _).2 hx
  have he' : c.mIndexToEntityMap.find i = some e := (h.inverse _ _).1 he
  refine ⟨?_, ?_, ?_, ?_⟩
  · intro k j
    simp only [Map.find_erase, Map.find_assign]
    by_cases hke : k = e
    · subst hke
      simp only [if_true]
      by_cases hjl : j = c.mSize - 1
      · simp [hjl]
      · by_cases hji : j = i
        · subst hji
          simp only [if_neg hjl, if_true, Option.some.injEq]
          constructor
          · intro hh; cases hh
          · intro hh; subst hh
            rw [he] at hx'; cases hx'; exact absurd rfl hjl
        · simp only [if_neg hjl, if_neg hji]
          constructor
          · intro hh; cases hh
          · intro hh
            have := (h.inverse _ _).2 hh
            rw [he] at this; cases this; exact absurd rfl hji
    · simp only [if_neg hke]
      by_cases hkx : k = x
      · subst hkx
        simp only [if_true, Option.some.injEq]
        by_cases hjl : j = c.mSize - 1
        · subst hjl
          simp only [if_true]
          constructor
          · intro hh; subst hh
            rw [he'] at hx; cases hx; exact absurd rfl hke
          · intro hh; cases hh
        · simp only [if_neg hjl]
          by_cases hji : j = i
          · simp [hji]
          · simp only [if_neg hji]
            constructor
            · intro hh; exact absurd hh.symm hji
            · intro hh
              have := (h.inverse _ _).2 hh
              rw [hx'] at this; cases this; exact absurd rfl hjl
      · simp only [if_neg hkx]
        by_cases hjl : j = c.mSize - 1
        · subst hjl
          simp only [if_true]
          constructor
          · intro hh
            have := (h.inverse _ _).1 hh
            rw [hx] at this; cases this; exact absurd rfl hkx
          · intro hh; cases hh
        · simp only [if_neg hjl]
          by_cases hji : j = i
          · subst hji
            simp only [if_true, Option.some.injEq]
            constructor
            · intro hh
              have := (h.inverse _ _).1 hh
              rw [he'] at this; cases this; exact absurd rfl hke
            · intro hh; exact absurd hh.symm hkx
          · simp only [if_neg hji]
            exact h.inverse k j
  · intro j
    show j ∈ Map.erase _ _ ↔ j < c.mSize - 1
    rw [Map.mem_erase, Map.mem_assign, h.dense j]
    omega
  · show (Map.erase _ _).keys.length = c.mSize - 1
    have h1 : e ∈ c.mEntityToIndexMap.assign x i :=
      Map.mem_assign.2 (Or.inr (Map.mem_of_find he))
    have h2 := Map.length_keys_erase_of_mem h1
    have h3 := Map.length_keys_assign_of_mem i (Map.mem_of_find hx')
    have h4 := h.count
    omega
  · show c.mSize - 1 ≤ MAX_ENTITIES
    have := h.capacity
    omega

end ComponentArray

namespace ComponentArray
variable {α : Type}

theorem empty_wf [Inhabited α] : (ComponentArray.empty : ComponentArray α).WF := by
  refine ⟨?_, ?_, rfl, Nat.zero_le _⟩
  · intro e i
    show Map.find ∅ e = some i ↔ Map.find ∅ i = some e
    simp [Map.find_empty]
  · intro i
    show i ∈ (∅ : Map Nat Int) ↔ i < 0
    simp

theorem insertData_wf {c : ComponentArray α} (h : c.WF) {e : Entity} (ha : ¬ c.present e)
    (hs : c.mSize < MAX_ENTITIES) (v : α) :
    ComponentArray.WF
      { mComponentArray := Function.update c.mComponentArray c.mSize v
        mEntityToIndexMap := c.mEntityToIndexMap.assign e c.mSize
        mIndexToEntityMap := c.mIndexToEntityMap.assign c.mSize e
        mSize := c.mSize + 1 } := by
  have hn : c.mEntityToIndexMap.find e = none := Map.not_mem_iff_find.1 ha
  have hfree : ∀ k, c.mIndexToEntityMap.find c.mSize ≠ some k := by
    intro k hk
    have := (h.dense _).1 (Map.mem_of_find hk)
    omega
  refine ⟨?_, ?_, ?_, ?_⟩
  · intro k j
    simp only [Map.find_assign]
    by_cases hke : k = e
    · subst hke
      simp only [if_true, Option.some.injEq]
      by_cases hj : j = c.mSize
      · simp [hj]
      · simp only [if_neg hj]
        constructor
        · intro hh; exact absurd hh.symm hj
        · intro hh
          have := (h.inverse _ _).2 hh
          rw [hn] at this; cases this
    · simp only [if_neg hke]
      by_cases hj : j = c.mSize
      · subst hj
        simp only [if_true, Option.some.injEq]
        constructor
        · intro hh; exact absurd ((h.inverse _ _).1 hh) (hfree k)
        · intro hh; exact absurd hh.symm hke
      · simp only [if_neg hj]
        exact h.inverse k j
  · intro j
    show j ∈ Map.assign _ _ _ ↔ j < c.mSize + 1
    rw [Map.mem_assign, h.dense j]
    omega
  · show (Map.assign _ _ _).keys.length = c.mSize + 1
    rw [Map.length_keys_assign_of_not_mem _ ha, h.count]
  · show c.mSize + 1 ≤ MAX_ENTITIES
    omega

/-- Specification of `removeData` on a present entity of a well-formed store. -/
theorem removeData_spec {c : ComponentArray α} (h : c.WF) {e : Entity} (hp : c.present e) :
    ∃ c', c.removeData e = .ok c' ∧ c'.WF ∧ c'.mSize + 1 = c.mSize ∧ ¬ c'.present e ∧
      (∀ e', e' ≠ e → (c'.present e' ↔ c.present e')) ∧
      (∀ e', e' ≠ e → c'.valueOf e' = c.valueOf e') := by
  obtain ⟨i, he⟩ := present_iff_find.1 hp
  have hi := slot_lt h he
  obtain ⟨x, hx, hx'⟩ := last_entity h (by omega)
  refine ⟨_, removeData_eq h he hx, removeData_wf h he hx, ?_, ?_, ?_, ?_⟩
  · show c.mSize - 1 + 1 = c.mSize
    omega
  · show ¬ e ∈ Map.erase _ _
    rw [Map.mem_erase]
    exact fun hh => hh.1 rfl
  · intro e' hne
    show e' ∈ Map.erase _ _ ↔ e' ∈ c.mEntityToIndexMap
    rw [Map.mem_erase, Map.mem_assign]
    constructor
    · rintro ⟨_, hh | hh⟩
      · subst hh; exact Map.mem_of_find hx'
      · exact hh
    · intro hh; exact ⟨hne, Or.inr hh⟩
  · intro e' hne
    simp only [valueOf, Map.find_erase, Map.find_assign, if_neg hne]
    by_cases hex : e' = x
    · subst hex
      simp only [if_true, hx', Option.map_some', Function.update_same]
    · simp only [if_neg hex]
      cases hf : c.mEntityToIndexMap.find e' with
      | none => rfl
      | some j =>
        have hji : j ≠ i := by
          intro hji; subst hji
          have h1 := (h.inverse _ _).1 hf
          have h2 := (h.inverse _ _).1 he
          rw [h1] at h2; cases h2; exact hne rfl
        simp only [Option.map_some', Function.update_noteq hji]

theorem getData_of_present {c : ComponentArray α} (h : c.WF) {e : Entity} {i : Nat}
    (he : c.mEntityToIndexMap.find e = some i) :
    c.getData e = .ok (c.mComponentArray i, c) := by
  have hi := slot_lt h he
  have hc := h.capacity
  have hg : i < MAX_ENTITIES := by omega
  simp only [getData, Map.index_of_find 0 he, if_pos hg]

theorem getData_of_absent {c : ComponentArray α} {e : Entity} (ha : ¬ c.present e) :
    c.getData e = .ok (c.mComponentArray 0,
      { c with mEntityToIndexMap := c.mEntityToIndexMap.assign e 0 }) := by
  have hg : 0 < MAX_ENTITIES := by decide
  simp only [getData, Map.index_of_not_mem 0 ha, if_pos hg]

theorem entityDestroyed_of_absent {c : ComponentArray α} {e : Entity} (ha : ¬ c.present e) :
    c.entityDestroyed e = .ok c := by
  have hn : c.mEntityToIndexMap.find e = none := Map.not_mem_iff_find.1 ha
  simp [entityDestroyed, hn]

theorem entityDestroyed_of_present {c : ComponentArray α} {e : Entity} (hp : c.present e) :
    c.entityDestroyed e = c.removeData e := by
  obtain ⟨i, he⟩ := present_iff_find.1 hp
  simp [entityDestroyed, he]

/-- Specification of `entityDestroyed` on a well-formed store. -/
theorem store_entityDestroyed_spec {c : ComponentArray α} (h : c.WF) (e : Entity) :
    ∃ c', c.entityDestroyed e = .ok c' ∧ c'.WF ∧ ¬ c'.present e ∧
      (∀ e', e' ≠ e → (c'.present e' ↔ c.present e')) ∧
      (∀ e', e' ≠ e → c'.valueOf e' = c.valueOf e') := by
  by_cases hp : c.present e
  · obtain ⟨c', h1, h2, _, h4, h5, h6⟩ := removeData_spec h hp
    exact ⟨c', by rw [entityDestroyed_of_present hp, h1], h2, h4, h5, h6⟩
  · exact ⟨c, entityDestroyed_of_absent hp, h, hp, fun _ _ => Iff.rfl, fun _ _ => rfl⟩

end ComponentArray

/-! ## Lemmas on the component manager -/

namespace ComponentArray
variable {α : Type}

theorem SameExcept.refl (e : Entity) (a : ComponentArray α) : SameExcept e a a :=
  ⟨fun _ _ => ⟨Iff.rfl, rfl⟩, id⟩

theorem SameExcept.trans {e : Entity} {a b c : ComponentArray α}
    (h1 : SameExcept e a b) (h2 : SameExcept e b c) : SameExcept e a c :=
  ⟨fun e' hne =>
      ⟨(h2.1 e' hne).1.trans (h1.1 e' hne).1, (h2.1 e' hne).2.trans (h1.1 e' hne).2⟩,
    fun h => h1.2 (h2.2 h)⟩

end ComponentArray

namespace ComponentManager
variable {α : Type}

theorem entityDestroyedAt_of_find {arrays : Map TypeName (ComponentArray α)} {t : TypeName}
    {a a' : ComponentArray α} {e : Entity} (hf : arrays.find t = some a)
    (h : a.entityDestroyed e = .ok a') :
    entityDestroyedAt e arrays t = .ok (arrays.assign t a') := by
  simp only [entityDestroyedAt, hf, h]; rfl

theorem entityDestroyedAt_of_not_mem {arrays : Map TypeName (ComponentArray α)} {t : TypeName}
    (e : Entity) (hf : arrays.find t = none) :
    entityDestroyedAt e arrays t = .ok arrays := by
  simp only [entityDestroyedAt, hf]; rfl

/-- The loop of `entityDestroyed` over a list of keys: it returns, keeps the
key set and the well-formedness, purges `e` from the stores of the listed
keys and changes nothing else. -/
theorem foldlM_entityDestroyedAt (e : Entity) :
    ∀ (ks : List TypeName) (arrays : Map TypeName (ComponentArray α)),
      (∀ t a, arrays.find t = some a → a.WF) →
      ∃ arrays', ks.foldlM (entityDestroyedAt e) arrays = .ok arrays' ∧
        (∀ t, arrays'.find t = none ↔ arrays.find t = none) ∧
        ∀ t a, arrays.find t = some a → ∃ a', arrays'.find t = some a' ∧ a'.WF ∧
          ComponentArray.SameExcept e a a' ∧ (t ∈ ks → ¬ a'.present e) := by
  intro ks
  induction ks with
  | nil =>
    intro arrays hwf
    refine ⟨arrays, rfl, fun _ => Iff.rfl, ?_⟩
    intro t a ha
    exact ⟨a, ha, hwf t a ha, ComponentArray.SameExcept.refl e a, fun h => by cases h⟩
  | cons k ks ih =>
    intro arrays hwf
    cases hk : arrays.find k with
    | none =>
      obtain ⟨arrays', h1, h2, h3⟩ := ih arrays hwf
      refine ⟨arrays', ?_, h2, ?_⟩
      · rw [List.foldlM_cons, entityDestroyedAt_of_not_mem e hk]; exact h1
      · intro t a ha
        obtain ⟨a', q1, q2, q3, q4⟩ := h3 t a ha
        refine ⟨a', q1, q2, q3, ?_⟩
        intro hmem
        rcases List.mem_cons.1 hmem with hh | hh
        · subst hh; rw [hk] at ha; cases ha
        · exact q4 hh
    | some ak =>
      obtain ⟨ak', d1, d2, d3, d4, d5⟩ :=
        ComponentArray.store_entityDestroyed_spec (hwf k ak hk) e
      have hwf1 : ∀ t a, (arrays.assign k ak').find t = some a → a.WF := by
        intro t a ha
        rw [Map.find_assign] at ha
        split at ha
        · cases ha; exact d2
        · exact hwf t a ha
      obtain ⟨arrays', h1, h2, h3⟩ := ih (arrays.assign k ak') hwf1
      refine ⟨arrays', ?_, ?_, ?_⟩
      · rw [List.foldlM_cons, entityDestroyedAt_of_find hk d1]; exact h1
      · intro t
        rw [h2 t, Map.find_assign]
        split
        · next h => subst h; simp [hk]
        · exact Iff.rfl
      · intro t a ha
        by_cases htk : t = k
        · subst htk
          rw [hk] at ha; cases ha
          have hf : (arrays.assign t ak').find t = some ak' := by
            rw [Map.find_assign, if_pos rfl]
          obtain ⟨a', q1, q2, q3, _⟩ := h3 t ak' hf
          have hs : ComponentArray.SameExcept e ak ak' :=
            ⟨fun e' hne => ⟨d4 e' hne, d5 e' hne⟩, fun hp => absurd hp d3⟩
          exact ⟨a', q1, q2, hs.trans q3, fun _ hp => d3 (q3.2 hp)⟩
        · have hf : (arrays.assign k ak').find t = some a := by
            rw [Map.find_assign, if_neg htk]; exact ha
          obtain ⟨a', q1, q2, q3, q4⟩ := h3 t a hf
          refine ⟨a', q1, q2, q3, ?_⟩
          intro hmem
          rcases List.mem_cons.1 hmem with hh | hh
          · exact absurd hh htk
          · exact q4 hh

/-- Specification of `ComponentManager::entityDestroyed` when every store is
well formed. -/
theorem manager_entityDestroyed_spec {m : ComponentManager α}
    (hwf : ∀ t a, m.mComponentArrays.find t = some a → a.WF) (e : Entity) :
    ∃ m', m.entityDestroyed e = .ok m' ∧
      m'.mComponentTypes = m.mComponentTypes ∧
      m'.mNextComponentType = m.mNextComponentType ∧
      (∀ t, m'.mComponentArrays.find t = none ↔ m.mComponentArrays.find t = none) ∧
      ∀ t a, m.mComponentArrays.find t = some a →
        ∃ a', m'.mComponentArrays.find t = some a' ∧
          a'.WF ∧ ComponentArray.SameExcept e a a' ∧ ¬ a'.present e := by
  obtain ⟨arrays', h1, h2, h3⟩ := foldlM_entityDestroyedAt e m.mComponentArrays.keys _ hwf
  refine ⟨{ m with mComponentArrays := arrays' }, ?_, rfl, rfl, h2, ?_⟩
  · simp only [entityDestroyed, h1]; rfl
  · intro t a ha
    obtain ⟨a', q1, q2, q3, q4⟩ := h3 t a ha
    exact ⟨a', q1, q2, q3, q4 (AList.mem_keys.1 (Map.mem_of_find ha))⟩

end ComponentManager

/-! ## Lemmas on the system manager -/

namespace SystemManager

theorem retest_retest (e : Entity) (sig req : Signature) (sys : System) :
    System.retest e sig req (System.retest e sig req sys) = System.retest e sig req sys := by
  unfold System.retest
  by_cases h : sig &&& req = req
  · simp [h]
  · simp [h]

theorem mem_retest {e e' : Entity} {sig req : Signature} {sys : System} :
    e' ∈ (System.retest e sig req sys).mEntities ↔
      if e' = e then sig &&& req = req else e' ∈ sys.mEntities := by
  unfold System.retest
  by_cases h : sig &&& req = req
  · by_cases he : e' = e
    · simp [h, he]
    · simp [h, he]
  · by_cases he : e' = e
    · simp [h, he]
    · simp [h, he]

/-- One iteration of the loop of `entityDestroyed`, read through `find`. -/
theorem find_entityDestroyedAt (e : Entity) (systems : Map TypeName System) (k t : TypeName) :
    (entityDestroyedAt e systems k).find t =
      if t = k then (systems.find t).map (fun s => { mEntities := s.mEntities.erase e })
      else systems.find t := by
  unfold entityDestroyedAt
  cases hk : systems.find k with
  | none =>
    by_cases h : t = k
    · subst h; simp [hk]
    · simp [h]
  | some sys =>
    simp only [Map.find_assign]
    by_cases h : t = k
    · subst h; simp [hk]
    · simp [h]

theorem find_foldl_entityDestroyedAt (e : Entity) :
    ∀ (ks : List TypeName) (systems : Map TypeName System) (t : TypeName),
      (ks.foldl (entityDestroyedAt e) systems).find t =
        if t ∈ ks then (systems.find t).map (fun s => { mEntities := s.mEntities.erase e })
        else systems.find t := by
  intro ks
  induction ks with
  | nil => intro systems t; simp
  | cons k ks ih =>
    intro systems t
    rw [List.foldl_cons, ih, find_entityDestroyedAt]
    by_cases h : t = k
    · subst h
      by_cases hm : t ∈ ks
      · cases systems.find t <;> simp [hm]
      · simp [hm]
    · by_cases hm : t ∈ ks
      · simp [h, hm]
      · simp [h, hm]

/-- Specification of `SystemManager::entityDestroyed`. -/
theorem systems_entityDestroyed_spec (m : SystemManager) (e : Entity) :
    (m.entityDestroyed e).mSignatures = m.mSignatures ∧
    ∀ t, (m.entityDestroyed e).mSystems.find t =
      (m.mSystems.find t).map (fun s => { mEntities := s.mEntities.erase e }) := by
  refine ⟨rfl, ?_⟩
  intro t
  show Map.find (List.foldl _ _ _) t = _
  rw [find_foldl_entityDestroyedAt]
  by_cases hm : t ∈ m.mSystems.keys
  · simp [hm]
  · have : m.mSystems.find t = none :=
      Map.not_mem_iff_find.1 (fun h => hm (AList.mem_keys.1 h))
    simp [hm, this]

theorem entitySignatureChangedAt_systems (e : Entity) (sig : Signature) (m : SystemManager)
    (k t : TypeName) :
    (entitySignatureChangedAt e sig m k).mSystems.find t =
      if t = k then m.systemAfter e sig t else m.mSystems.find t := by
  unfold entitySignatureChangedAt systemAfter required
  cases hk : m.mSystems.find k with
  | none =>
    by_cases h : t = k
    · subst h; simp [hk]
    · simp [h]
  | some sys =>
    cases hs : m.mSignatures.find k with
    | none =>
      have hi : m.mSignatures.index k 0 = (0, m.mSignatures.assign k 0) :=
        Map.index_of_not_mem 0 (Map.not_mem_iff_find.2 hs)
      by_cases h : t = k
      · subst h
        by_cases hc : sig &&& 0 = 0
        · simp [hi, hk, hs, System.retest, Map.find_assign]
        · simp [hi, hk, hs, System.retest, Map.find_assign]
      · by_cases hc : sig &&& 0 = 0
        · simp [hi, h, Map.find_assign]
        · simp [hi, h, Map.find_assign]
    | some req =>
      have hi : m.mSignatures.index k 0 = (req, m.mSignatures) := Map.index_of_find 0 hs
      by_cases h : t = k
      · subst h
        by_cases hc : sig &&& req = req
        · simp [hi, hk, hs, System.retest, Map.find_assign, hc]
        · simp [hi, hk, hs, System.retest, Map.find_assign, hc]
      · by_cases hc : sig &&& req = req
        · simp [hi, h, Map.find_assign, hc]
        · simp [hi, h, Map.find_assign, hc]

theorem entitySignatureChangedAt_signatures (e : Entity) (sig : Signature) (m : SystemManager)
    (k t : TypeName) :
    (entitySignatureChangedAt e sig m k).mSignatures.find t =
      if t = k then m.signatureAfter t else m.mSignatures.find t := by
  unfold entitySignatureChangedAt signatureAfter required
  cases hk : m.mSystems.find k with
  | none =>
    by_cases h : t = k
    · subst h; simp [hk]
    · simp [h]
  | some sys =>
    cases hs : m.mSignatures.find k with
    | none =>
      have hi : m.mSignatures.index k 0 = (0, m.mSignatures.assign k 0) :=
        Map.index_of_not_mem 0 (Map.not_mem_iff_find.2 hs)
      by_cases h : t = k
      · subst h
        by_cases hc : sig &&& 0 = 0
        · simp [hi, hk, hs, Map.find_assign]
        · simp [hi, hk, hs, Map.find_assign]
      · by_cases hc : sig &&& 0 = 0
        · simp [hi, h, Map.find_assign]
        · simp [hi, h, Map.find_assign]
    | some req =>
      have hi : m.mSignatures.index k 0 = (req, m.mSignatures) := Map.index_of_find 0 hs
      by_cases h : t = k
      · subst h
        by_cases hc : sig &&& req = req
        · simp [hi, hk, hs, hc]
        · simp [hi, hk, hs, hc]
      · by_cases hc : sig &&& req = req
        · simp [hi, h, hc]
        · simp [hi, h, hc]

end SystemManager

namespace SystemManager

theorem required_entitySignatureChangedAt (e : Entity) (sig : Signature) (m : SystemManager)
    (k t : TypeName) : (entitySignatureChangedAt e sig m k).required t = m.required t := by
  unfold required
  rw [entitySignatureChangedAt_signatures]
  by_cases h : t = k
  · subst h
    unfold signatureAfter required
    cases m.mSystems.find t <;> simp
  · simp [h]

theorem systemAfter_entitySignatureChangedAt (e : Entity) (sig : Signature) (m : SystemManager)
    (k t : TypeName) :
    (entitySignatureChangedAt e sig m k).systemAfter e sig t = m.systemAfter e sig t := by
  unfold systemAfter
  rw [required_entitySignatureChangedAt, entitySignatureChangedAt_systems]
  by_cases h : t = k
  · subst h
    unfold systemAfter
    cases m.mSystems.find t <;> simp [retest_retest]
  · simp [h]

theorem signatureAfter_entitySignatureChangedAt (e : Entity) (sig : Signature)
    (m : SystemManager) (k t : TypeName) :
    (entitySignatureChangedAt e sig m k).signatureAfter t = m.signatureAfter t := by
  unfold signatureAfter
  rw [required_entitySignatureChangedAt, entitySignatureChangedAt_systems,
    entitySignatureChangedAt_signatures]
  by_cases h : t = k
  · subst h
    unfold systemAfter signatureAfter
    cases m.mSystems.find t <;> simp
  · simp [h]

/-- The loop of `entitySignatureChanged` over a list of keys. -/
theorem foldl_entitySignatureChangedAt (e : Entity) (sig : Signature) :
    ∀ (ks : List TypeName) (m : SystemManager) (t : TypeName),
      ((ks.foldl (entitySignatureChangedAt e sig) m).mSystems.find t =
        if t ∈ ks then m.systemAfter e sig t else m.mSystems.find t) ∧
      ((ks.foldl (entitySignatureChangedAt e sig) m).mSignatures.find t =
        if t ∈ ks then m.signatureAfter t else m.mSignatures.find t) := by
  intro ks
  induction ks with
  | nil => intro m t; simp
  | cons k ks ih =>
    intro m t
    rw [List.foldl_cons, (ih _ t).1, (ih _ t).2, systemAfter_entitySignatureChangedAt,
      signatureAfter_entitySignatureChangedAt, entitySignatureChangedAt_systems,
      entitySignatureChangedAt_signatures]
    by_cases h : t = k
    · subst h
      by_cases hm : t ∈ ks
      · simp [hm]
      · simp [hm]
    · by_cases hm : t ∈ ks
      · simp [h, hm]
      · simp [h, hm]

/-- Specification of `SystemManager::entitySignatureChanged`: every
registered system is tested once against its stored signature (the empty one
when none is stored, which is then stored). -/
theorem entitySignatureChanged_spec (m : SystemManager) (e : Entity) (sig : Signature)
    (t : TypeName) :
    (m.entitySignatureChanged e sig).mSystems.find t = m.systemAfter e sig t ∧
    (m.entitySignatureChanged e sig).mSignatures.find t = m.signatureAfter t := by
  have h := foldl_entitySignatureChangedAt e sig m.mSystems.keys m t
  unfold entitySignatureChanged
  by_cases hm : t ∈ m.mSystems.keys
  · rw [if_pos hm, if_pos hm] at h; exact h
  · rw [if_neg hm, if_neg hm] at h
    have hn : m.mSystems.find t = none :=
      Map.not_mem_iff_find.1 (fun h => hm (AList.mem_keys.1 h))
    rw [h.1, h.2]
    simp [systemAfter, signatureAfter, hn]

end SystemManager

/-! ## Lemmas on signatures and the entity manager -/

theorem Signature.set_eq {pos : Nat} (h : pos < MAX_COMPONENTS) (s : Signature) (val : Bool) :
    Signature.set s pos val = .ok (if val then s ||| 2 ^ pos else s ^^^ (s &&& 2 ^ pos)) := by
  unfold Signature.set; rw [if_pos h]

theorem Signature.testBit_set_true (s : Signature) (pos j : Nat) :
    (s ||| 2 ^ pos).testBit j = if j = pos then true else s.testBit j := by
  rw [Nat.testBit_or, Nat.testBit_two_pow]
  by_cases h : j = pos
  · subst h; simp
  · have : ¬ pos = j := fun hh => h hh.symm
    simp [h, this]

theorem Signature.testBit_set_false (s : Signature) (pos j : Nat) :
    (s ^^^ (s &&& 2 ^ pos)).testBit j = if j = pos then false else s.testBit j := by
  rw [Nat.testBit_xor, Nat.testBit_and, Nat.testBit_two_pow]
  by_cases h : j = pos
  · subst h; simp
  · have : ¬ pos = j := fun hh => h hh.symm
    simp [h, this]

namespace EntityManager

theorem toNat_ne {x e : Entity} (hx : inRange x) (he : inRange e) (h : x ≠ e) :
    x.toNat ≠ e.toNat := by
  intro heq
  apply h
  have h1 := Int.toNat_of_nonneg hx.1
  have h2 := Int.toNat_of_nonneg he.1
  rw [← h1, ← h2, heq]

theorem getSignature_eq {m : EntityManager} {e : Entity} (h : inRange e) :
    m.getSignature e = .ok (m.mSignatures e.toNat) := by
  unfold getSignature; rw [if_pos h]

theorem setSignature_eq {m : EntityManager} {e : Entity} (h : inRange e) (sig : Signature) :
    m.setSignature e sig =
      .ok { m with mSignatures := Function.update m.mSignatures e.toNat sig } := by
  unfold setSignature; rw [if_pos h]

theorem pool_destroyEntity_eq {m : EntityManager} {e : Entity} (h : inRange e) :
    m.destroyEntity e = .ok
      { mSignatures := Function.update m.mSignatures e.toNat 0
        mAvailableEntities := m.mAvailableEntities ++ [e]
        mLivingEntityCount := (m.mLivingEntityCount + U32_MOD - 1) % U32_MOD } := by
  unfold destroyEntity; rw [if_pos h]

theorem new_inv : EntityManager.new.Inv [] := by
  refine ⟨?_, List.nodup_nil, (fun _ h => by cases h), ?_⟩
  · show ((List.range' 0 MAX_ENTITIES).map Int.ofNat).Nodup
    exact (List.nodup_range' 0 MAX_ENTITIES).map Int.ofNat_injective
  · intro e
    show inRange e ↔ (e ∈ [] ∨ e ∈ (List.range' 0 MAX_ENTITIES).map Int.ofNat)
    unfold inRange MAX_ENTITIES
    simp only [List.not_mem_nil, false_or, List.mem_map, List.mem_range'_1]
    constructor
    · rintro ⟨h0, h1⟩
      refine ⟨e.toNat, ?_, ?_⟩
      · omega
      · simp [Int.toNat_of_nonneg h0]
    · rintro ⟨n, hn, rfl⟩
      simp only [Int.ofNat_eq_coe]
      omega

theorem Inv.create {m : EntityManager} {live : List Entity} (h : m.Inv live) {id : Entity}
    {rest : List Int} (hq : m.mAvailableEntities = id :: rest) (count : Nat) :
    EntityManager.Inv { m with mAvailableEntities := rest, mLivingEntityCount := count }
      (id :: live) := by
  have hnd := h.queueNodup
  rw [hq] at hnd
  have hnd' := List.nodup_cons.1 hnd
  refine ⟨hnd'.2, ?_, ?_, ?_⟩
  · refine List.nodup_cons.2 ⟨?_, h.liveNodup⟩
    intro hl
    exact h.disjoint id hl (by rw [hq]; exact List.mem_cons_self _ _)
  · intro e he hr
    rcases List.mem_cons.1 he with hh | hh
    · subst hh; exact hnd'.1 hr
    · exact h.disjoint e hh (by rw [hq]; exact List.mem_cons_of_mem _ hr)
  · intro e
    rw [h.cover e, hq]
    simp only [List.mem_cons]
    tauto

theorem Inv.destroy {m : EntityManager} {live : List Entity} (h : m.Inv live) {e : Entity}
    (he : e ∈ live) (sigs : Nat → Signature) (count : Nat) :
    EntityManager.Inv
      { mSignatures := sigs, mAvailableEntities := m.mAvailableEntities ++ [e],
        mLivingEntityCount := count } (live.erase e) := by
  refine ⟨?_, h.liveNodup.erase e, ?_, ?_⟩
  · show (m.mAvailableEntities ++ [e]).Nodup
    rw [List.nodup_append]
    refine ⟨h.queueNodup, List.nodup_singleton e, ?_⟩
    intro x hx hx'
    rw [List.mem_singleton] at hx'
    subst hx'
    exact h.disjoint x he hx
  · intro x hx
    show x ∉ m.mAvailableEntities ++ [e]
    rw [h.liveNodup.mem_erase_iff] at hx
    rw [List.mem_append, List.mem_singleton]
    rintro (hh | hh)
    · exact h.disjoint x hx.2 hh
    · exact hx.1 hh
  · intro x
    show inRange x ↔ (x ∈ live.erase e ∨ x ∈ m.mAvailableEntities ++ [e])
    rw [h.cover x, h.liveNodup.mem_erase_iff, List.mem_append, List.mem_singleton]
    by_cases hxe : x = e
    · subst hxe; tauto
    · tauto

theorem Inv.inRange_of_live {m : EntityManager} {live : List Entity} (h : m.Inv live)
    {e : Entity} (he : e ∈ live) : inRange e :=
  (h.cover e).2 (Or.inl he)

end EntityManager

/-! ## The calls of the facade in closed form -/

namespace ECS
variable {α : Type}

/-- What `addComponent` returns when none of its steps faults. -/
theorem addComponent_eq {s : ECS α} {t : TypeName} {e : Entity} {a : ComponentArray α}
    (v : α) (ha : s.mComponentManager.mComponentArrays.find t = some a)
    (hs : a.mSize < MAX_ENTITIES) (he : EntityManager.inRange e)
    (hk : (s.mComponentManager.mComponentTypes.index t 0).1 < MAX_COMPONENTS) :
    s.addComponent t e v = .ok
      { mComponentManager :=
          { mComponentTypes := (s.mComponentManager.mComponentTypes.index t 0).2
            mComponentArrays := s.mComponentManager.mComponentArrays.assign t
              { mComponentArray := Function.update a.mComponentArray a.mSize v
                mEntityToIndexMap := a.mEntityToIndexMap.assign e a.mSize
                mIndexToEntityMap := a.mIndexToEntityMap.assign a.mSize e
                mSize := a.mSize + 1 }
            mNextComponentType := s.mComponentManager.mNextComponentType }
        mEntityManager :=
          { s.mEntityManager with
            mSignatures := Function.update s.mEntityManager.mSignatures e.toNat
              (s.mEntityManager.mSignatures e.toNat |||
                2 ^ (s.mComponentManager.mComponentTypes.index t 0).1) }
        mSystemManager := s.mSystemManager.entitySignatureChanged e
          (s.mEntityManager.mSignatures e.toNat |||
            2 ^ (s.mComponentManager.mComponentTypes.index t 0).1) } := by
  simp only [addComponent, ComponentManager.addComponent, ComponentManager.getComponentArray, ha,
    ComponentArray.insertData_eq hs, EntityManager.getSignature_eq he,
    ComponentManager.getComponentType, Signature.set_eq hk,
    EntityManager.setSignature_eq he, bind, Except.bind, pure, Except.pure, if_true]

/-- A returning `addComponent` has passed every check of the model. -/
theorem addComponent_ok {s s' : ECS α} {t : TypeName} {e : Entity} {v : α}
    (h : s.addComponent t e v = .ok s') :
    ∃ a, s.mComponentManager.mComponentArrays.find t = some a ∧ a.mSize < MAX_ENTITIES ∧
      EntityManager.inRange e ∧
      (s.mComponentManager.mComponentTypes.index t 0).1 < MAX_COMPONENTS := by
  cases ha : s.mComponentManager.mComponentArrays.find t with
  | none =>
    simp only [addComponent, ComponentManager.addComponent, ComponentManager.getComponentArray,
      ha, bind, Except.bind] at h
    cases h
  | some a =>
    refine ⟨a, rfl, ?_⟩
    by_cases hs : a.mSize < MAX_ENTITIES
    · refine ⟨hs, ?_⟩
      by_cases he : EntityManager.inRange e
      · refine ⟨he, ?_⟩
        by_contra hk
        simp only [addComponent, ComponentManager.addComponent,
          ComponentManager.getComponentArray, ha, ComponentArray.insertData_eq hs,
          EntityManager.getSignature_eq he, ComponentManager.getComponentType, Signature.set,
          if_neg hk, bind, Except.bind, pure, Except.pure] at h
        cases h
      · simp only [addComponent, ComponentManager.addComponent,
          ComponentManager.getComponentArray, ha, ComponentArray.insertData_eq hs,
          EntityManager.getSignature, if_neg he, bind, Except.bind, pure, Except.pure] at h
        cases h
    · simp only [addComponent, ComponentManager.addComponent,
        ComponentManager.getComponentArray, ha, ComponentArray.insertData, if_neg hs, bind,
        Except.bind] at h
      cases h

/-- What `removeComponent` returns when none of its steps faults. -/
theorem removeComponent_eq {s : ECS α} {t : TypeName} {e : Entity} {a a' : ComponentArray α}
    (ha : s.mComponentManager.mComponentArrays.find t = some a) (hr : a.removeData e = .ok a')
    (he : EntityManager.inRange e)
    (hk : (s.mComponentManager.mComponentTypes.index t 0).1 < MAX_COMPONENTS) :
    s.removeComponent t e = .ok
      { mComponentManager :=
          { mComponentTypes := (s.mComponentManager.mComponentTypes.index t 0).2
            mComponentArrays := s.mComponentManager.mComponentArrays.assign t a'
            mNextComponentType := s.mComponentManager.mNextComponentType }
        mEntityManager :=
          { s.mEntityManager with
            mSignatures := Function.update s.mEntityManager.mSignatures e.toNat
              (s.mEntityManager.mSignatures e.toNat ^^^
                (s.mEntityManager.mSignatures e.toNat &&&
                  2 ^ (s.mComponentManager.mComponentTypes.index t 0).1)) }
        mSystemManager := s.mSystemManager.entitySignatureChanged e
          (s.mEntityManager.mSignatures e.toNat ^^^
            (s.mEntityManager.mSignatures e.toNat &&&
              2 ^ (s.mComponentManager.mComponentTypes.index t 0).1)) } := by
  simp only [removeComponent, ComponentManager.removeComponent,
    ComponentManager.getComponentArray, ha, hr, EntityManager.getSignature_eq he,
    ComponentManager.getComponentType, Signature.set_eq hk,
    EntityManager.setSignature_eq he, bind, Except.bind, pure, Except.pure]
  rfl

/-- A returning `removeComponent` has passed every check of the model. -/
theorem removeComponent_ok {s s' : ECS α} {t : TypeName} {e : Entity}
    (h : s.removeComponent t e = .ok s') :
    ∃ a a', s.mComponentManager.mComponentArrays.find t = some a ∧
      a.removeData e = .ok a' ∧ EntityManager.inRange e ∧
      (s.mComponentManager.mComponentTypes.index t 0).1 < MAX_COMPONENTS := by
  cases ha : s.mComponentManager.mComponentArrays.find t with
  | none =>
    simp only [removeComponent, ComponentManager.removeComponent,
      ComponentManager.getComponentArray, ha, bind, Except.bind] at h
    cases h
  | some a =>
    cases hr : a.removeData e with
    | error f =>
      simp only [removeComponent, ComponentManager.removeComponent,
        ComponentManager.getComponentArray, ha, hr, bind, Except.bind] at h
      cases h
    | ok a' =>
      refine ⟨a, a', rfl, hr, ?_⟩
      by_cases he : EntityManager.inRange e
      · refine ⟨he, ?_⟩
        by_contra hk
        simp only [removeComponent, ComponentManager.removeComponent,
          ComponentManager.getComponentArray, ha, hr, EntityManager.getSignature_eq he,
          ComponentManager.getComponentType, Signature.set, if_neg hk, bind, Except.bind,
          pure, Except.pure] at h
        cases h
      · simp only [removeComponent, ComponentManager.removeComponent,
          ComponentManager.getComponentArray, ha, hr, EntityManager.getSignature, if_neg he,
          bind, Except.bind, pure, Except.pure] at h
        cases h

theorem getComponent_eq {s : ECS α} {t : TypeName} {e : Entity} {a : ComponentArray α}
    {i : Nat} (ha : s.mComponentManager.mComponentArrays.find t = some a) (hwf : a.WF)
    (hi : a.mEntityToIndexMap.find e = some i) :
    s.getComponent t e = .ok (a.mComponentArray i,
      { s with mComponentManager :=
          { s.mComponentManager with
            mComponentArrays := s.mComponentManager.mComponentArrays.assign t a } }) := by
  simp only [getComponent, ComponentManager.getComponent, ComponentManager.getComponentArray, ha,
    ComponentArray.getData_of_present hwf hi, bind, Except.bind, pure, Except.pure]

/-- A returning `getComponent` leaves the entity and system managers alone. -/
theorem getComponent_ok {s : ECS α} {t : TypeName} {e : Entity} {r : α × ECS α}
    (h : s.getComponent t e = .ok r) :
    r.2.mEntityManager = s.mEntityManager ∧ r.2.mSystemManager = s.mSystemManager := by
  cases hg : s.mComponentManager.getComponent t e with
  | error f =>
    simp only [getComponent, hg, bind, Except.bind] at h
    cases h
  | ok q =>
    simp only [getComponent, hg, bind, Except.bind, pure, Except.pure, Except.ok.injEq] at h
    subst h
    exact ⟨rfl, rfl⟩

theorem getComponentType_eq {s : ECS α} {t : TypeName} {k : Nat}
    (hk : s.mComponentManager.mComponentTypes.find t = some k) :
    s.getComponentType t = (k, s) := by
  simp only [getComponentType, ComponentManager.getComponentType, Map.index_of_find 0 hk]

theorem destroyEntity_eq {s : ECS α} {e : Entity} {cm : ComponentManager α}
    (he : EntityManager.inRange e) (hc : s.mComponentManager.entityDestroyed e = .ok cm) :
    s.destroyEntity e = .ok
      { mEntityManager :=
          { mSignatures := Function.update s.mEntityManager.mSignatures e.toNat 0
            mAvailableEntities := s.mEntityManager.mAvailableEntities ++ [e]
            mLivingEntityCount :=
              (s.mEntityManager.mLivingEntityCount + U32_MOD - 1) % U32_MOD }
        mComponentManager := cm
        mSystemManager := s.mSystemManager.entityDestroyed e } := by
  simp only [destroyEntity, EntityManager.pool_destroyEntity_eq he, hc, bind, Except.bind, pure,
    Except.pure]

/-- A returning `destroyEntity` has passed every check of the model. -/
theorem destroyEntity_ok {s s' : ECS α} {e : Entity} (h : s.destroyEntity e = .ok s') :
    EntityManager.inRange e ∧ ∃ cm, s.mComponentManager.entityDestroyed e = .ok cm := by
  by_cases he : EntityManager.inRange e
  · refine ⟨he, ?_⟩
    cases hc : s.mComponentManager.entityDestroyed e with
    | error f =>
      simp only [destroyEntity, EntityManager.pool_destroyEntity_eq he, hc, bind,
        Except.bind] at h
      cases h
    | ok cm => exact ⟨cm, rfl⟩
  · simp only [destroyEntity, EntityManager.destroyEntity, if_neg he, bind, Except.bind] at h
    cases h

theorem createEntity_eq {s : ECS α} {id : Entity} {rest : List Int}
    (hq : s.mEntityManager.mAvailableEntities = id :: rest) :
    s.createEntity = .ok (id,
      { s with mEntityManager :=
          { s.mEntityManager with
            mAvailableEntities := rest
            mLivingEntityCount := (s.mEntityManager.mLivingEntityCount + 1) % U32_MOD } }) := by
  simp only [createEntity, EntityManager.createEntity, hq, bind, Except.bind, pure, Except.pure]

theorem createEntity_empty {s : ECS α} (hq : s.mEntityManager.mAvailableEntities = []) :
    s.createEntity = .error .undefinedBehaviour := by
  simp only [createEntity, EntityManager.createEntity, hq, bind, Except.bind]

end ECS

/-! ## The shape of a step -/

namespace Tracked
variable {α : Type} [Inhabited α]

theorem step_some {w w' : Tracked α} {c : Call α} (h : w.step c = some w') :
    ∃ r, w.ecs.call c = .ok r ∧ w' = { ecs := r.2, live := liveAfter w.live c r.1 } := by
  unfold step at h
  cases hc : w.ecs.call c with
  | error f => rw [hc] at h; cases h
  | ok r =>
    rw [hc] at h
    simp only [Option.some.injEq] at h
    exact ⟨r, rfl, h.symm⟩

theorem step_registerComponent {w w' : Tracked α} {t : TypeName}
    (h : w.step (.registerComponent t) = some w') :
    w' = { ecs := w.ecs.registerComponent t, live := w.live } := by
  obtain ⟨r, hc, rfl⟩ := step_some h
  cases hc; rfl

theorem step_createEntity {w w' : Tracked α} (h : w.step .createEntity = some w') :
    ∃ id rest, w.ecs.mEntityManager.mAvailableEntities = id :: rest ∧
      w' = { ecs := { w.ecs with mEntityManager :=
                { w.ecs.mEntityManager with
                  mAvailableEntities := rest
                  mLivingEntityCount :=
                    (w.ecs.mEntityManager.mLivingEntityCount + 1) % U32_MOD } }
             live := id :: w.live } := by
  obtain ⟨r, hc, rfl⟩ := step_some h
  cases hq : w.ecs.mEntityManager.mAvailableEntities with
  | nil =>
    simp only [ECS.call, ECS.createEntity_empty hq] at hc
    cases hc
  | cons id rest =>
    simp only [ECS.call, ECS.createEntity_eq hq] at hc
    cases hc
    exact ⟨id, rest, rfl, rfl⟩

theorem step_destroyEntity {w w' : Tracked α} {e : Entity}
    (h : w.step (.destroyEntity e) = some w') :
    EntityManager.inRange e ∧ ∃ cm, w.ecs.mComponentManager.entityDestroyed e = .ok cm ∧
      w' = { ecs :=
               { mEntityManager :=
                   { mSignatures := Function.update w.ecs.mEntityManager.mSignatures e.toNat 0
                     mAvailableEntities := w.ecs.mEntityManager.mAvailableEntities ++ [e]
                     mLivingEntityCount :=
                       (w.ecs.mEntityManager.mLivingEntityCount + U32_MOD - 1) % U32_MOD }
                 mComponentManager := cm
                 mSystemManager := w.ecs.mSystemManager.entityDestroyed e }
             live := w.live.erase e } := by
  obtain ⟨r, hc, rfl⟩ := step_some h
  cases hd : w.ecs.destroyEntity e with
  | error f =>
    simp only [ECS.call, hd] at hc
    cases hc
  | ok s' =>
    obtain ⟨he, cm, hcm⟩ := ECS.destroyEntity_ok hd
    rw [ECS.destroyEntity_eq he hcm] at hd
    cases hd
    simp only [ECS.call, ECS.destroyEntity_eq he hcm] at hc
    cases hc
    exact ⟨he, cm, hcm, rfl⟩

theorem step_addComponent {w w' : Tracked α} {t : TypeName} {e : Entity} {v : α}
    (h : w.step (.addComponent t e v) = some w') :
    ∃ a, w.ecs.mComponentManager.mComponentArrays.find t = some a ∧ a.mSize < MAX_ENTITIES ∧
      EntityManager.inRange e ∧
      (w.ecs.mComponentManager.mComponentTypes.index t 0).1 < MAX_COMPONENTS ∧
      w.ecs.addComponent t e v = .ok w'.ecs ∧ w'.live = w.live := by
  obtain ⟨r, hc, rfl⟩ := step_some h
  cases hd : w.ecs.addComponent t e v with
  | error f =>
    simp only [ECS.call, hd] at hc
    cases hc
  | ok s' =>
    obtain ⟨a, ha, hs, he, hk⟩ := ECS.addComponent_ok hd
    simp only [ECS.call, hd] at hc
    cases hc
    exact ⟨a, ha, hs, he, hk, rfl, rfl⟩

theorem step_removeComponent {w w' : Tracked α} {t : TypeName} {e : Entity}
    (h : w.step (.removeComponent t e) = some w') :
    ∃ a a', w.ecs.mComponentManager.mComponentArrays.find t = some a ∧
      a.removeData e = .ok a' ∧ EntityManager.inRange e ∧
      (w.ecs.mComponentManager.mComponentTypes.index t 0).1 < MAX_COMPONENTS ∧
      w.ecs.removeComponent t e = .ok w'.ecs ∧ w'.live = w.live := by
  obtain ⟨r, hc, rfl⟩ := step_some h
  cases hd : w.ecs.removeComponent t e with
  | error f =>
    simp only [ECS.call, hd] at hc
    cases hc
  | ok s' =>
    obtain ⟨a, a', ha, hr, he, hk⟩ := ECS.removeComponent_ok hd
    simp only [ECS.call, hd] at hc
    cases hc
    exact ⟨a, a', ha, hr, he, hk, rfl, rfl⟩

theorem step_getComponent {w w' : Tracked α} {t : TypeName} {e : Entity}
    (h : w.step (.getComponent t e) = some w') :
    ∃ r, w.ecs.getComponent t e = .ok r ∧ w' = { ecs := r.2, live := w.live } := by
  obtain ⟨r, hc, rfl⟩ := step_some h
  cases hd : w.ecs.getComponent t e with
  | error f =>
    simp only [ECS.call, hd] at hc
    cases hc
  | ok q =>
    simp only [ECS.call, hd] at hc
    cases hc
    exact ⟨q, rfl, rfl⟩

theorem step_getComponentType {w w' : Tracked α} {t : TypeName}
    (h : w.step (.getComponentType t) = some w') :
    w' = { ecs := (w.ecs.getComponentType t).2, live := w.live } := by
  obtain ⟨r, hc, rfl⟩ := step_some h
  cases hc; rfl

theorem step_registerSystem {w w' : Tracked α} {t : TypeName}
    (h : w.step (.registerSystem t) = some w') :
    w' = { ecs := w.ecs.registerSystem t, live := w.live } := by
  obtain ⟨r, hc, rfl⟩ := step_some h
  cases hc; rfl

theorem step_setSystemSignature {w w' : Tracked α} {t : TypeName} {sig : Signature}
    (h : w.step (.setSystemSignature t sig) = some w') :
    w' = { ecs := w.ecs.setSystemSignature t sig, live := w.live } := by
  obtain ⟨r, hc, rfl⟩ := step_some h
  cases hc; rfl

/-- A property kept by every step whose precondition holds is kept by a
sequence of such steps. -/
theorem runWhere_invariant {pre : Tracked α → Call α → Prop} [∀ w c, Decidable (pre w c)]
    {P : Tracked α → Prop}
    (hstep : ∀ w c w', P w → pre w c → w.step c = some w' → P w') :
    ∀ (cs : List (Call α)) (w w' : Tracked α), P w → runWhere pre w cs = some w' →
      P w' := by
  intro cs
  induction cs with
  | nil =>
    intro w w' h hr
    simp only [runWhere, Option.some.injEq] at hr
    subst hr; exact h
  | cons c cs ih =>
    intro w w' h hr
    unfold runWhere at hr
    by_cases hp : pre w c
    · rw [if_pos hp] at hr
      cases hs : w.step c with
      | none => rw [hs] at hr; cases hr
      | some w1 =>
        rw [hs] at hr
        exact ih w1 w' (hstep w c w1 h hp hs) hr
    · rw [if_neg hp] at hr; cases hr

/-- A sequence of calls with preconditions is a sequence of calls. -/
theorem run_of_runWhere {pre : Tracked α → Call α → Prop} [∀ w c, Decidable (pre w c)] :
    ∀ (cs : List (Call α)) (w w' : Tracked α), runWhere pre w cs = some w' →
      w.run cs = some w' := by
  intro cs
  induction cs with
  | nil => intro w w' hr; exact hr
  | cons c cs ih =>
    intro w w' hr
    unfold runWhere at hr
    by_cases hp : pre w c
    · rw [if_pos hp] at hr
      unfold run
      cases hs : w.step c with
      | none => rw [hs] at hr; cases hr
      | some w1 =>
        rw [hs] at hr
        exact ih w1 w' hr
    · rw [if_neg hp] at hr; cases hr

/-- A sequence of tracked calls is a sequence of calls of the facade. -/
theorem run_ecs :
    ∀ (cs : List (Call α)) (w w' : Tracked α), w.run cs = some w' →
      w.ecs.run cs = .ok w'.ecs := by
  intro cs
  induction cs with
  | nil =>
    intro w w' hr
    simp only [Tracked.run, Option.some.injEq] at hr
    subst hr; rfl
  | cons c cs ih =>
    intro w w' hr
    unfold Tracked.run at hr
    cases hs : w.step c with
    | none => rw [hs] at hr; cases hr
    | some w1 =>
      rw [hs] at hr
      obtain ⟨r, hcall, rfl⟩ := step_some hs
      unfold ECS.run
      rw [hcall]
      exact ih _ _ hr

end Tracked


/-! ## Preservation of the pool invariant -/

namespace Tracked
variable {α : Type}

theorem init_poolInv : (Tracked.init : Tracked α).PoolInv :=
  ⟨EntityManager.new_inv, fun _ _ _ => rfl⟩

theorem PoolInv.pool_of_eq {w w' : Tracked α} (h : w.PoolInv)
    (hem : w'.ecs.mEntityManager = w.ecs.mEntityManager) (hl : w'.live = w.live) :
    w'.PoolInv := by
  refine ⟨?_, ?_⟩
  · rw [hem, hl]; exact h.pool
  · intro e he hn
    rw [hem]; rw [hl] at hn
    exact h.clean e he hn

theorem PoolInv.live_inRange {w : Tracked α} (h : w.PoolInv) {e : Entity}
    (he : e ∈ w.live) : EntityManager.inRange e :=
  h.pool.inRange_of_live he

/-- Writing the signature of a live entity keeps the pool invariant. -/
theorem PoolInv.write {w w' : Tracked α} (h : w.PoolInv) {e : Entity} (he : e ∈ w.live)
    (sig' : Signature)
    (hem : w'.ecs.mEntityManager =
      { w.ecs.mEntityManager with
        mSignatures := Function.update w.ecs.mEntityManager.mSignatures e.toNat sig' })
    (hl : w'.live = w.live) : w'.PoolInv := by
  have hr : EntityManager.inRange e := h.live_inRange he
  refine ⟨?_, ?_⟩
  · rw [hem, hl]
    exact ⟨h.pool.queueNodup, h.pool.liveNodup, h.pool.disjoint, h.pool.cover⟩
  · intro x hx hn
    rw [hl] at hn
    rw [hem]
    have hxe : x ≠ e := fun hh => hn (hh ▸ he)
    show Function.update w.ecs.mEntityManager.mSignatures e.toNat sig' x.toNat = 0
    rw [Function.update_noteq (EntityManager.toNat_ne hx hr hxe)]
    exact h.clean x hx hn

variable [Inhabited α]

/-- The entity and system managers after a returning `addComponent`. -/
theorem addComponent_managers {w w' : Tracked α} {t : TypeName} {e : Entity} {v : α}
    (h : w.step (.addComponent t e v) = some w') :
    ∃ sig', EntityManager.inRange e ∧ w'.live = w.live ∧
      w'.ecs.mEntityManager =
        { w.ecs.mEntityManager with
          mSignatures := Function.update w.ecs.mEntityManager.mSignatures e.toNat sig' } ∧
      w'.ecs.mSystemManager = w.ecs.mSystemManager.entitySignatureChanged e sig' := by
  obtain ⟨a, ha, hs, he, hk, hadd, hl⟩ := step_addComponent h
  rw [ECS.addComponent_eq v ha hs he hk] at hadd
  simp only [Except.ok.injEq] at hadd
  exact ⟨_, he, hl, by rw [← hadd], by rw [← hadd]⟩

/-- The entity and system managers after a returning `removeComponent`. -/
theorem removeComponent_managers {w w' : Tracked α} {t : TypeName} {e : Entity}
    (h : w.step (.removeComponent t e) = some w') :
    ∃ sig', EntityManager.inRange e ∧ w'.live = w.live ∧
      w'.ecs.mEntityManager =
        { w.ecs.mEntityManager with
          mSignatures := Function.update w.ecs.mEntityManager.mSignatures e.toNat sig' } ∧
      w'.ecs.mSystemManager = w.ecs.mSystemManager.entitySignatureChanged e sig' := by
  obtain ⟨a, a', ha, hr, he, hk, hrem, hl⟩ := step_removeComponent h
  rw [ECS.removeComponent_eq ha hr he hk] at hrem
  simp only [Except.ok.injEq] at hrem
  exact ⟨_, he, hl, by rw [← hrem], by rw [← hrem]⟩

/-- Every returning call whose entity argument is live keeps the pool
invariant. -/
theorem PoolInv.step {w w' : Tracked α} (h : w.PoolInv) {c : Call α}
    (hp : w.entitiesLive c) (hs : w.step c = some w') : w'.PoolInv := by
  cases c with
  | registerComponent t =>
    rw [step_registerComponent hs]
    exact h.pool_of_eq rfl rfl
  | createEntity =>
    obtain ⟨id, rest, hq, rfl⟩ := step_createEntity hs
    refine ⟨h.pool.create hq _, ?_⟩
    intro e he hl
    exact h.clean e he (fun hh => hl (List.mem_cons_of_mem _ hh))
  | destroyEntity e =>
    obtain ⟨hr, cm, _, rfl⟩ := step_destroyEntity hs
    have he : e ∈ w.live := hp
    refine ⟨h.pool.destroy he _ _, ?_⟩
    intro x hx hl
    show Function.update w.ecs.mEntityManager.mSignatures e.toNat 0 x.toNat = 0
    by_cases hxe : x = e
    · subst hxe; exact Function.update_same _ _ _
    · rw [Function.update_noteq (EntityManager.toNat_ne hx hr hxe)]
      apply h.clean x hx
      intro hh
      exact hl ((h.pool.liveNodup.mem_erase_iff).2 ⟨hxe, hh⟩)
  | addComponent t e v =>
    obtain ⟨sig', _, hl, hem, _⟩ := addComponent_managers hs
    exact h.write hp sig' hem hl
  | removeComponent t e =>
    obtain ⟨sig', _, hl, hem, _⟩ := removeComponent_managers hs
    exact h.write hp sig' hem hl
  | getComponent t e =>
    obtain ⟨r, hg, rfl⟩ := step_getComponent hs
    exact h.pool_of_eq (ECS.getComponent_ok hg).1 rfl
  | getComponentType t =>
    rw [step_getComponentType hs]
    exact h.pool_of_eq rfl rfl
  | registerSystem t =>
    rw [step_registerSystem hs]
    exact h.pool_of_eq rfl rfl
  | setSystemSignature t sig =>
    rw [step_setSystemSignature hs]
    exact h.pool_of_eq rfl rfl

end Tracked

/-! ## Preservation of interest correctness -/

namespace ECS
variable {α : Type}

theorem init_interestCorrect : (ECS.init : ECS α).InterestCorrect := by
  intro t sys h
  have : Map.find (∅ : Map TypeName System) t = some sys := h
  rw [Map.find_empty] at this; cases this

theorem InterestCorrect.interest_of_eq {s s' : ECS α} (h : s.InterestCorrect)
    (hsm : s'.mSystemManager = s.mSystemManager)
    (hsig : s'.mEntityManager.mSignatures = s.mEntityManager.mSignatures) :
    s'.InterestCorrect := by
  unfold InterestCorrect
  rw [hsm, hsig]
  exact h

/-- The recomputation of `entitySignatureChanged` after the signature of `e`
has been written keeps interest correctness, when every registered system
has its signature. -/
theorem InterestCorrect.interest_change {s s' : ECS α} (h : s.InterestCorrect)
    (hall : ∀ k ∈ s.mSystemManager.mSystems.keys, k ∈ s.mSystemManager.mSignatures)
    {e : Entity} (hr : EntityManager.inRange e) (sig' : Signature)
    (hsig : s'.mEntityManager.mSignatures =
      Function.update s.mEntityManager.mSignatures e.toNat sig')
    (hsm : s'.mSystemManager = s.mSystemManager.entitySignatureChanged e sig') :
    s'.InterestCorrect := by
  have hupd : ∀ x, EntityManager.inRange x → x ≠ e →
      Function.update s.mEntityManager.mSignatures e.toNat sig' x.toNat =
        s.mEntityManager.mSignatures x.toNat := by
    intro x hx hne
    exact Function.update_noteq (EntityManager.toNat_ne hx hr hne) _ _
  intro t sys' hf
  rw [hsm, (SystemManager.entitySignatureChanged_spec _ e sig' t).1] at hf
  unfold SystemManager.systemAfter at hf
  cases hs : s.mSystemManager.mSystems.find t with
  | none => rw [hs] at hf; cases hf
  | some sys =>
    rw [hs] at hf
    simp only [Option.map_some', Option.some.injEq] at hf
    obtain ⟨req, hreq⟩ := Map.mem_iff_find.1 (hall t (AList.mem_keys.1 (Map.mem_of_find hs)))
    have hrq : s.mSystemManager.required t = req := by
      unfold SystemManager.required; rw [hreq]; rfl
    rw [hrq] at hf
    subst hf
    have hold := h t sys hs
    rw [hreq] at hold
    simp only at hold
    rw [hsm, (SystemManager.entitySignatureChanged_spec _ e sig' t).2, hsig]
    unfold SystemManager.signatureAfter
    rw [hs, hrq]
    simp only [Option.isSome_some, if_true]
    refine ⟨hold.1, ?_⟩
    intro x
    rw [SystemManager.mem_retest]
    by_cases hxe : x = e
    · subst hxe
      simp only [if_true, Function.update_same]
      exact ⟨fun hb => ⟨hr, hb⟩, fun hb => hb.2⟩
    · rw [if_neg hxe, hold.2 x]
      constructor
      · rintro ⟨hx, hb⟩; exact ⟨hx, by rw [hupd x hx hxe]; exact hb⟩
      · rintro ⟨hx, hb⟩; exact ⟨hx, by rw [hupd x hx hxe] at hb; exact hb⟩

/-- The purge of `destroyEntity` keeps interest correctness. -/
theorem InterestCorrect.interest_destroy {s s' : ECS α} (h : s.InterestCorrect) {e : Entity}
    (hr : EntityManager.inRange e)
    (hsig : s'.mEntityManager.mSignatures =
      Function.update s.mEntityManager.mSignatures e.toNat 0)
    (hsm : s'.mSystemManager = s.mSystemManager.entityDestroyed e) :
    s'.InterestCorrect := by
  have hupd : ∀ x, EntityManager.inRange x → x ≠ e →
      Function.update s.mEntityManager.mSignatures e.toNat 0 x.toNat =
        s.mEntityManager.mSignatures x.toNat := by
    intro x hx hne
    exact Function.update_noteq (EntityManager.toNat_ne hx hr hne) _ _
  intro t sys' hf
  rw [hsm, (SystemManager.systems_entityDestroyed_spec _ e).2 t] at hf
  cases hs : s.mSystemManager.mSystems.find t with
  | none => rw [hs] at hf; cases hf
  | some sys =>
    rw [hs] at hf
    simp only [Option.map_some', Option.some.injEq] at hf
    subst hf
    have hold := h t sys hs
    rw [hsm, (SystemManager.systems_entityDestroyed_spec _ e).1, hsig]
    cases hr' : s.mSystemManager.mSignatures.find t with
    | none =>
      rw [hr'] at hold
      simp only at hold ⊢
      rw [hold]; rfl
    | some req =>
      rw [hr'] at hold
      simp only at hold ⊢
      refine ⟨hold.1, ?_⟩
      intro x
      by_cases hxe : x = e
      · subst hxe
        simp only [Finset.mem_erase, ne_eq, not_true_eq_false, false_and, Function.update_same,
          Nat.zero_and, false_iff, not_and]
        intro _ h0
        exact hold.1 h0.symm
      · rw [Finset.mem_erase, hold.2 x]
        constructor
        · rintro ⟨_, hx, hb⟩; exact ⟨hx, by rw [hupd x hx hxe]; exact hb⟩
        · rintro ⟨hx, hb⟩; exact ⟨hxe, hx, by rw [hupd x hx hxe] at hb; exact hb⟩

theorem InterestCorrect.registerSystem {s : ECS α} (h : s.InterestCorrect) {t : TypeName}
    (hadm : t ∉ s.mSystemManager.mSystems ∧ t ∉ s.mSystemManager.mSignatures) :
    (s.registerSystem t).InterestCorrect := by
  intro k sys hf
  have hf' : (s.mSystemManager.mSystems.emplace t { mEntities := ∅ }).find k = some sys := hf
  show match s.mSystemManager.mSignatures.find k with
    | some req => req ≠ 0 ∧ ∀ x, x ∈ sys.mEntities ↔
        (EntityManager.inRange x ∧ s.mEntityManager.mSignatures x.toNat &&& req = req)
    | none => sys.mEntities = ∅
  rw [Map.emplace_of_not_mem _ hadm.1, Map.find_assign] at hf'
  split at hf'
  · next heq =>
    cases hf'
    rw [heq, Map.not_mem_iff_find.1 hadm.2]
  · exact h k sys hf'

theorem InterestCorrect.setSystemSignature {s : ECS α} (h : s.InterestCorrect)
    {t : TypeName} {sig : Signature}
    (h2 : t ∉ s.mSystemManager.mSignatures) (h3 : sig ≠ 0)
    (h4 : ∀ x, EntityManager.inRange x → s.mEntityManager.mSignatures x.toNat &&& sig ≠ sig) :
    (s.setSystemSignature t sig).InterestCorrect := by
  intro k sys hf
  have hf' : s.mSystemManager.mSystems.find k = some sys := hf
  show match (s.mSystemManager.mSignatures.emplace t sig).find k with
    | some req => req ≠ 0 ∧ ∀ x, x ∈ sys.mEntities ↔
        (EntityManager.inRange x ∧ s.mEntityManager.mSignatures x.toNat &&& req = req)
    | none => sys.mEntities = ∅
  have hold := h k sys hf'
  rw [Map.emplace_of_not_mem _ h2, Map.find_assign]
  by_cases hst : k = t
  · subst hst
    rw [Map.not_mem_iff_find.1 h2] at hold
    simp only at hold
    simp only [if_true]
    refine ⟨h3, ?_⟩
    intro x
    rw [hold]
    simp only [Finset.not_mem_empty, false_iff, not_and]
    exact h4 x
  · rw [if_neg hst]
    exact hold

end ECS

namespace Tracked
variable {α : Type} [Inhabited α]

/-- Every returning call that respects the system preconditions and has a
live entity argument keeps interest correctness. -/
theorem interest_step {w w' : Tracked α} (hpool : w.PoolInv) (h : w.ecs.InterestCorrect)
    {c : Call α} (hp : w.systemsAndEntities c) (hs : w.step c = some w') :
    w'.ecs.InterestCorrect := by
  obtain ⟨hlive, hsys⟩ := hp
  cases c with
  | registerComponent t =>
    rw [step_registerComponent hs]
    exact h.interest_of_eq rfl rfl
  | createEntity =>
    obtain ⟨id, rest, hq, rfl⟩ := step_createEntity hs
    exact h.interest_of_eq rfl rfl
  | destroyEntity e =>
    obtain ⟨hr, cm, _, rfl⟩ := step_destroyEntity hs
    exact h.interest_destroy hr rfl rfl
  | addComponent t e v =>
    obtain ⟨sig', hr, _, hem, hsm⟩ := addComponent_managers hs
    exact h.interest_change hsys hr sig' (by rw [hem]) hsm
  | removeComponent t e =>
    obtain ⟨sig', hr, _, hem, hsm⟩ := removeComponent_managers hs
    exact h.interest_change hsys hr sig' (by rw [hem]) hsm
  | getComponent t e =>
    obtain ⟨r, hg, rfl⟩ := step_getComponent hs
    exact h.interest_of_eq (ECS.getComponent_ok hg).2 (by rw [(ECS.getComponent_ok hg).1])
  | getComponentType t =>
    rw [step_getComponentType hs]
    exact h.interest_of_eq rfl rfl
  | registerSystem t =>
    rw [step_registerSystem hs]
    exact h.registerSystem hsys
  | setSystemSignature t sig =>
    rw [step_setSystemSignature hs]
    obtain ⟨_, h2, h3, h4⟩ := hsys
    refine h.setSystemSignature h2 h3 ?_
    intro x hx
    by_cases hl : x ∈ w.live
    · exact h4 x hl
    · rw [hpool.clean x hx hl, Nat.zero_and]
      exact fun hh => h3 hh.symm

/-- Interest correctness and the pool invariant hold in every state reached
by calls that respect the system preconditions with live entity arguments. -/
theorem interest_of_run {cs : List (Call α)} {w : Tracked α}
    (hr : runWhere systemsAndEntities (Tracked.init : Tracked α) cs = some w) :
    w.PoolInv ∧ w.ecs.InterestCorrect :=
  runWhere_invariant (P := fun w => w.PoolInv ∧ w.ecs.InterestCorrect)
    (fun _ _ _ hP hp hs => ⟨hP.1.step hp.1 hs, interest_step hP.1 hP.2 hp hs⟩)
    cs _ _ ⟨init_poolInv, ECS.init_interestCorrect⟩ hr

/-- The pool invariant holds in every state reached by calls with live entity
arguments. -/
theorem pool_of_run {cs : List (Call α)} {w : Tracked α}
    (hr : runWhere entitiesLive (Tracked.init : Tracked α) cs = some w) : w.PoolInv :=
  runWhere_invariant (P := fun w => w.PoolInv) (fun _ _ _ hP hp hs => hP.step hp hs)
    cs _ _ init_poolInv hr

end Tracked

/-! ## Preservation of the store invariant -/

namespace ECS
variable {α : Type}

theorem init_storeInv : (ECS.init : ECS α).StoreInv := by
  refine ⟨?_, ?_, ?_, ?_⟩
  · refine ⟨fun t => ?_, Nat.zero_le _, ?_, ?_⟩
    · show t ∈ (∅ : Map TypeName Nat) ↔ t ∈ (∅ : Map TypeName (ComponentArray α))
      simp
    · intro t k h
      have : Map.find (∅ : Map TypeName Nat) t = some k := h
      rw [Map.find_empty] at this; cases this
    · intro t t' k h
      have : Map.find (∅ : Map TypeName Nat) t = some k := h
      rw [Map.find_empty] at this; cases this
  · intro t a h
    have : Map.find (∅ : Map TypeName (ComponentArray α)) t = some a := h
    rw [Map.find_empty] at this; cases this
  · intro t a k h
    have : Map.find (∅ : Map TypeName (ComponentArray α)) t = some a := h
    rw [Map.find_empty] at this; cases this
  · intro n k h
    have : Nat.testBit 0 k = true := h
    simp at this

/-- The store invariant only reads the component manager and the signatures. -/
theorem StoreInv.store_of_eq {s s' : ECS α} (h : s.StoreInv)
    (hcm : s'.mComponentManager = s.mComponentManager)
    (hsig : s'.mEntityManager.mSignatures = s.mEntityManager.mSignatures) : s'.StoreInv := by
  refine ⟨?_, ?_, ?_, ?_⟩
  · rw [hcm]; exact h.types
  · rw [hcm]; exact h.stores
  · unfold SignatureConsistent; rw [hcm, hsig]; exact h.consistent
  · rw [hcm, hsig]; exact h.bits

theorem StoreInv.registerComponent_new [Inhabited α] {s : ECS α} (h : s.StoreInv)
    {t : TypeName} (h1 : t ∉ s.mComponentManager.mComponentTypes)
    (h3 : s.mComponentManager.mNextComponentType < MAX_COMPONENTS) :
    (s.registerComponent t).StoreInv := by
  have h2 : t ∉ s.mComponentManager.mComponentArrays := fun hh =>
    h1 ((h.types.sameKeys t).2 hh)
  have hn : (s.mComponentManager.mNextComponentType + 1) % U8_MOD =
      s.mComponentManager.mNextComponentType + 1 := by
    unfold MAX_COMPONENTS at h3; unfold U8_MOD; omega
  have ht : (s.registerComponent t).mComponentManager.mComponentTypes =
      s.mComponentManager.mComponentTypes.assign t s.mComponentManager.mNextComponentType :=
    Map.emplace_of_not_mem _ h1
  have ha : (s.registerComponent t).mComponentManager.mComponentArrays =
      s.mComponentManager.mComponentArrays.assign t ComponentArray.empty :=
    Map.emplace_of_not_mem _ h2
  have hx : (s.registerComponent t).mComponentManager.mNextComponentType =
      s.mComponentManager.mNextComponentType + 1 := hn
  refine ⟨?_, ?_, ?_, ?_⟩
  · refine ⟨?_, ?_, ?_, ?_⟩
    · intro t'
      rw [ht, ha, Map.mem_assign, Map.mem_assign, h.types.sameKeys t']
    · rw [hx]; omega
    · intro t' k hk
      rw [hx]
      rw [ht, Map.find_assign] at hk
      split at hk
      · cases hk; omega
      · have := h.types.below t' k hk; omega
    · intro t1 t2 k hk1 hk2
      rw [ht, Map.find_assign] at hk1 hk2
      split at hk1 <;> split at hk2
      · next e1 e2 => rw [e1, e2]
      · cases hk1; have := h.types.below t2 _ hk2; omega
      · cases hk2; have := h.types.below t1 _ hk1; omega
      · exact h.types.injective t1 t2 k hk1 hk2
  · intro t' a hf
    rw [ha, Map.find_assign] at hf
    split at hf
    · cases hf; exact ComponentArray.empty_wf
    · exact h.stores t' a hf
  · intro t' a k hf hk e
    show a.present e ↔ (EntityManager.inRange e ∧
      (s.mEntityManager.mSignatures e.toNat).testBit k = true)
    rw [ha, Map.find_assign] at hf
    rw [ht, Map.find_assign] at hk
    split at hf
    · next heq =>
      rw [if_pos heq] at hk
      cases hf; cases hk
      constructor
      · intro hp
        exact absurd hp (AList.not_mem_empty e)
      · rintro ⟨_, hb⟩
        have := h.bits _ _ hb
        omega
    · next hne =>
      rw [if_neg hne] at hk
      exact h.consistent t' a k hf hk e
  · intro n k hb
    rw [hx]
    have := h.bits n k hb
    omega

/-- A second `registerComponent` of a type only advances the next id. -/
theorem StoreInv.registerComponent_again [Inhabited α] {s : ECS α} (h : s.StoreInv)
    {t : TypeName} (h1 : t ∈ s.mComponentManager.mComponentTypes)
    (h3 : s.mComponentManager.mNextComponentType < MAX_COMPONENTS) :
    (s.registerComponent t).StoreInv := by
  have h2 : t ∈ s.mComponentManager.mComponentArrays := (h.types.sameKeys t).1 h1
  have hn : (s.mComponentManager.mNextComponentType + 1) % U8_MOD =
      s.mComponentManager.mNextComponentType + 1 := by
    unfold MAX_COMPONENTS at h3; unfold U8_MOD; omega
  have ht : (s.registerComponent t).mComponentManager.mComponentTypes =
      s.mComponentManager.mComponentTypes := Map.emplace_of_mem _ h1
  have ha : (s.registerComponent t).mComponentManager.mComponentArrays =
      s.mComponentManager.mComponentArrays := Map.emplace_of_mem _ h2
  have hx : (s.registerComponent t).mComponentManager.mNextComponentType =
      s.mComponentManager.mNextComponentType + 1 := hn
  refine ⟨?_, ?_, ?_, ?_⟩
  · refine ⟨?_, ?_, ?_, ?_⟩
    · intro t'
      rw [ht, ha]; exact h.types.sameKeys t'
    · rw [hx]; omega
    · intro t' k hk
      rw [hx]
      rw [ht] at hk
      have := h.types.below t' k hk
      omega
    · intro t1 t2 k hk1 hk2
      rw [ht] at hk1 hk2
      exact h.types.injective t1 t2 k hk1 hk2
  · intro t' a hf
    rw [ha] at hf
    exact h.stores t' a hf
  · intro t' a k hf hk e
    rw [ha] at hf
    rw [ht] at hk
    exact h.consistent t' a k hf hk e
  · intro n k hb
    rw [hx]
    have := h.bits n k hb
    omega

/-- Every `registerComponent` made while an id within the signature width is
left keeps the store invariant. -/
theorem StoreInv.registerComponent [Inhabited α] {s : ECS α} (h : s.StoreInv) (t : TypeName)
    (h3 : s.mComponentManager.mNextComponentType < MAX_COMPONENTS) :
    (s.registerComponent t).StoreInv := by
  by_cases h1 : t ∈ s.mComponentManager.mComponentTypes
  · exact h.registerComponent_again h1 h3
  · exact h.registerComponent_new h1 h3

/-- The purge of `destroyEntity` keeps the store invariant. -/
theorem StoreInv.store_destroy {s s' : ECS α} (h : s.StoreInv) {e : Entity}
    (hr : EntityManager.inRange e) {cm : ComponentManager α}
    (hc : s.mComponentManager.entityDestroyed e = .ok cm)
    (hcm : s'.mComponentManager = cm)
    (hsig : s'.mEntityManager.mSignatures =
      Function.update s.mEntityManager.mSignatures e.toNat 0) : s'.StoreInv := by
  obtain ⟨cm', c1, c2, c3, c4, c5⟩ :=
    ComponentManager.manager_entityDestroyed_spec h.stores e (m := s.mComponentManager)
  rw [hc] at c1
  cases c1
  have hupd : ∀ x, EntityManager.inRange x → x ≠ e →
      Function.update s.mEntityManager.mSignatures e.toNat 0 x.toNat =
        s.mEntityManager.mSignatures x.toNat := by
    intro x hx hne
    exact Function.update_noteq (EntityManager.toNat_ne hx hr hne) _ _
  have hsame : ∀ t, t ∈ cm.mComponentArrays ↔ t ∈ s.mComponentManager.mComponentArrays := by
    intro t
    have := c4 t
    rw [← not_iff_not, Map.not_mem_iff_find, Map.not_mem_iff_find]
    exact this
  refine ⟨?_, ?_, ?_, ?_⟩
  · rw [hcm]
    refine ⟨?_, ?_, ?_, ?_⟩
    · intro t
      rw [c2, hsame]; exact h.types.sameKeys t
    · rw [c3]; exact h.types.bound
    · intro t k hk
      rw [c3]
      rw [c2] at hk
      exact h.types.below t k hk
    · intro t t' k hk hk'
      rw [c2] at hk hk'
      exact h.types.injective t t' k hk hk'
  · rw [hcm]
    intro t a' hf
    obtain ⟨a, ha⟩ := Map.mem_iff_find.1 ((hsame t).1 (Map.mem_of_find hf))
    obtain ⟨a'', q1, q2, _, _⟩ := c5 t a ha
    rw [q1] at hf; cases hf; exact q2
  · unfold SignatureConsistent
    rw [hcm, hsig]
    intro t a' k hf hk x
    rw [c2] at hk
    obtain ⟨a, ha⟩ := Map.mem_iff_find.1 ((hsame t).1 (Map.mem_of_find hf))
    obtain ⟨a'', q1, _, q3, q4⟩ := c5 t a ha
    rw [q1] at hf; cases hf
    by_cases hxe : x = e
    · subst hxe
      simp only [Function.update_same, Nat.zero_testBit]
      constructor
      · intro hp; exact absurd hp q4
      · rintro ⟨_, hb⟩; cases hb
    · rw [(q3.1 x hxe).1, h.consistent t a k ha hk x]
      constructor
      · rintro ⟨hx, hb⟩; exact ⟨hx, by rw [hupd x hx hxe]; exact hb⟩
      · rintro ⟨hx, hb⟩; exact ⟨hx, by rw [hupd x hx hxe] at hb; exact hb⟩
  · rw [hcm, hsig]
    intro n k hb
    rw [c3]
    by_cases hn : n = e.toNat
    · subst hn; rw [Function.update_same] at hb; simp at hb
    · rw [Function.update_noteq hn] at hb; exact h.bits n k hb

/-- The common shape of `addComponent` and `removeComponent`: the store of
`t` and bit `k` of the signature of `e` change together. -/
theorem StoreInv.store_change {s s' : ECS α} (h : s.StoreInv) {t : TypeName}
    {a a' : ComponentArray α} {k : Nat} {e : Entity} (hr : EntityManager.inRange e)
    (ha : s.mComponentManager.mComponentArrays.find t = some a)
    (hk : s.mComponentManager.mComponentTypes.find t = some k)
    (b : Bool) (sig' : Signature)
    (hbit : ∀ j, sig'.testBit j =
      if j = k then b else (s.mEntityManager.mSignatures e.toNat).testBit j)
    (hwf : a'.WF) (hp : ∀ x, a'.present x ↔ if x = e then b = true else a.present x)
    (hcm : s'.mComponentManager =
      { s.mComponentManager with
        mComponentArrays := s.mComponentManager.mComponentArrays.assign t a' })
    (hsig : s'.mEntityManager.mSignatures =
      Function.update s.mEntityManager.mSignatures e.toNat sig') : s'.StoreInv := by
  have hupd : ∀ x, EntityManager.inRange x → x ≠ e →
      Function.update s.mEntityManager.mSignatures e.toNat sig' x.toNat =
        s.mEntityManager.mSignatures x.toNat := by
    intro x hx hne
    exact Function.update_noteq (EntityManager.toNat_ne hx hr hne) _ _
  refine ⟨?_, ?_, ?_, ?_⟩
  · rw [hcm]
    refine ⟨?_, h.types.bound, h.types.below, h.types.injective⟩
    intro t'
    show t' ∈ s.mComponentManager.mComponentTypes ↔
      t' ∈ s.mComponentManager.mComponentArrays.assign t a'
    rw [Map.mem_assign, h.types.sameKeys t']
    constructor
    · exact Or.inr
    · rintro (hh | hh)
      · subst hh; exact Map.mem_of_find ha
      · exact hh
  · rw [hcm]
    intro t' b' hf
    have hf' : (s.mComponentManager.mComponentArrays.assign t a').find t' = some b' := hf
    rw [Map.find_assign] at hf'
    split at hf'
    · cases hf'; exact hwf
    · exact h.stores t' b' hf'
  · unfold SignatureConsistent
    rw [hcm, hsig]
    intro t' b' k' hf hk' x
    have hf' : (s.mComponentManager.mComponentArrays.assign t a').find t' = some b' := hf
    have hk'' : s.mComponentManager.mComponentTypes.find t' = some k' := hk'
    rw [Map.find_assign] at hf'
    by_cases htt : t' = t
    · subst htt
      rw [if_pos rfl] at hf'
      cases hf'
      rw [hk] at hk''
      cases hk''
      rw [hp x]
      by_cases hxe : x = e
      · subst hxe
        simp only [if_true, Function.update_same, hbit k]
        exact ⟨fun hb => ⟨hr, hb⟩, fun hb => hb.2⟩
      · rw [if_neg hxe, h.consistent t' a k ha hk x]
        constructor
        · rintro ⟨hx, hb⟩; exact ⟨hx, by rw [hupd x hx hxe]; exact hb⟩
        · rintro ⟨hx, hb⟩; exact ⟨hx, by rw [hupd x hx hxe] at hb; exact hb⟩
    · rw [if_neg htt] at hf'
      have hkk : k' ≠ k := fun hh => htt (h.types.injective t' t k (hh ▸ hk'') hk)
      rw [h.consistent t' b' k' hf' hk'' x]
      by_cases hxe : x = e
      · subst hxe
        simp only [Function.update_same, hbit k', if_neg hkk]
      · constructor
        · rintro ⟨hx, hb⟩; exact ⟨hx, by rw [hupd x hx hxe]; exact hb⟩
        · rintro ⟨hx, hb⟩; exact ⟨hx, by rw [hupd x hx hxe] at hb; exact hb⟩
  · rw [hcm, hsig]
    intro n j hb
    show j < s.mComponentManager.mNextComponentType
    by_cases hn : n = e.toNat
    · subst hn
      rw [Function.update_same, hbit j] at hb
      by_cases hjk : j = k
      · subst hjk; exact h.types.below t j hk
      · rw [if_neg hjk] at hb; exact h.bits _ j hb
    · rw [Function.update_noteq hn] at hb; exact h.bits n j hb

/-- Writing a store back under its own key keeps the store invariant. -/
theorem StoreInv.reassign {s s' : ECS α} (h : s.StoreInv) {t : TypeName}
    {a : ComponentArray α} (ha : s.mComponentManager.mComponentArrays.find t = some a)
    (hcm : s'.mComponentManager =
      { s.mComponentManager with
        mComponentArrays := s.mComponentManager.mComponentArrays.assign t a })
    (hsig : s'.mEntityManager.mSignatures = s.mEntityManager.mSignatures) : s'.StoreInv := by
  have hfind : ∀ t', (s.mComponentManager.mComponentArrays.assign t a).find t' =
      s.mComponentManager.mComponentArrays.find t' := by
    intro t'
    rw [Map.find_assign]
    split
    · next heq => rw [heq, ha]
    · rfl
  refine ⟨?_, ?_, ?_, ?_⟩
  · rw [hcm]
    refine ⟨?_, h.types.bound, h.types.below, h.types.injective⟩
    intro t'
    show t' ∈ s.mComponentManager.mComponentTypes ↔
      t' ∈ s.mComponentManager.mComponentArrays.assign t a
    rw [Map.mem_assign, h.types.sameKeys t']
    constructor
    · exact Or.inr
    · rintro (hh | hh)
      · subst hh; exact Map.mem_of_find ha
      · exact hh
  · rw [hcm]
    intro t' b hf
    have hf' : (s.mComponentManager.mComponentArrays.assign t a).find t' = some b := hf
    rw [hfind] at hf'
    exact h.stores t' b hf'
  · unfold SignatureConsistent
    rw [hcm, hsig]
    intro t' b k hf hk
    have hf' : (s.mComponentManager.mComponentArrays.assign t a).find t' = some b := hf
    rw [hfind] at hf'
    exact h.consistent t' b k hf' hk
  · rw [hcm, hsig]
    exact h.bits

end ECS

namespace Tracked
variable {α : Type} [Inhabited α]

/-- Every returning call that respects the store preconditions keeps the
store invariant. -/
theorem store_step {w w' : Tracked α} (h : w.ecs.StoreInv) {c : Call α}
    (hp : w.storesRespected c) (hs : w.step c = some w') : w'.ecs.StoreInv := by
  cases c with
  | registerComponent t =>
    rw [step_registerComponent hs]
    exact h.registerComponent t hp
  | createEntity =>
    obtain ⟨id, rest, hq, rfl⟩ := step_createEntity hs
    exact h.store_of_eq rfl rfl
  | destroyEntity e =>
    obtain ⟨hr, cm, hcm, rfl⟩ := step_destroyEntity hs
    exact h.store_destroy hr hcm rfl rfl
  | addComponent t e v =>
    obtain ⟨a, ha, hsz, hr, hk32, hadd, _⟩ := step_addComponent hs
    obtain ⟨k, hk⟩ := Map.mem_iff_find.1 ((h.types.sameKeys t).2 (Map.mem_of_find ha))
    have hna : ¬ a.present e := fun hpres => hp ⟨a, ha, hpres⟩
    rw [ECS.addComponent_eq v ha hsz hr hk32, Map.index_of_find 0 hk] at hadd
    simp only [Except.ok.injEq] at hadd
    refine h.store_change hr ha hk true _ (Signature.testBit_set_true _ k)
      (ComponentArray.insertData_wf (h.stores t a ha) hna hsz v) ?_
      (by rw [← hadd]) (by rw [← hadd])
    intro x
    show x ∈ a.mEntityToIndexMap.assign e a.mSize ↔ _
    rw [Map.mem_assign]
    by_cases hxe : x = e
    · simp [hxe]
    · simp only [hxe, false_or, if_false]; rfl
  | removeComponent t e =>
    obtain ⟨a, a', ha, hrem, hr, hk32, hcall, _⟩ := step_removeComponent hs
    obtain ⟨k, hk⟩ := Map.mem_iff_find.1 ((h.types.sameKeys t).2 (Map.mem_of_find ha))
    obtain ⟨b, hb, hpres⟩ := hp
    have hb' : w.ecs.mComponentManager.mComponentArrays.find t = some b := hb
    rw [ha] at hb'
    cases hb'
    obtain ⟨a'', r1, r2, _, r4, r5, _⟩ := ComponentArray.removeData_spec (h.stores t a ha) hpres
    rw [hrem] at r1
    cases r1
    rw [ECS.removeComponent_eq ha hrem hr hk32, Map.index_of_find 0 hk] at hcall
    simp only [Except.ok.injEq] at hcall
    refine h.store_change hr ha hk false _ (Signature.testBit_set_false _ k) r2 ?_
      (by rw [← hcall]) (by rw [← hcall])
    intro x
    by_cases hxe : x = e
    · subst hxe; simp [r4]
    · simp only [hxe, if_false]; exact r5 x hxe
  | getComponent t e =>
    obtain ⟨r, hg, rfl⟩ := step_getComponent hs
    obtain ⟨a, ha, hpres⟩ := hp
    obtain ⟨i, hi⟩ := ComponentArray.present_iff_find.1 hpres
    rw [ECS.getComponent_eq ha (h.stores t a ha) hi] at hg
    simp only [Except.ok.injEq] at hg
    exact h.reassign ha (by rw [← hg]) (by rw [← hg])
  | getComponentType t =>
    rw [step_getComponentType hs]
    obtain ⟨k, hk⟩ := Map.mem_iff_find.1 hp
    rw [ECS.getComponentType_eq hk]
    exact h
  | registerSystem t =>
    rw [step_registerSystem hs]
    exact h.store_of_eq rfl rfl
  | setSystemSignature t sig =>
    rw [step_setSystemSignature hs]
    exact h.store_of_eq rfl rfl

/-- The store invariant holds in every state reached by calls that respect
the store preconditions. -/
theorem store_of_run {cs : List (Call α)} {w : Tracked α}
    (hr : runWhere storesRespected (Tracked.init : Tracked α) cs = some w) :
    w.ecs.StoreInv :=
  runWhere_invariant (P := fun w => w.ecs.StoreInv) (fun _ _ _ hP hp hs => store_step hP hp hs)
    cs _ _ ECS.init_storeInv hr

/-- The store and pool invariants hold in every state reached by calls that
respect the store preconditions with live entity arguments. -/
theorem store_pool_of_run {cs : List (Call α)} {w : Tracked α}
    (hr : runWhere storesAndEntities (Tracked.init : Tracked α) cs = some w) :
    w.ecs.StoreInv ∧ w.PoolInv :=
  runWhere_invariant (P := fun w => w.ecs.StoreInv ∧ w.PoolInv)
    (fun _ _ _ hP hp hs => ⟨store_step hP.1 hp.2 hs, hP.2.step hp.1 hs⟩)
    cs _ _ ⟨ECS.init_storeInv, init_poolInv⟩ hr

end Tracked
/-! ## Stores built by insertions -/

namespace ComponentArray
variable {α : Type}

theorem insertAll_wf :
    ∀ (l : List (Entity × α)) (c c' : ComponentArray α), c.WF → (l.map Prod.fst).Nodup →
      (∀ p ∈ l, ¬ c.present p.1) → c.insertAll l = .ok c' → c'.WF := by
  intro l
  induction l with
  | nil =>
    intro c c' h _ _ hb
    simp only [insertAll, Except.ok.injEq] at hb
    subst hb; exact h
  | cons p ps ih =>
    intro c c' h hd hn hb
    unfold insertAll at hb
    cases hi : c.insertData p.1 p.2 with
    | error f => rw [hi] at hb; cases hb
    | ok c1 =>
      rw [hi] at hb
      have hs := insertData_ok_size hi
      rw [insertData_eq hs] at hi
      cases hi
      have hd' := List.nodup_cons.1 (by simpa using hd : (p.1 :: ps.map Prod.fst).Nodup)
      have hp : ¬ c.present p.1 := hn p (List.mem_cons_self _ _)
      refine ih _ c' (insertData_wf h hp hs p.2) hd'.2 ?_ hb
      intro q hq hpres
      have hq' : q.1 ∈ c.mEntityToIndexMap.assign p.1 c.mSize := hpres
      rw [Map.mem_assign] at hq'
      rcases hq' with hh | hh
      · exact hd'.1 (hh ▸ List.mem_map_of_mem Prod.fst hq)
      · exact hn q (List.mem_cons_of_mem _ hq) hh

end ComponentArray

/-- The store `demoStore` is the result of inserting `demoEntries`. -/
theorem demoStore_built :
    (ComponentArray.empty : ComponentArray Nat).insertAll demoEntries = .ok demoStore := by rfl

/-- The store `demoStore` is well formed. -/
theorem demoStore_wf : demoStore.WF :=
  ComponentArray.insertAll_wf demoEntries _ _ ComponentArray.empty_wf (by decide)
    (fun _ _ hp => absurd hp (AList.not_mem_empty _)) demoStore_built


/-! ## Links between the checked and the plain call sequences -/

theorem Result.of_holds {σ : Type} {r : Result σ} {p : σ → Prop} [DecidablePred p]
    (h : r.holds p = true) : ∃ s, r = .ok s ∧ p s := by
  cases r with
  | error f => cases h
  | ok s => exact ⟨s, rfl, of_decide_eq_true h⟩

/-- The state reached by a sequence of calls with preconditions is the state
that the same calls of the facade reach from `ECS::init`. -/
theorem Tracked.ecs_of_runWhere {α : Type} [Inhabited α] {pre : Tracked α → Call α → Prop}
    [∀ w c, Decidable (pre w c)] {cs : List (Call α)} {w : Tracked α}
    (hr : Tracked.runWhere pre (Tracked.init : Tracked α) cs = some w) :
    (ECS.init : ECS α).run cs = .ok w.ecs :=
  Tracked.run_ecs cs _ _ (Tracked.run_of_runWhere cs _ _ hr)

theorem EntityManager.getSignature_iff {m : EntityManager} {e : Entity} {sig : Signature} :
    m.getSignature e = .ok sig ↔ (EntityManager.inRange e ∧ m.mSignatures e.toNat = sig) := by
  unfold EntityManager.getSignature
  by_cases h : EntityManager.inRange e
  · simp [h]
  · simp [h]

/-- The calls `demoCalls` respect the store preconditions and return. -/
theorem demoWorld_stores :
    Tracked.runWhere Tracked.storesRespected Tracked.init demoCalls = some demoWorld := by rfl

/-- The calls `demoCalls` have live entity arguments and return. -/
theorem demoWorld_live :
    Tracked.runWhere Tracked.entitiesLive Tracked.init demoCalls = some demoWorld := by rfl

/-- The calls `demoCalls` respect the store preconditions, have live entity
arguments and return. -/
theorem demoWorld_storesAndEntities :
    Tracked.runWhere Tracked.storesAndEntities Tracked.init demoCalls = some demoWorld := by rfl

/-- The calls `demoCalls` respect the system preconditions, have live entity
arguments and return. -/
theorem demoWorld_systemsAndEntities :
    Tracked.runWhere Tracked.systemsAndEntities Tracked.init demoCalls = some demoWorld := by rfl

/-! ## The claims -/

/-- C3: in a store built by inserting distinct entities, removing a present
entity `e` that is not in the last dense slot returns, `e` is no longer
present, and every other present entity is still present and `getData`
returns for it the value it returned before. -/
theorem dense_store_compaction {α : Type} [Inhabited α] (l : List (Entity × α))
    (c : ComponentArray α) (hd : (l.map Prod.fst).Nodup)
    (hb : (ComponentArray.empty : ComponentArray α).insertAll l = .ok c) (e : Entity) (i : Nat)
    (he : c.mEntityToIndexMap.find e = some i) (_hlast : i ≠ c.mSize - 1) :
    ∃ c', c.removeData e = .ok c' ∧ ¬ c'.present e ∧
      ∀ e', e' ≠ e → c.present e' →
        c'.present e' ∧ ∃ v, c.getData e' = .ok (v, c) ∧ c'.getData e' = .ok (v, c') := by
  have hwf : c.WF := ComponentArray.insertAll_wf l _ c ComponentArray.empty_wf hd
    (fun _ _ hp => absurd hp (AList.not_mem_empty _)) hb
  obtain ⟨c', r1, r2, _, r4, r5, r6⟩ :=
    ComponentArray.removeData_spec hwf (Map.mem_of_find he)
  refine ⟨c', r1, r4, ?_⟩
  intro e' hne hp
  have hp' : c'.present e' := (r5 e' hne).2 hp
  refine ⟨hp', ?_⟩
  obtain ⟨j, hj⟩ := ComponentArray.present_iff_find.1 hp
  obtain ⟨j', hj'⟩ := ComponentArray.present_iff_find.1 hp'
  have hv := r6 e' hne
  simp only [ComponentArray.valueOf, hj, hj', Option.map_some', Option.some.injEq] at hv
  refine ⟨c.mComponentArray j, ComponentArray.getData_of_present hwf hj, ?_⟩
  rw [ComponentArray.getData_of_present r2 hj', hv]

/-- Witness of C3: entity 1 sits in slot 0 of the three-element `demoStore`. -/
theorem dense_store_compaction_witness :
    (demoEntries.map Prod.fst).Nodup ∧
    (ComponentArray.empty : ComponentArray Nat).insertAll demoEntries = .ok demoStore ∧
    demoStore.mEntityToIndexMap.find 1 = some 0 ∧ 0 ≠ demoStore.mSize - 1 ∧
    ∃ c', demoStore.removeData 1 = .ok c' ∧ ¬ c'.present 1 ∧
      ∀ e', e' ≠ 1 → demoStore.present e' →
        c'.present e' ∧
          ∃ v, demoStore.getData e' = .ok (v, demoStore) ∧ c'.getData e' = .ok (v, c') :=
  ⟨by decide, demoStore_built, by decide, by decide,
    dense_store_compaction demoEntries demoStore (by decide) demoStore_built 1 0 (by decide)
      (by decide)⟩

/-- C4, as amended: well-formedness of a store (index maps mutually inverse,
slots `0 .. mSize - 1` in use, `mSize` the number of present entities, within
capacity) is preserved by `insertData` of an absent entity while the store is
not full, by `removeData` and `getData` of a present entity, and by
`entityDestroyed` of any entity; each of these calls returns. -/
theorem store_wf_preserved {α : Type} (c : ComponentArray α) (h : c.WF) (e : Entity) :
    (∀ v, ¬ c.present e → c.mSize < MAX_ENTITIES →
      ∃ c', c.insertData e v = .ok c' ∧ c'.WF) ∧
    (c.present e → ∃ c', c.removeData e = .ok c' ∧ c'.WF) ∧
    (c.present e → ∃ v, c.getData e = .ok (v, c)) ∧
    (∃ c', c.entityDestroyed e = .ok c' ∧ c'.WF) := by
  refine ⟨?_, ?_, ?_, ?_⟩
  · intro v hp hs
    exact ⟨_, ComponentArray.insertData_eq hs e v, ComponentArray.insertData_wf h hp hs v⟩
  · intro hp
    obtain ⟨c', r1, r2, _⟩ := ComponentArray.removeData_spec h hp
    exact ⟨c', r1, r2⟩
  · intro hp
    obtain ⟨i, hi⟩ := ComponentArray.present_iff_find.1 hp
    exact ⟨_, ComponentArray.getData_of_present h hi⟩
  · obtain ⟨c', r1, r2, _⟩ := ComponentArray.store_entityDestroyed_spec h e
    exact ⟨c', r1, r2⟩

/-- Witness of C4 (amended): the theorem at the well-formed `demoStore` and
its entity 1. -/
theorem store_wf_preserved_witness :
    demoStore.WF ∧
    (∀ v, ¬ demoStore.present 1 → demoStore.mSize < MAX_ENTITIES →
      ∃ c', demoStore.insertData 1 v = .ok c' ∧ c'.WF) ∧
    (demoStore.present 1 → ∃ c', demoStore.removeData 1 = .ok c' ∧ c'.WF) ∧
    (demoStore.present 1 → ∃ v, demoStore.getData 1 = .ok (v, demoStore)) ∧
    (∃ c', demoStore.entityDestroyed 1 = .ok c' ∧ c'.WF) :=
  ⟨demoStore_wf, store_wf_preserved demoStore demoStore_wf 1⟩

/-- Counterexample to C4 as stated: three calls on well-formed stores whose
result is not well formed (`mSize` differs from the number of present
entities): `getData` of an absent entity, `insertData` of a present entity
and `removeData` of an absent entity. -/
theorem store_wf_broken_by_unchecked_calls :
    (ComponentArray.empty : ComponentArray Nat).WF ∧ demoStore.WF ∧
    (∃ v c', (ComponentArray.empty : ComponentArray Nat).getData 7 = .ok (v, c') ∧ ¬ c'.WF) ∧
    (∃ c', demoStore.present 1 ∧ demoStore.insertData 1 99 = .ok c' ∧ ¬ c'.WF) ∧
    (∃ c', ¬ demoStore.present 9 ∧ demoStore.removeData 9 = .ok c' ∧ ¬ c'.WF) := by
  refine ⟨ComponentArray.empty_wf, demoStore_wf, ?_, ?_, ?_⟩
  · obtain ⟨r, hr, hp⟩ := Result.of_holds
      (r := (ComponentArray.empty : ComponentArray Nat).getData 7)
      (p := fun r => ¬ r.2.mEntityToIndexMap.keys.length = r.2.mSize) (by decide)
    exact ⟨r.1, r.2, hr, fun hw => hp hw.count⟩
  · obtain ⟨c', hr, hp⟩ := Result.of_holds (r := demoStore.insertData 1 99)
      (p := fun c => ¬ c.mEntityToIndexMap.keys.length = c.mSize) (by decide)
    exact ⟨c', by decide, hr, fun hw => hp hw.count⟩
  · obtain ⟨c', hr, hp⟩ := Result.of_holds (r := demoStore.removeData 9)
      (p := fun c => ¬ c.mEntityToIndexMap.keys.length = c.mSize) (by decide)
    exact ⟨c', by decide, hr, fun hw => hp hw.count⟩

/-- The ids handed out by `createEntity` and the queued ids lie inside the
signature array, in every state reached by returning calls, whatever their
preconditions. -/
theorem Tracked.ids_inRange_of_run {α : Type} [Inhabited α]
    {pre : Tracked α → Call α → Prop} [∀ w c, Decidable (pre w c)] {cs : List (Call α)}
    {w : Tracked α} (hr : Tracked.runWhere pre (Tracked.init : Tracked α) cs = some w) :
    (∀ x, x ∈ w.live → EntityManager.inRange x) ∧
    ∀ x, x ∈ w.ecs.mEntityManager.mAvailableEntities → EntityManager.inRange x := by
  refine Tracked.runWhere_invariant
    (P := fun w => (∀ x, x ∈ w.live → EntityManager.inRange x) ∧
      ∀ x, x ∈ w.ecs.mEntityManager.mAvailableEntities → EntityManager.inRange x)
    ?_ cs _ _
    ⟨fun x hx => (by cases hx), fun x hx => (EntityManager.new_inv.cover x).2 (Or.inr hx)⟩ hr
  intro w c w' hP _ hs
  cases c with
  | registerComponent t =>
    rw [Tracked.step_registerComponent hs]
    exact hP
  | createEntity =>
    obtain ⟨id, rest, hq, rfl⟩ := Tracked.step_createEntity hs
    refine ⟨?_, ?_⟩
    · intro x hx
      rcases List.mem_cons.1 hx with hx | hx
      · rw [hx]
        exact hP.2 id (by rw [hq]; exact List.mem_cons_self _ _)
      · exact hP.1 x hx
    · intro x hx
      exact hP.2 x (by rw [hq]; exact List.mem_cons_of_mem _ hx)
  | destroyEntity e =>
    obtain ⟨he, cm, _, rfl⟩ := Tracked.step_destroyEntity hs
    refine ⟨?_, ?_⟩
    · intro x hx
      exact hP.1 x (List.mem_of_mem_erase hx)
    · intro x hx
      have hx' : x ∈ w.ecs.mEntityManager.mAvailableEntities ++ [e] := hx
      rcases List.mem_append.1 hx' with hx' | hx'
      · exact hP.2 x hx'
      · rw [List.mem_singleton.1 hx']
        exact he
  | addComponent t e v =>
    obtain ⟨sig', _, hl, hem, _⟩ := Tracked.addComponent_managers hs
    rw [hl, hem]
    exact hP
  | removeComponent t e =>
    obtain ⟨sig', _, hl, hem, _⟩ := Tracked.removeComponent_managers hs
    rw [hl, hem]
    exact hP
  | getComponent t e =>
    obtain ⟨r, hg, rfl⟩ := Tracked.step_getComponent hs
    show (∀ x, x ∈ w.live → EntityManager.inRange x) ∧
      ∀ x, x ∈ r.2.mEntityManager.mAvailableEntities → EntityManager.inRange x
    rw [(ECS.getComponent_ok hg).1]
    exact hP
  | getComponentType t =>
    rw [Tracked.step_getComponentType hs]
    exact hP
  | registerSystem t =>
    rw [Tracked.step_registerSystem hs]
    exact hP
  | setSystemSignature t sig =>
    rw [Tracked.step_setSystemSignature hs]
    exact hP

/-- C6, as amended: `getData` has no not-found error. On a well-formed store
it returns the stored value of a present entity and leaves the store
unchanged; for an entity without a component it also returns: the content of
dense slot 0, after adding the entry `e ↦ 0` to the entity-to-index map. -/
theorem getData_returns_without_check {α : Type} (c : ComponentArray α) (h : c.WF)
    (e : Entity) :
    (∀ i, c.mEntityToIndexMap.find e = some i → c.getData e = .ok (c.mComponentArray i, c)) ∧
    (¬ c.present e → c.getData e = .ok (c.mComponentArray 0,
      { c with mEntityToIndexMap := c.mEntityToIndexMap.assign e 0 })) :=
  ⟨fun _ hi => ComponentArray.getData_of_present h hi,
    fun hp => ComponentArray.getData_of_absent hp⟩

/-- Witness of C6 (amended): the theorem at `demoStore` and the absent entity 9. -/
theorem getData_returns_without_check_witness :
    demoStore.WF ∧ ¬ demoStore.present 9 ∧
    (∀ i, demoStore.mEntityToIndexMap.find 9 = some i →
      demoStore.getData 9 = .ok (demoStore.mComponentArray i, demoStore)) ∧
    (¬ demoStore.present 9 → demoStore.getData 9 = .ok (demoStore.mComponentArray 0,
      { demoStore with mEntityToIndexMap := demoStore.mEntityToIndexMap.assign 9 0 })) :=
  ⟨demoStore_wf, by decide, getData_returns_without_check demoStore demoStore_wf 9⟩

/-- Counterexample to C6 as stated: entity 0 is given the value 42 and then
destroyed; it has no component any more, yet `getComponent` returns, with the
stale value 42, and afterwards entity 0 has an entry in the store again. -/
theorem getComponent_of_destroyed_entity_returns :
    ∃ (s s' : ECS Nat) (v : Nat), ECS.run ECS.init destroyedCalls = .ok s ∧
      ¬ s.hasComponent 0 0 ∧ s.getComponent 0 0 = .ok (v, s') ∧ v = 42 ∧
      s'.hasComponent 0 0 := by
  obtain ⟨s, hs, h1, h2⟩ := Result.of_holds (r := ECS.run ECS.init destroyedCalls)
    (p := fun s : ECS Nat => ¬ s.hasComponent 0 0 ∧
      (s.getComponent 0 0).holds (fun r => r.1 = 42 ∧ r.2.hasComponent 0 0) = true) (by decide)
  obtain ⟨r, hr, h3, h4⟩ := Result.of_holds h2
  exact ⟨s, r.2, r.1, hs, h1, hr, h3, h4⟩

/-- C7, as amended: the presence check is in `entityDestroyed`, which on an
entity that is not present returns and leaves the store unchanged;
`removeData` itself has no check and no `NotFound` error. -/
theorem entityDestroyed_absent_noop {α : Type} (c : ComponentArray α) (e : Entity)
    (h : ¬ c.present e) : c.entityDestroyed e = .ok c :=
  ComponentArray.entityDestroyed_of_absent h

/-- Witness of C7 (amended): the theorem at `demoStore` and the absent entity 9. -/
theorem entityDestroyed_absent_noop_witness :
    ¬ demoStore.present 9 ∧ demoStore.entityDestroyed 9 = .ok demoStore :=
  ⟨by decide, entityDestroyed_absent_noop demoStore 9 (by decide)⟩

/-- Counterexample to C7 as stated: `removeData` of the absent entity 9 on
`demoStore` returns normally, `mSize` drops from 3 to 2, slot 2 leaves the
index-to-entity map, and the value read for entity 1 changes from 10 to 30. -/
theorem removeData_absent_changes_store :
    ∃ c', ¬ demoStore.present 9 ∧ demoStore.removeData 9 = .ok c' ∧
      demoStore.mSize = 3 ∧ c'.mSize = 2 ∧
      (2 : Nat) ∈ demoStore.mIndexToEntityMap ∧ (2 : Nat) ∉ c'.mIndexToEntityMap ∧
      demoStore.valueOf 1 = some 10 ∧ c'.valueOf 1 = some 30 := by
  obtain ⟨c', hr, hp⟩ := Result.of_holds (r := demoStore.removeData 9)
    (p := fun c => c.mSize = 2 ∧ (2 : Nat) ∉ c.mIndexToEntityMap ∧ c.valueOf 1 = some 30)
    (by decide)
  exact ⟨c', by decide, hr, by decide, hp.1, by decide, hp.2.1, by decide, hp.2.2⟩

/-! ### Lemmas on consecutive `createEntity` calls -/

namespace EntityManager

/-- `n` consecutive `createEntity` calls on a pool holding at least `n` ids
return the first `n` ids of the queue and leave the others. -/
theorem createMany_eq :
    ∀ (n : Nat) (m : EntityManager), n ≤ m.mAvailableEntities.length →
      ∃ count, m.createMany n = .ok (m.mAvailableEntities.take n,
        { mAvailableEntities := m.mAvailableEntities.drop n
          mSignatures := m.mSignatures
          mLivingEntityCount := count }) := by
  intro n
  induction n with
  | zero =>
    intro m _
    exact ⟨m.mLivingEntityCount, rfl⟩
  | succ n ih =>
    intro m hn
    cases hq : m.mAvailableEntities with
    | nil => rw [hq] at hn; simp at hn
    | cons id rest =>
      rw [hq] at hn
      have hn' : n ≤ rest.length := by simpa using hn
      obtain ⟨count, hc⟩ := ih
        { m with mAvailableEntities := rest
                 mLivingEntityCount := (m.mLivingEntityCount + 1) % U32_MOD } hn'
      refine ⟨count, ?_⟩
      simp only [createMany, createEntity, hq, hc, List.take_succ_cons, List.drop_succ_cons]

theorem createEntity_of_cons {m : EntityManager} {id : Entity} {rest : List Int}
    (hq : m.mAvailableEntities = id :: rest) :
    m.createEntity = .ok (id,
      { m with mAvailableEntities := rest
               mLivingEntityCount := (m.mLivingEntityCount + 1) % U32_MOD }) := by
  simp only [createEntity, hq]

theorem createEntity_of_nil {m : EntityManager} (hq : m.mAvailableEntities = []) :
    m.createEntity = .error .undefinedBehaviour := by
  simp only [createEntity, hq]

theorem new_queue_length : EntityManager.new.mAvailableEntities.length = MAX_ENTITIES := by
  show ((List.range' 0 MAX_ENTITIES).map Int.ofNat).length = MAX_ENTITIES
  rw [List.length_map, List.length_range']

theorem mem_new_queue {e : Entity} (h : e ∈ EntityManager.new.mAvailableEntities) :
    inRange e :=
  (new_inv.cover e).2 (Or.inr h)

end EntityManager

/-- C8, as amended: on a freshly constructed `EntityManager`, `MAX_ENTITIES`
consecutive `createEntity` calls succeed and return `0, ..., MAX_ENTITIES - 1`,
which empties the pool; `createEntity` has no capacity check (its
precondition is a non-empty pool); after `destroyEntity` of any of these
entities, `createEntity` succeeds again and returns that entity. -/
theorem capacity_boundary :
    ∃ m, EntityManager.new.createMany MAX_ENTITIES =
        .ok ((List.range' 0 MAX_ENTITIES).map Int.ofNat, m) ∧
      m.mAvailableEntities = [] ∧
      ∀ e ∈ (List.range' 0 MAX_ENTITIES).map Int.ofNat,
        ∃ m1 m2, m.destroyEntity e = .ok m1 ∧ m1.createEntity = .ok (e, m2) := by
  obtain ⟨count, hc⟩ := EntityManager.createMany_eq MAX_ENTITIES EntityManager.new
    (le_of_eq EntityManager.new_queue_length.symm)
  have ht : EntityManager.new.mAvailableEntities.take MAX_ENTITIES =
      (List.range' 0 MAX_ENTITIES).map Int.ofNat :=
    List.take_of_length_le (le_of_eq EntityManager.new_queue_length)
  have hdr : EntityManager.new.mAvailableEntities.drop MAX_ENTITIES = [] :=
    List.drop_of_length_le (le_of_eq EntityManager.new_queue_length)
  rw [ht, hdr] at hc
  refine ⟨_, hc, rfl, ?_⟩
  intro e he
  have hin : EntityManager.inRange e := EntityManager.mem_new_queue he
  exact ⟨_, _, EntityManager.pool_destroyEntity_eq hin,
    EntityManager.createEntity_of_cons (by rfl)⟩

/-- Counterexample to C8 as stated: after `MAX_ENTITIES` successful
`createEntity` calls the next call is not a `CapacityExceeded` failure: the
code reads `front()` of the empty queue, which is undefined behaviour. -/
theorem create_beyond_capacity_is_undefined :
    ∃ ids m, EntityManager.new.createMany MAX_ENTITIES = .ok (ids, m) ∧
      ids.length = MAX_ENTITIES ∧ m.createEntity = .error .undefinedBehaviour := by
  obtain ⟨count, hc⟩ := EntityManager.createMany_eq MAX_ENTITIES EntityManager.new
    (le_of_eq EntityManager.new_queue_length.symm)
  have hdr : EntityManager.new.mAvailableEntities.drop MAX_ENTITIES = [] :=
    List.drop_of_length_le (le_of_eq EntityManager.new_queue_length)
  rw [hdr] at hc
  refine ⟨_, _, hc, ?_, EntityManager.createEntity_of_nil rfl⟩
  rw [List.length_take, EntityManager.new_queue_length, Nat.min_self]

namespace EntityManager

/-- The pool invariant holds after every sequence of pool calls that
destroys only live entities. -/
theorem runLive_inv :
    ∀ (cs : List PoolCall) (m : EntityManager) (live : List Entity) (m' : EntityManager)
      (live' : List Entity), m.Inv live → m.runLive live cs = some (m', live') →
      m'.Inv live' := by
  intro cs
  induction cs with
  | nil =>
    intro m live m' live' h hr
    simp only [runLive, Option.some.injEq, Prod.mk.injEq] at hr
    obtain ⟨rfl, rfl⟩ := hr
    exact h
  | cons c cs ih =>
    intro m live m' live' h hr
    cases c with
    | createEntity =>
      cases hq : m.mAvailableEntities with
      | nil =>
        simp only [runLive, createEntity_of_nil hq] at hr
        cases hr
      | cons id rest =>
        simp only [runLive, createEntity_of_cons hq] at hr
        exact ih _ _ _ _ (h.create hq _) hr
    | destroyEntity e =>
      by_cases he : e ∈ live
      · have hin : inRange e := h.inRange_of_live he
        simp only [runLive, if_pos he, pool_destroyEntity_eq hin] at hr
        exact ih _ _ _ _ (h.destroy he _ _) hr
      · simp only [runLive, if_neg he] at hr
        cases hr

theorem take_range_prefix :
    ∀ (k n s : Nat), k ≤ n → (List.range' s n).take k = List.range' s k := by
  intro k
  induction k with
  | zero => intro n s _; rfl
  | succ k ih =>
    intro n s hk
    cases n with
    | zero => omega
    | succ n =>
      rw [List.range'_succ, List.range'_succ, List.take_succ_cons, ih n (s + 1) (by omega)]

/-- A fresh pool hands out `0, 1, ..., n - 1`. -/
theorem createMany_new (n : Nat) (hn : n ≤ MAX_ENTITIES) :
    ∃ m, EntityManager.new.createMany n = .ok ((List.range' 0 n).map Int.ofNat, m) := by
  obtain ⟨count, hc⟩ := createMany_eq n EntityManager.new
    (by rw [new_queue_length]; exact hn)
  have ht : EntityManager.new.mAvailableEntities.take n = (List.range' 0 n).map Int.ofNat := by
    show ((List.range' 0 MAX_ENTITIES).map Int.ofNat).take n = _
    rw [← List.map_take, take_range_prefix n MAX_ENTITIES 0 hn]
  rw [ht] at hc
  exact ⟨_, hc⟩

end EntityManager

/-- The pool calls `demoPoolCalls` return `demoPool`. -/
theorem demoPool_run :
    EntityManager.new.runLive [] demoPoolCalls = some (demoPool.1, demoPool.2) := by rfl

/-- C9: a fresh `EntityManager` issues the ids `0, 1, 2, ...` in order; and in
every state reached by creating entities and destroying only live ones, after
`destroyEntity(e)` of a live entity the following `createEntity` calls return
the ids that were free before, in queue order, and then `e`, which empties
the pool; `e` was not among the free ids, so it is reissued exactly once. -/
theorem fifo_id_recycling (cs : List PoolCall) (m : EntityManager) (live : List Entity)
    (hr : EntityManager.new.runLive [] cs = some (m, live)) (e : Entity) (he : e ∈ live) :
    (∀ n, n ≤ MAX_ENTITIES →
      ∃ m', EntityManager.new.createMany n = .ok ((List.range' 0 n).map Int.ofNat, m')) ∧
    ∃ m1, m.destroyEntity e = .ok m1 ∧
      ∃ m2, m1.createMany (m.mAvailableEntities.length + 1) =
          .ok (m.mAvailableEntities ++ [e], m2) ∧
        m2.mAvailableEntities = [] ∧ e ∉ m.mAvailableEntities ∧
        (m.mAvailableEntities ++ [e]).count e = 1 := by
  have h := EntityManager.runLive_inv cs _ _ _ _ EntityManager.new_inv hr
  have hin : EntityManager.inRange e := h.inRange_of_live he
  have hne : e ∉ m.mAvailableEntities := h.disjoint e he
  refine ⟨EntityManager.createMany_new, _, EntityManager.pool_destroyEntity_eq hin, ?_⟩
  obtain ⟨count, hc⟩ := EntityManager.createMany_eq (m.mAvailableEntities.length + 1)
    { mSignatures := Function.update m.mSignatures e.toNat 0
      mAvailableEntities := m.mAvailableEntities ++ [e]
      mLivingEntityCount := (m.mLivingEntityCount + U32_MOD - 1) % U32_MOD }
    (by simp)
  have ht : (m.mAvailableEntities ++ [e]).take (m.mAvailableEntities.length + 1) =
      m.mAvailableEntities ++ [e] := List.take_of_length_le (by simp)
  have hd : (m.mAvailableEntities ++ [e]).drop (m.mAvailableEntities.length + 1) = [] :=
    List.drop_of_length_le (by simp)
  simp only [ht, hd] at hc
  refine ⟨_, hc, rfl, hne, ?_⟩
  rw [List.count_append, List.count_eq_zero_of_not_mem hne]
  simp

/-- Witness of C9: the theorem after three creations and the destruction of
entity 1, for the live entity 0. -/
theorem fifo_id_recycling_witness :
    EntityManager.new.runLive [] demoPoolCalls = some (demoPool.1, demoPool.2) ∧
    (0 : Entity) ∈ demoPool.2 ∧
    (∀ n, n ≤ MAX_ENTITIES →
      ∃ m', EntityManager.new.createMany n = .ok ((List.range' 0 n).map Int.ofNat, m')) ∧
    ∃ m1, demoPool.1.destroyEntity 0 = .ok m1 ∧
      ∃ m2, m1.createMany (demoPool.1.mAvailableEntities.length + 1) =
          .ok (demoPool.1.mAvailableEntities ++ [0], m2) ∧
        m2.mAvailableEntities = [] ∧ (0 : Entity) ∉ demoPool.1.mAvailableEntities ∧
        (demoPool.1.mAvailableEntities ++ [0]).count 0 = 1 :=
  ⟨demoPool_run, by decide,
    fifo_id_recycling demoPoolCalls demoPool.1 demoPool.2 demoPool_run 0 (by decide)⟩

/-- The calls `recycleCalls` have live entity arguments and return. -/
theorem recycledWorld_live :
    Tracked.runWhere Tracked.entitiesLive Tracked.init recycleCalls = some recycledWorld := by
  rfl

/-- The queue after `recycleCalls`: the ids 1 to 4999, then the id 0. -/
theorem recycledWorld_queue :
    recycledWorld.ecs.mEntityManager.mAvailableEntities =
      (List.range' 1 4999).map Int.ofNat ++ [0] := by
  rfl

namespace Tracked
variable {α : Type} [Inhabited α]

/-- A sequence of checked calls can be run in two parts. -/
theorem runWhere_append {pre : Tracked α → Call α → Prop} [∀ w c, Decidable (pre w c)] :
    ∀ (cs cs' : List (Call α)) (w w1 : Tracked α), runWhere pre w cs = some w1 →
      runWhere pre w (cs ++ cs') = runWhere pre w1 cs' := by
  intro cs
  induction cs with
  | nil =>
    intro cs' w w1 h
    simp only [runWhere, Option.some.injEq] at h
    rw [h]
    rfl
  | cons c cs ih =>
    intro cs' w w1 h
    rw [List.cons_append]
    have hL : runWhere pre w (c :: (cs ++ cs')) =
        if pre w c then
          match w.step c with
          | some w' => runWhere pre w' (cs ++ cs')
          | none => none
        else none := rfl
    rw [hL]
    unfold runWhere at h
    by_cases hp : pre w c
    · rw [if_pos hp] at h ⊢
      cases hs : w.step c with
      | none => rw [hs] at h; cases h
      | some w2 =>
        rw [hs] at h
        exact ih cs' w2 w1 h
    · rw [if_neg hp] at h; cases h

/-- As many `createEntity` calls as the queue has ids return; they take the
ids from the front of the queue. -/
theorem runWhere_creates :
    ∀ (n : Nat) (w : Tracked α), n ≤ w.ecs.mEntityManager.mAvailableEntities.length →
      ∃ w', runWhere entitiesLive w (List.replicate n Call.createEntity) = some w' ∧
        w'.ecs.mEntityManager.mAvailableEntities =
          w.ecs.mEntityManager.mAvailableEntities.drop n := by
  intro n
  induction n with
  | zero =>
    intro w _
    exact ⟨w, rfl, rfl⟩
  | succ n ih =>
    intro w hn
    cases hq : w.ecs.mEntityManager.mAvailableEntities with
    | nil =>
      rw [hq] at hn
      simp at hn
    | cons id rest =>
      rw [hq] at hn
      have hstep : w.step Call.createEntity = some
          { ecs := { w.ecs with mEntityManager :=
                { w.ecs.mEntityManager with
                  mAvailableEntities := rest
                  mLivingEntityCount :=
                    (w.ecs.mEntityManager.mLivingEntityCount + 1) % U32_MOD } }
            live := id :: w.live } := by
        simp only [step, ECS.call, ECS.createEntity_eq hq, Except.map, liveAfter]
      have hn' : n ≤ rest.length := by
        simp only [List.length_cons] at hn
        omega
      obtain ⟨w', hw', hq'⟩ := ih
        { ecs := { w.ecs with mEntityManager :=
              { w.ecs.mEntityManager with
                mAvailableEntities := rest
                mLivingEntityCount :=
                  (w.ecs.mEntityManager.mLivingEntityCount + 1) % U32_MOD } }
          live := id :: w.live } hn'
      refine ⟨w', ?_, ?_⟩
      · rw [List.replicate_succ]
        have hL : runWhere entitiesLive w (Call.createEntity ::
            List.replicate n Call.createEntity) =
            if w.entitiesLive Call.createEntity then
              match w.step Call.createEntity with
              | some w' => runWhere entitiesLive w' (List.replicate n Call.createEntity)
              | none => none
            else none := rfl
        rw [hL, if_pos (by trivial), hstep]
        exact hw'
      · rw [hq', List.drop_succ_cons]

end Tracked

/-- The call `createEntity` in `demoWorld` returns `demoCreated`. -/
theorem demoCreated_eq :
    demoWorld.ecs.createEntity = .ok (demoCreated.1, demoCreated.2) := by rfl

namespace ComponentManager
variable {α : Type}

theorem empty_ordered : (ComponentManager.empty : ComponentManager α).Ordered [] := by
  refine ⟨List.nodup_nil, Nat.zero_le _, rfl, ?_, ?_⟩
  · intro t i
    show Map.find (∅ : Map TypeName Nat) t = some i ↔ _
    simp [Map.find_empty]
  · intro t
    show t ∈ (∅ : Map TypeName (ComponentArray α)) ↔ _
    simp

theorem Ordered.mem_types {m : ComponentManager α} {regs : List TypeName} (h : m.Ordered regs)
    (t : TypeName) : t ∈ m.mComponentTypes ↔ t ∈ regs := by
  rw [Map.mem_iff_find]
  constructor
  · rintro ⟨i, hi⟩
    exact List.getElem?_mem ((h.ids t i).1 hi)
  · intro ht
    obtain ⟨i, hi, hti⟩ := List.getElem_of_mem ht
    exact ⟨i, (h.ids t i).2 (by rw [List.getElem?_eq_getElem hi, hti])⟩

theorem Ordered.register [Inhabited α] {m : ComponentManager α} {regs : List TypeName}
    (h : m.Ordered regs) {t : TypeName} (ht : t ∉ regs) (hl : regs.length < U8_MOD) :
    (m.registerComponent t).Ordered (regs ++ [t]) := by
  have hnext : m.mNextComponentType = regs.length := by
    rw [h.next, Nat.mod_eq_of_lt hl]
  have h1 : t ∉ m.mComponentTypes := fun hh => ht ((h.mem_types t).1 hh)
  have h2 : t ∉ m.mComponentArrays := fun hh => ht ((h.arrays t).1 hh)
  refine ⟨?_, ?_, ?_, ?_, ?_⟩
  · rw [List.nodup_append]
    refine ⟨h.nodup, List.nodup_singleton t, ?_⟩
    intro x hx hx'
    rw [List.mem_singleton] at hx'
    subst hx'
    exact ht hx
  · rw [List.length_append, List.length_singleton]
    omega
  · show (m.mNextComponentType + 1) % U8_MOD = (regs ++ [t]).length % U8_MOD
    rw [hnext, List.length_append, List.length_singleton]
  · intro t' i
    show (m.mComponentTypes.emplace t m.mNextComponentType).find t' = some i ↔ _
    rw [Map.emplace_of_not_mem _ h1, Map.find_assign, hnext]
    by_cases hi : i < regs.length
    · rw [List.getElem?_append_left hi]
      by_cases htt : t' = t
      · subst htt
        simp only [if_true, Option.some.injEq]
        constructor
        · intro hh; omega
        · intro hh; exact absurd (List.getElem?_mem hh) ht
      · rw [if_neg htt]
        exact h.ids t' i
    · have hge : regs.length ≤ i := Nat.le_of_not_lt hi
      rw [List.getElem?_append_right hge]
      by_cases htt : t' = t
      · subst htt
        simp only [if_true, Option.some.injEq]
        constructor
        · intro hh; subst hh; simp
        · intro hh
          by_contra hne
          have hpos : 0 < i - regs.length := by omega
          obtain ⟨j, hj⟩ := Nat.exists_eq_succ_of_ne_zero (Nat.pos_iff_ne_zero.1 hpos)
          rw [hj] at hh
          simp at hh
      · rw [if_neg htt]
        constructor
        · intro hh
          have := (h.ids t' i).1 hh
          have hlt := (List.getElem?_eq_some_iff.1 this).1
          omega
        · intro hh
          exfalso
          cases hj : i - regs.length with
          | zero => rw [hj] at hh; simp at hh; exact htt hh.symm
          | succ j => rw [hj] at hh; simp at hh
  · intro t'
    show t' ∈ m.mComponentArrays.emplace t ComponentArray.empty ↔ _
    rw [Map.emplace_of_not_mem _ h2, Map.mem_assign, h.arrays t', List.mem_append,
      List.mem_singleton]
    tauto

theorem Ordered.typeId_eq {m : ComponentManager α} {regs : List TypeName}
    (h : m.Ordered regs) {t : TypeName} {i : Nat} (hi : regs[i]? = some t) :
    m.getComponentType t = (i, m) := by
  have hf := (h.ids t i).2 hi
  simp only [getComponentType, Map.index_of_find 0 hf]

/-- The registration order is kept by every checked sequence of calls. -/
theorem runTypesChecked_ordered [Inhabited α] :
    ∀ (cs : List TypeCall) (m m' : ComponentManager α) (regs regs' : List TypeName),
      m.Ordered regs → m.runTypesChecked regs cs = some (m', regs') → m'.Ordered regs' := by
  intro cs
  induction cs with
  | nil =>
    intro m m' regs regs' h hr
    simp only [runTypesChecked, Option.some.injEq, Prod.mk.injEq] at hr
    obtain ⟨rfl, rfl⟩ := hr
    exact h
  | cons c cs ih =>
    intro m m' regs regs' h hr
    cases c with
    | registerComponent t =>
      by_cases hp : t ∉ regs ∧ regs.length < U8_MOD
      · simp only [runTypesChecked, if_pos hp] at hr
        exact ih _ _ _ _ (h.register hp.1 hp.2) hr
      · simp only [runTypesChecked, if_neg hp] at hr
        cases hr
    | getComponentType t =>
      by_cases hp : t ∈ regs
      · simp only [runTypesChecked, if_pos hp] at hr
        obtain ⟨i, hi, hti⟩ := List.getElem_of_mem hp
        have hq : regs[i]? = some t := by rw [List.getElem?_eq_getElem hi, hti]
        rw [h.typeId_eq hq] at hr
        exact ih _ _ _ _ h hr
      · simp only [runTypesChecked, if_neg hp] at hr
        cases hr

/-- A checked sequence of calls is a sequence of calls. -/
theorem runTypes_of_checked [Inhabited α] :
    ∀ (cs : List TypeCall) (m m' : ComponentManager α) (regs regs' : List TypeName),
      m.runTypesChecked regs cs = some (m', regs') → m.runTypes cs = m' := by
  intro cs
  induction cs with
  | nil =>
    intro m m' regs regs' hr
    simp only [runTypesChecked, Option.some.injEq, Prod.mk.injEq] at hr
    exact hr.1
  | cons c cs ih =>
    intro m m' regs regs' hr
    cases c with
    | registerComponent t =>
      by_cases hp : t ∉ regs ∧ regs.length < U8_MOD
      · simp only [runTypesChecked, if_pos hp] at hr
        exact ih _ _ _ _ hr
      · simp only [runTypesChecked, if_neg hp] at hr
        cases hr
    | getComponentType t =>
      by_cases hp : t ∈ regs
      · simp only [runTypesChecked, if_pos hp] at hr
        exact ih _ _ _ _ hr
      · simp only [runTypesChecked, if_neg hp] at hr
        cases hr

end ComponentManager
namespace ComponentManager
variable {α : Type} [Inhabited α]

theorem registerAll_append (m : ComponentManager α) (l : List TypeName) (t : TypeName) :
    m.registerAll (l ++ [t]) = (m.registerAll l).registerComponent t := by
  induction l generalizing m with
  | nil => rfl
  | cons x xs ih => exact ih (m.registerComponent x)

/-- Registering pairwise distinct types, at most `2 ^ 8` in all, keeps the
registration order. -/
theorem registerAll_ordered :
    ∀ (l : List TypeName) (m : ComponentManager α) (regs : List TypeName), m.Ordered regs →
      (regs ++ l).Nodup → (regs ++ l).length ≤ U8_MOD →
      (m.registerAll l).Ordered (regs ++ l) := by
  intro l
  induction l with
  | nil =>
    intro m regs h _ _
    rw [List.append_nil]
    exact h
  | cons t ts ih =>
    intro m regs h hd hl
    have hd' : (regs ++ [t] ++ ts).Nodup := by simpa using hd
    have hl' : (regs ++ [t] ++ ts).length ≤ U8_MOD := by simpa using hl
    have ht : t ∉ regs := by
      intro hm
      have := (List.nodup_append.1 hd).2.2
      exact this hm (List.mem_cons_self _ _)
    have hlen : regs.length < U8_MOD := by
      simp only [List.length_append, List.length_cons] at hl
      omega
    have := ih (m.registerComponent t) (regs ++ [t]) (h.register ht hlen) hd' hl'
    simpa using this

end ComponentManager

/-- The first `2 ^ 8` registrations of the types `0, ..., 255` are in
registration order. -/
theorem range_ordered :
    ((ComponentManager.empty : ComponentManager Nat).registerAll (List.range 256)).Ordered
      (List.range 256) := by
  have h := ComponentManager.registerAll_ordered (List.range 256)
    (ComponentManager.empty : ComponentManager Nat) [] ComponentManager.empty_ordered
    (by simpa using List.nodup_range 256) (by simp [U8_MOD])
  simpa using h
/-- The calls `demoTypeCalls` are checked and return `demoTypes`. -/
theorem demoTypes_run :
    (ComponentManager.empty : ComponentManager Nat).runTypesChecked [] demoTypeCalls =
      some (demoTypes.1, demoTypes.2) := by rfl

/-- C11, as amended: after any sequence of `registerComponent` and
`getComponentType` calls in which every type is registered at most once, at
most `2 ^ 8` types are registered and `getComponentType` is asked only for
registered types, the type registered as number `i` (counting from 0) has id
`i`, and `getComponentType` returns it without changing the registry: the
ids of the `n` registered types are pairwise different and are exactly
`0, ..., n - 1`, in the order of registration. -/
theorem type_ids_dense_in_registration_order {α : Type} [Inhabited α] (cs : List TypeCall)
    (m : ComponentManager α) (regs : List TypeName)
    (hr : (ComponentManager.empty : ComponentManager α).runTypesChecked [] cs =
      some (m, regs)) :
    (ComponentManager.empty : ComponentManager α).runTypes cs = m ∧ regs.Nodup ∧
    (∀ t, t ∈ m.mComponentArrays ↔ t ∈ regs) ∧
    (∀ i t, regs[i]? = some t → m.getComponentType t = (i, m)) ∧
    (∀ t, t ∈ regs → (m.getComponentType t).1 < regs.length) ∧
    (∀ k, k < regs.length → ∃ t, t ∈ regs ∧ (m.getComponentType t).1 = k) ∧
    (∀ t t', t ∈ regs → t' ∈ regs →
      (m.getComponentType t).1 = (m.getComponentType t').1 →
      t = t') := by
  have h := ComponentManager.runTypesChecked_ordered cs _ _ _ _
    ComponentManager.empty_ordered hr
  refine ⟨ComponentManager.runTypes_of_checked cs _ _ _ _ hr, h.nodup, h.arrays,
    fun i t hi => h.typeId_eq hi, ?_, ?_, ?_⟩
  · intro t ht
    obtain ⟨i, hi, hti⟩ := List.getElem_of_mem ht
    have hq : regs[i]? = some t := by rw [List.getElem?_eq_getElem hi, hti]
    rw [h.typeId_eq hq]
    exact hi
  · intro k hk
    refine ⟨regs[k], List.getElem_mem hk, ?_⟩
    rw [h.typeId_eq (List.getElem?_eq_getElem hk)]
  · intro t t' ht ht' heq
    obtain ⟨i, hi, hti⟩ := List.getElem_of_mem ht
    obtain ⟨j, hj, htj⟩ := List.getElem_of_mem ht'
    have hq : regs[i]? = some t := by rw [List.getElem?_eq_getElem hi, hti]
    have hq' : regs[j]? = some t' := by rw [List.getElem?_eq_getElem hj, htj]
    rw [h.typeId_eq hq, h.typeId_eq hq'] at heq
    have hij : i = j := heq
    subst hij
    rw [hq] at hq'
    exact Option.some.inj hq'

/-- Witness of C11 (amended): the theorem at `demoTypeCalls`, which register
the types 4 and 7. -/
theorem type_ids_dense_in_registration_order_witness :
    (ComponentManager.empty : ComponentManager Nat).runTypesChecked [] demoTypeCalls =
      some (demoTypes.1, demoTypes.2) ∧
    demoTypes.2 = [4, 7] ∧
    (ComponentManager.empty : ComponentManager Nat).runTypes demoTypeCalls = demoTypes.1 ∧
    demoTypes.2.Nodup ∧
    (∀ t, t ∈ demoTypes.1.mComponentArrays ↔ t ∈ demoTypes.2) ∧
    (∀ i t, demoTypes.2[i]? = some t → demoTypes.1.getComponentType t = (i, demoTypes.1)) ∧
    (∀ t, t ∈ demoTypes.2 → (demoTypes.1.getComponentType t).1 < demoTypes.2.length) ∧
    (∀ k, k < demoTypes.2.length →
      ∃ t, t ∈ demoTypes.2 ∧ (demoTypes.1.getComponentType t).1 = k) ∧
    (∀ t t', t ∈ demoTypes.2 → t' ∈ demoTypes.2 →
      (demoTypes.1.getComponentType t).1 = (demoTypes.1.getComponentType t').1 → t = t') :=
  ⟨demoTypes_run, by decide,
    type_ids_dense_in_registration_order demoTypeCalls demoTypes.1 demoTypes.2 demoTypes_run⟩

/-- Counterexample to C11 as stated. First, type 0 is registered, type 1 is
asked for its id before it is registered (the read `mComponentTypes[typeName]`
stores the id 0 for it) and is then registered: both registered types have
the id 0. Second, the 257 types `0, ..., 256` are registered: the counter
`mNextComponentType` has wrapped and the types 0 and 256 both have the id 0. -/
theorem type_ids_collide :
    ((0 : TypeName) ∈
        ((ComponentManager.empty : ComponentManager Nat).runTypes
          earlyTypeQueryCalls).mComponentArrays ∧
      (1 : TypeName) ∈
        ((ComponentManager.empty : ComponentManager Nat).runTypes
          earlyTypeQueryCalls).mComponentArrays ∧
      (((ComponentManager.empty : ComponentManager Nat).runTypes
        earlyTypeQueryCalls).getComponentType 0).1 = 0 ∧
      (((ComponentManager.empty : ComponentManager Nat).runTypes
        earlyTypeQueryCalls).getComponentType 1).1 = 0) ∧
    ((0 : TypeName) ∈
        ((ComponentManager.empty : ComponentManager Nat).registerAll
          (List.range 257)).mComponentArrays ∧
      (256 : TypeName) ∈
        ((ComponentManager.empty : ComponentManager Nat).registerAll
          (List.range 257)).mComponentArrays ∧
      (((ComponentManager.empty : ComponentManager Nat).registerAll
        (List.range 257)).getComponentType 0).1 = 0 ∧
      (((ComponentManager.empty : ComponentManager Nat).registerAll
        (List.range 257)).getComponentType 256).1 = 0) := by
  refine ⟨by decide, ?_⟩
  have h := range_ordered
  have hsplit : List.range 257 = List.range 256 ++ [256] := List.range_succ 256
  have h0 : ((ComponentManager.empty : ComponentManager Nat).registerAll
      (List.range 256)).mComponentTypes.find 0 = some 0 :=
    (h.ids 0 0).2 (by simp)
  have hn : (256 : TypeName) ∉ ((ComponentManager.empty : ComponentManager Nat).registerAll
      (List.range 256)).mComponentTypes := by
    rw [h.mem_types]; simp
  have hna : (256 : TypeName) ∉ ((ComponentManager.empty : ComponentManager Nat).registerAll
      (List.range 256)).mComponentArrays := by
    rw [h.arrays]; simp
  have hnext : ((ComponentManager.empty : ComponentManager Nat).registerAll
      (List.range 256)).mNextComponentType = 0 := by
    rw [h.next]; simp [U8_MOD]
  have ha0 : (0 : TypeName) ∈ ((ComponentManager.empty : ComponentManager Nat).registerAll
      (List.range 256)).mComponentArrays := by
    rw [h.arrays]; simp
  rw [hsplit, ComponentManager.registerAll_append]
  clear h hsplit
  generalize (ComponentManager.empty : ComponentManager Nat).registerAll (List.range 256) = m
    at h0 hn hna hnext ha0 ⊢
  have hf0 : (m.registerComponent 256).mComponentTypes.find 0 = some 0 := by
    show Map.find (Map.emplace _ _ _) 0 = some 0
    rw [Map.emplace_of_not_mem _ hn, Map.find_assign, if_neg (by decide)]
    exact h0
  have hf : (m.registerComponent 256).mComponentTypes.find 256 = some 0 := by
    show Map.find (Map.emplace _ _ _) 256 = some 0
    rw [Map.emplace_of_not_mem _ hn, Map.find_assign, if_pos rfl, hnext]
  refine ⟨?_, ?_, ?_, ?_⟩
  · show (0 : TypeName) ∈ Map.emplace _ _ _
    rw [Map.emplace_of_not_mem _ hna, Map.mem_assign]
    exact Or.inr ha0
  · show (256 : TypeName) ∈ Map.emplace _ _ _
    rw [Map.emplace_of_not_mem _ hna, Map.mem_assign]
    exact Or.inl rfl
  · simp only [ComponentManager.getComponentType, Map.index_of_find 0 hf0]
  · simp only [ComponentManager.getComponentType, Map.index_of_find 0 hf]


/-! ## C12: `getComponentType` of a type that was never registered -/

/-- The id of a type that has one is returned and nothing changes. -/
theorem ComponentManager.typeId_of_find {α : Type} {m : ComponentManager α} {t : TypeName}
    {k : Nat} (h : m.mComponentTypes.find t = some k) : m.getComponentType t = (k, m) := by
  simp only [ComponentManager.getComponentType, Map.index_of_find 0 h]

/-- A type without an id is given the id 0 by the read `mComponentTypes[typeName]`. -/
theorem ComponentManager.typeId_of_not_mem {α : Type} {m : ComponentManager α} {t : TypeName}
    (h : t ∉ m.mComponentTypes) :
    m.getComponentType t =
      (0, { m with mComponentTypes := m.mComponentTypes.assign t 0 }) := by
  simp only [ComponentManager.getComponentType, Map.index_of_not_mem 0 h]

/-- C12, as amended: `getComponentType<T>()` returns the id stored for `T` and
changes nothing when `T` has one, in particular the value of the counter at
the registration of a `T` that had none before; when `T` has no id (it was
never registered) the call does not fail: it returns 0 and stores the id 0
for `T` in `mComponentTypes`. -/
theorem getComponentType_without_check {α : Type} [Inhabited α] (m : ComponentManager α)
    (t : TypeName) :
    (∀ k, m.mComponentTypes.find t = some k → m.getComponentType t = (k, m)) ∧
    (t ∉ m.mComponentTypes →
      (m.registerComponent t).getComponentType t =
        (m.mNextComponentType, m.registerComponent t)) ∧
    (t ∉ m.mComponentTypes →
      m.getComponentType t =
        (0, { m with mComponentTypes := m.mComponentTypes.assign t 0 })) := by
  refine ⟨fun k h => ComponentManager.typeId_of_find h, fun h => ?_,
    fun h => ComponentManager.typeId_of_not_mem h⟩
  apply ComponentManager.typeId_of_find
  show Map.find (Map.emplace _ _ _) t = _
  rw [Map.emplace_of_not_mem _ h, Map.find_assign, if_pos rfl]

/-- Witness of C12 (amended): the theorem at the manager `demoTypes.1`, in
which the types 4 and 7 are registered, for the registered type 7 and for the
type 9, which is not registered. -/
theorem getComponentType_without_check_witness :
    demoTypes.1.mComponentTypes.find 7 = some 1 ∧ 9 ∉ demoTypes.1.mComponentTypes ∧
    demoTypes.1.getComponentType 7 = (1, demoTypes.1) ∧
    (demoTypes.1.registerComponent 9).getComponentType 9 =
      (demoTypes.1.mNextComponentType, demoTypes.1.registerComponent 9) ∧
    demoTypes.1.getComponentType 9 =
      (0, { demoTypes.1 with mComponentTypes := demoTypes.1.mComponentTypes.assign 9 0 }) :=
  ⟨by decide, by decide,
    (getComponentType_without_check demoTypes.1 7).1 1 (by decide),
    (getComponentType_without_check demoTypes.1 9).2.1 (by decide),
    (getComponentType_without_check demoTypes.1 9).2.2 (by decide)⟩

/-- Counterexample to C12 as stated: on a fresh manager, where no type is
registered, `getComponentType` of type 7 does not fail: it returns the id 0,
and afterwards type 7 has an entry in `mComponentTypes`, so the registry has
changed. The same holds through the facade `ECS::getComponentType`. -/
theorem getComponentType_of_unregistered_returns :
    (7 : TypeName) ∉ (ComponentManager.empty : ComponentManager Nat).mComponentTypes ∧
    ((ComponentManager.empty : ComponentManager Nat).getComponentType 7).1 = 0 ∧
    (7 : TypeName) ∈
      ((ComponentManager.empty : ComponentManager Nat).getComponentType 7).2.mComponentTypes ∧
    ((ComponentManager.empty : ComponentManager Nat).getComponentType 7).2.mComponentTypes.find 7
      = some 0 ∧
    ((ECS.init : ECS Nat).getComponentType 7).1 = 0 ∧
    (7 : TypeName) ∈
      ((ECS.init : ECS Nat).getComponentType 7).2.mComponentManager.mComponentTypes := by
  decide

/-! ## C13: registering a component type twice -/

/-- A second `registerComponent<T>` changes neither map, and increments the
counter. -/
theorem ComponentManager.registerComponent_of_registered {α : Type} [Inhabited α]
    {m : ComponentManager α} {t : TypeName} (ht : t ∈ m.mComponentTypes)
    (ha : t ∈ m.mComponentArrays) :
    m.registerComponent t =
      { m with mNextComponentType := (m.mNextComponentType + 1) % U8_MOD } := by
  simp only [ComponentManager.registerComponent, Map.emplace_of_mem _ ht,
    Map.emplace_of_mem _ ha]

/-- C13 (defect of the code): the type 0 is registered on a fresh manager and
then registered again. The second call is not reported and changes neither
`mComponentTypes` nor `mComponentArrays`, but it increments
`mNextComponentType` from 1 to 2: the manager state has changed, and the type
1 registered next receives the id 2, not the id 1 that it receives when the
duplicate call is left out. -/
theorem duplicate_registration_skips_id :
    ((ComponentManager.empty : ComponentManager Nat).registerAll [0]).registerComponent 0 =
      { (ComponentManager.empty : ComponentManager Nat).registerAll [0] with
        mNextComponentType := 2 } ∧
    ((ComponentManager.empty : ComponentManager Nat).registerAll [0]).mNextComponentType = 1 ∧
    ((ComponentManager.empty : ComponentManager Nat).registerAll [0, 0]).mNextComponentType
      = 2 ∧
    (((ComponentManager.empty : ComponentManager Nat).registerAll
      [0, 0, 1]).getComponentType 1).1 = 2 ∧
    (((ComponentManager.empty : ComponentManager Nat).registerAll
      [0, 1]).getComponentType 1).1 = 1 :=
  ⟨ComponentManager.registerComponent_of_registered (by decide) (by decide), by decide, by decide,
    by decide, by decide⟩


/-! ## C14: a system registered after its entities -/

/-- The record and the stored signature of a system registered by
`registerSystem` and `setSignature` that was unknown before. -/
theorem SystemManager.find_of_registered {m : SystemManager} {t : TypeName}
    (ht : t ∉ m.mSystems) (R : Signature) :
    ((m.registerSystem t).setSignature t R).mSystems.find t = some { mEntities := ∅ } := by
  show Map.find (Map.emplace _ _ _) t = _
  rw [Map.emplace_of_not_mem _ ht, Map.find_assign, if_pos rfl]

/-- The signature stored by `setSignature` for a system that had none. -/
theorem SystemManager.signature_of_registered {m : SystemManager} {t : TypeName}
    (ht : t ∉ m.mSignatures) (R : Signature) :
    ((m.registerSystem t).setSignature t R).mSignatures.find t = some R := by
  show Map.find (Map.emplace m.mSignatures t R) t = _
  rw [Map.emplace_of_not_mem _ ht, Map.find_assign, if_pos rfl]

/-- C14, as amended: registering a system does not pick up existing
entities. Immediately after `registerSystem<S>` and `setSystemSignature<S>(R)`
of a system `S` that was not registered before, the interest set of `S` is
empty, whatever the signatures of the existing entities are; when no signature
was stored for `S` before, an entity `e` is in the set after its next
`entitySignatureChanged(e, sig)` (the next `addComponent` or `removeComponent`
on `e`) if and only if `(sig & R) == R`. -/
theorem registered_system_starts_empty {α : Type} (s : ECS α) (t : TypeName) (R : Signature)
    (ht : t ∉ s.mSystemManager.mSystems) :
    ((s.registerSystem t).setSystemSignature t R).mSystemManager.mSystems.find t =
      some { mEntities := ∅ } ∧
    (∀ e, ¬ ((s.registerSystem t).setSystemSignature t R).interested t e) ∧
    ((s.registerSystem t).setSystemSignature t R).mEntityManager = s.mEntityManager ∧
    (t ∉ s.mSystemManager.mSignatures → ∀ e sig, ∃ sys,
      (((s.registerSystem t).setSystemSignature t R).mSystemManager.entitySignatureChanged
        e sig).mSystems.find t = some sys ∧
      (e ∈ sys.mEntities ↔ sig &&& R = R)) := by
  have hf := SystemManager.find_of_registered ht R
  refine ⟨hf, ?_, rfl, ?_⟩
  · rintro e ⟨sys, hsys, he⟩
    have hsys' : ((s.mSystemManager.registerSystem t).setSignature t R).mSystems.find t =
        some sys := hsys
    rw [hf] at hsys'
    cases hsys'
    simp at he
  · intro hs e sig
    have hR := SystemManager.signature_of_registered (m := s.mSystemManager) hs R
    refine ⟨System.retest e sig R { mEntities := ∅ }, ?_, ?_⟩
    · show (((s.mSystemManager.registerSystem t).setSignature t R).entitySignatureChanged
        e sig).mSystems.find t = _
      rw [(SystemManager.entitySignatureChanged_spec _ e sig t).1]
      simp only [SystemManager.systemAfter, SystemManager.required, hf, hR, Option.map_some',
        Option.getD_some]
    · rw [SystemManager.mem_retest, if_pos rfl]

/-- Witness of C14 (amended): the theorem at the state after `ECS::init` and
the system 5 with required signature 1. -/
theorem registered_system_starts_empty_witness :
    (5 : TypeName) ∉ (ECS.init : ECS Nat).mSystemManager.mSystems ∧
    (5 : TypeName) ∉ (ECS.init : ECS Nat).mSystemManager.mSignatures ∧
    (((ECS.init : ECS Nat).registerSystem 5).setSystemSignature 5 1).mSystemManager.mSystems.find
      5 = some { mEntities := ∅ } ∧
    (∀ e, ¬ (((ECS.init : ECS Nat).registerSystem 5).setSystemSignature 5 1).interested 5 e) ∧
    (∀ e sig, ∃ sys,
      ((((ECS.init : ECS Nat).registerSystem 5).setSystemSignature 5
        1).mSystemManager.entitySignatureChanged e sig).mSystems.find 5 = some sys ∧
      (e ∈ sys.mEntities ↔ sig &&& 1 = 1)) :=
  ⟨by decide, by decide,
    (registered_system_starts_empty (ECS.init : ECS Nat) 5 1 (by decide)).1,
    (registered_system_starts_empty (ECS.init : ECS Nat) 5 1 (by decide)).2.1,
    (registered_system_starts_empty (ECS.init : ECS Nat) 5 1 (by decide)).2.2.2 (by decide)⟩

/-- Counterexample to C14 as stated, in the scenario of the specification:
the component type 0 is registered and has id 0, entity 0 is given one, so
its signature is 1 (bit 0); the system 5 is then registered with the required
signature 1. Entity 0 matches, `(1 & 1) == 1`, and is not in the interest set
of the system, which is empty. -/
theorem late_system_misses_existing_entity :
    ∃ s : ECS Nat, ECS.run ECS.init positionCalls = .ok s ∧
      (s.getComponentType 0).1 = 0 ∧
      s.mEntityManager.getSignature 0 = .ok 1 ∧ 1 &&& 1 = 1 ∧
      5 ∉ s.mSystemManager.mSystems ∧
      ((s.registerSystem 5).setSystemSignature 5 1).mSystemManager.mSignatures.find 5 =
        some 1 ∧
      ((s.registerSystem 5).setSystemSignature 5 1).mEntityManager.getSignature 0 = .ok 1 ∧
      ¬ ((s.registerSystem 5).setSystemSignature 5 1).interested 5 0 :=
  Result.of_holds (p := fun s : ECS Nat =>
    (s.getComponentType 0).1 = 0 ∧
    s.mEntityManager.getSignature 0 = .ok 1 ∧ 1 &&& 1 = 1 ∧
    5 ∉ s.mSystemManager.mSystems ∧
    ((s.registerSystem 5).setSystemSignature 5 1).mSystemManager.mSignatures.find 5 =
      some 1 ∧
    ((s.registerSystem 5).setSystemSignature 5 1).mEntityManager.getSignature 0 = .ok 1 ∧
    ¬ ((s.registerSystem 5).setSystemSignature 5 1).interested 5 0) (by decide)


/-! ## C15: postcondition of `entitySignatureChanged` -/

/-- C15: postcondition of `SystemManager::entitySignatureChanged(e, sig)`.
Every registered system stays registered, and no other appears; for a
registered system with stored required signature `R`, `e` is in its interest
set after the call if and only if `(sig & R) == R`, and `R` stays its stored
signature; the membership of every entity other than `e` in the interest set
of every registered system is unchanged. -/
theorem entitySignatureChanged_postcondition (m : SystemManager) (e : Entity)
    (sig : Signature) (t : TypeName) :
    (∀ sys, m.mSystems.find t = some sys →
      ∃ sys', (m.entitySignatureChanged e sig).mSystems.find t = some sys' ∧
        (∀ x, x ≠ e → (x ∈ sys'.mEntities ↔ x ∈ sys.mEntities)) ∧
        (∀ R, m.mSignatures.find t = some R →
          (e ∈ sys'.mEntities ↔ sig &&& R = R) ∧
          (m.entitySignatureChanged e sig).mSignatures.find t = some R)) ∧
    (m.mSystems.find t = none → (m.entitySignatureChanged e sig).mSystems.find t = none) := by
  have h := SystemManager.entitySignatureChanged_spec m e sig t
  constructor
  · intro sys hs
    refine ⟨System.retest e sig (m.required t) sys, ?_, ?_, ?_⟩
    · rw [h.1]
      simp only [SystemManager.systemAfter, hs, Option.map_some']
    · intro x hx
      rw [SystemManager.mem_retest, if_neg hx]
    · intro R hR
      have hreq : m.required t = R := by
        simp only [SystemManager.required, hR, Option.getD_some]
      constructor
      · rw [SystemManager.mem_retest, if_pos rfl, hreq]
      · rw [h.2]
        simp only [SystemManager.signatureAfter, hs, Option.isSome_some, if_true, hreq]
  · intro hn
    rw [h.1]
    simp only [SystemManager.systemAfter, hn, Option.map_none']

/-- The system 9 of `demoSystems` holds entity 1. -/
theorem demoSystems_find : demoSystems.mSystems.find 9 = some { mEntities := {1} } := by
  decide

/-- The system 9 of `demoSystems` requires bit 0. -/
theorem demoSystems_signature : demoSystems.mSignatures.find 9 = some 1 := by
  decide

/-- Witness of C15: the theorem at `demoSystems`, whose system 9 requires bit
0 and holds entity 1, for the call `entitySignatureChanged(2, 3)` and for the
call `entitySignatureChanged(1, 2)`. -/
theorem entitySignatureChanged_postcondition_witness :
    demoSystems.mSystems.find 9 = some { mEntities := {1} } ∧
    demoSystems.mSignatures.find 9 = some 1 ∧
    (∃ sys', (demoSystems.entitySignatureChanged 2 3).mSystems.find 9 = some sys' ∧
      (∀ x, x ≠ 2 → (x ∈ sys'.mEntities ↔ x ∈ ({1} : Finset Int))) ∧
      (∀ R, demoSystems.mSignatures.find 9 = some R →
        ((2 : Int) ∈ sys'.mEntities ↔ 3 &&& R = R) ∧
        (demoSystems.entitySignatureChanged 2 3).mSignatures.find 9 = some R)) ∧
    (demoSystems.entitySignatureChanged 2 3).mSystems.find 4 = none :=
  ⟨demoSystems_find, demoSystems_signature,
    (entitySignatureChanged_postcondition demoSystems 2 3 9).1 _ demoSystems_find,
    (entitySignatureChanged_postcondition demoSystems 2 3 4).2 (by decide)⟩


/-! ## C19: the signature given by `setSystemSignature` -/

/-- A `setSignature` for a system that has a stored signature changes
nothing. -/
theorem SystemManager.setSignature_of_stored {m : SystemManager} {t : TypeName}
    (ht : t ∈ m.mSignatures) (R : Signature) : m.setSignature t R = m := by
  simp only [SystemManager.setSignature, Map.emplace_of_mem _ ht]

/-- Counterexample to C19 as stated: `SystemManager::setSignature` stores the
signature with `insert`, which does nothing when the system has an entry in
`mSignatures`. First scenario (`lateSignatureCalls`): entity 0 receives a
component between `registerSystem<5>` and `setSystemSignature<5>(2)`; the read
`mSignatures[type]` of `entitySignatureChanged` has stored the empty signature
for the system, the later `setSystemSignature<5>(2)` is ignored, and entity 1,
whose signature 1 does not contain the required bit 1, is put into the
interest set. Second scenario (`secondSignatureCalls`): after
`setSystemSignature<5>(1)` the call `setSystemSignature<5>(2)` is ignored, and
entity 0 with signature 1 is put into the interest set. -/
theorem setSystemSignature_ignored_when_stored :
    (∃ s : ECS Nat, ECS.run ECS.init lateSignatureCalls = .ok s ∧
      s.mSystemManager.mSignatures.find 5 = some 0 ∧
      s.mEntityManager.getSignature 1 = .ok 1 ∧ 1 &&& 2 ≠ 2 ∧ s.interested 5 1) ∧
    (∃ s : ECS Nat, ECS.run ECS.init secondSignatureCalls = .ok s ∧
      s.mSystemManager.mSignatures.find 5 = some 1 ∧
      s.mEntityManager.getSignature 0 = .ok 1 ∧ 1 &&& 2 ≠ 2 ∧ s.interested 5 0) :=
  ⟨Result.of_holds (p := fun s : ECS Nat =>
      s.mSystemManager.mSignatures.find 5 = some 0 ∧
      s.mEntityManager.getSignature 1 = .ok 1 ∧ 1 &&& 2 ≠ 2 ∧ s.interested 5 1) (by decide),
    Result.of_holds (p := fun s : ECS Nat =>
      s.mSystemManager.mSignatures.find 5 = some 1 ∧
      s.mEntityManager.getSignature 0 = .ok 1 ∧ 1 &&& 2 ≠ 2 ∧ s.interested 5 0) (by decide)⟩


/-! ## C16: postcondition of `insertData` -/

namespace ComponentArray
variable {α : Type}

/-- Insertions of pairwise distinct absent entities that fit into the dense
array all return. -/
theorem insertAll_ok :
    ∀ (l : List (Entity × α)) (c : ComponentArray α), c.WF → (l.map Prod.fst).Nodup →
      (∀ p ∈ l, ¬ c.present p.1) → c.mSize + l.length ≤ MAX_ENTITIES →
      ∃ c', c.insertAll l = .ok c' ∧ c'.WF ∧ c'.mSize = c.mSize + l.length ∧
        ∀ e, c'.present e ↔ (c.present e ∨ e ∈ l.map Prod.fst) := by
  intro l
  induction l with
  | nil =>
    intro c h _ _ _
    exact ⟨c, rfl, h, rfl, fun e => by simp⟩
  | cons p ps ih =>
    intro c h hd hn hl
    have hs : c.mSize < MAX_ENTITIES := by
      simp only [List.length_cons] at hl
      omega
    have hd' := List.nodup_cons.1 (by simpa using hd : (p.1 :: ps.map Prod.fst).Nodup)
    have hp : ¬ c.present p.1 := hn p (List.mem_cons_self _ _)
    have hwf := insertData_wf h hp hs p.2
    obtain ⟨c', hr, hw', hsz, hpres⟩ := ih _ hwf hd'.2 (by
      intro q hq hq'
      have hq'' : q.1 ∈ c.mEntityToIndexMap.assign p.1 c.mSize := hq'
      rw [Map.mem_assign] at hq''
      rcases hq'' with hh | hh
      · exact hd'.1 (hh ▸ List.mem_map_of_mem Prod.fst hq)
      · exact hn q (List.mem_cons_of_mem _ hq) hh) (by
      show c.mSize + 1 + ps.length ≤ MAX_ENTITIES
      simp only [List.length_cons] at hl
      omega)
    refine ⟨c', ?_, hw', ?_, ?_⟩
    · rw [insertAll, insertData_eq hs]
      exact hr
    · rw [hsz]
      show c.mSize + 1 + ps.length = c.mSize + (p :: ps).length
      simp only [List.length_cons]
      omega
    · intro e
      rw [hpres]
      have hm : present
          { mComponentArray := Function.update c.mComponentArray c.mSize p.2
            mEntityToIndexMap := c.mEntityToIndexMap.assign p.1 c.mSize
            mIndexToEntityMap := c.mIndexToEntityMap.assign c.mSize p.1
            mSize := c.mSize + 1 } e ↔ (e = p.1 ∨ c.present e) := Map.mem_assign
      rw [hm]
      simp only [List.map_cons, List.mem_cons]
      tauto

end ComponentArray

/-- The entries `entriesUpTo n` have pairwise distinct entities. -/
theorem entriesUpTo_nodup (n : Nat) : ((entriesUpTo n).map Prod.fst).Nodup := by
  have h : (entriesUpTo n).map Prod.fst = (List.range n).map Int.ofNat := by
    simp only [entriesUpTo, List.map_map]
    rfl
  rw [h]
  exact (List.nodup_range n).map Int.ofNat_injective

/-- The entities of `entriesUpTo n` are the ids below `n`. -/
theorem mem_entriesUpTo {n : Nat} {e : Int} :
    e ∈ (entriesUpTo n).map Prod.fst ↔ (0 ≤ e ∧ e < (n : Int)) := by
  simp only [entriesUpTo, List.map_map, List.mem_map, List.mem_range, Function.comp]
  constructor
  · rintro ⟨k, hk, rfl⟩
    exact ⟨Int.ofNat_nonneg k, Int.ofNat_lt.2 hk⟩
  · rintro ⟨h0, hn⟩
    refine ⟨e.toNat, ?_, Int.toNat_of_nonneg h0⟩
    omega

/-- Inserting the entities `0, ..., n - 1` into an empty store returns, for
every `n` up to the capacity. -/
theorem insertAll_entriesUpTo (n : Nat) (hn : n ≤ MAX_ENTITIES) :
    ∃ c : ComponentArray Nat,
      (ComponentArray.empty : ComponentArray Nat).insertAll (entriesUpTo n) = .ok c ∧
      c.WF ∧ c.mSize = n ∧ ∀ e : Int, c.present e ↔ (0 ≤ e ∧ e < (n : Int)) := by
  have hlen : (entriesUpTo n).length = n := by
    simp only [entriesUpTo, List.length_map, List.length_range]
  obtain ⟨c, hr, hw, hsz, hp⟩ := ComponentArray.insertAll_ok (entriesUpTo n)
    (ComponentArray.empty : ComponentArray Nat) ComponentArray.empty_wf
    (entriesUpTo_nodup n) (fun _ _ hp => absurd hp (AList.not_mem_empty _))
    (by rw [hlen]; show 0 + n ≤ MAX_ENTITIES; omega)
  refine ⟨c, hr, hw, ?_, ?_⟩
  · rw [hsz, hlen]
    show 0 + n = n
    omega
  · intro e
    rw [hp, mem_entriesUpTo]
    constructor
    · rintro (hh | hh)
      · exact absurd hh (AList.not_mem_empty _)
      · exact hh
    · exact Or.inr

/-- The store `staleStore` is what `getData` of entity 9 leaves of an empty store. -/
theorem staleStore_built :
    (ComponentArray.empty : ComponentArray Nat).getData 9 = .ok (0, staleStore) := by rfl

/-- C16, as amended: postcondition of `ComponentArray::insertData(e, v)` on a
well-formed store with `mSize < MAX_ENTITIES`, for an entity `e` that is not
present. The call returns; the store stays well formed; `v` is stored at the
dense slot `mSize`; both index maps record the pair `(e, mSize)`; `mSize`
grows by one; `getData(e)` then returns `v`; every other entity is present
afterwards exactly when it was before, keeps its slot, and `getData` returns
the same value for it as before. -/
theorem insertData_postcondition {α : Type} (c : ComponentArray α) (h : c.WF) (e : Entity)
    (v : α) (ha : ¬ c.present e) (hs : c.mSize < MAX_ENTITIES) :
    ∃ c', c.insertData e v = .ok c' ∧ c'.WF ∧
      c'.mComponentArray c.mSize = v ∧
      c'.mEntityToIndexMap.find e = some c.mSize ∧
      c'.mIndexToEntityMap.find c.mSize = some e ∧
      c'.mSize = c.mSize + 1 ∧
      c'.getData e = .ok (v, c') ∧
      (∀ e', e' ≠ e → (c'.present e' ↔ c.present e')) ∧
      (∀ e' i, e' ≠ e → c.mEntityToIndexMap.find e' = some i →
        c'.mEntityToIndexMap.find e' = some i ∧ c'.mIndexToEntityMap.find i = some e' ∧
        c.getData e' = .ok (c.mComponentArray i, c) ∧
        c'.getData e' = .ok (c.mComponentArray i, c')) := by
  have hwf := ComponentArray.insertData_wf h ha hs v
  have hfe : (c.mEntityToIndexMap.assign e c.mSize).find e = some c.mSize := by
    rw [Map.find_assign, if_pos rfl]
  refine ⟨_, ComponentArray.insertData_eq hs e v, hwf, ?_, hfe, ?_, rfl, ?_, ?_, ?_⟩
  · show Function.update c.mComponentArray c.mSize v c.mSize = v
    rw [Function.update_same]
  · show (c.mIndexToEntityMap.assign c.mSize e).find c.mSize = some e
    rw [Map.find_assign, if_pos rfl]
  · rw [ComponentArray.getData_of_present hwf hfe]
    show Except.ok (Function.update c.mComponentArray c.mSize v c.mSize, _) = _
    rw [Function.update_same]
  · intro e' hne
    show e' ∈ c.mEntityToIndexMap.assign e c.mSize ↔ e' ∈ c.mEntityToIndexMap
    rw [Map.mem_assign]
    constructor
    · rintro (hh | hh)
      · exact absurd hh hne
      · exact hh
    · exact Or.inr
  · intro e' i hne hf
    have hi := ComponentArray.slot_lt h hf
    have hne' : i ≠ c.mSize := by omega
    have hfe' : (c.mEntityToIndexMap.assign e c.mSize).find e' = some i := by
      rw [Map.find_assign, if_neg hne]
      exact hf
    refine ⟨hfe', ?_, ComponentArray.getData_of_present h hf, ?_⟩
    · show (c.mIndexToEntityMap.assign c.mSize e).find i = some e'
      rw [Map.find_assign, if_neg hne']
      exact (h.inverse e' i).1 hf
    · rw [ComponentArray.getData_of_present hwf hfe']
      show Except.ok (Function.update c.mComponentArray c.mSize v i, _) = _
      rw [Function.update_noteq hne']

/-- Witness of C16 (amended): the theorem at `demoStore`, which holds the
entities 1, 2 and 3, for the absent entity 9 and the value 90. -/
theorem insertData_postcondition_witness :
    demoStore.WF ∧ ¬ demoStore.present 9 ∧ demoStore.mSize < MAX_ENTITIES ∧
    demoStore.mSize = 3 ∧
    ∃ c', demoStore.insertData 9 90 = .ok c' ∧ c'.WF ∧
      c'.mComponentArray demoStore.mSize = 90 ∧
      c'.mEntityToIndexMap.find 9 = some demoStore.mSize ∧
      c'.mIndexToEntityMap.find demoStore.mSize = some 9 ∧
      c'.mSize = demoStore.mSize + 1 ∧
      c'.getData 9 = .ok (90, c') ∧
      (∀ e', e' ≠ 9 → (c'.present e' ↔ demoStore.present e')) ∧
      (∀ e' i, e' ≠ 9 → demoStore.mEntityToIndexMap.find e' = some i →
        c'.mEntityToIndexMap.find e' = some i ∧ c'.mIndexToEntityMap.find i = some e' ∧
        demoStore.getData e' = .ok (demoStore.mComponentArray i, demoStore) ∧
        c'.getData e' = .ok (demoStore.mComponentArray i, c')) :=
  ⟨demoStore_wf, by decide, by decide, by decide,
    insertData_postcondition demoStore demoStore_wf 9 90 (by decide) (by decide)⟩

/-- Counterexample to C16 as stated. First, the store filled with the
`MAX_ENTITIES` entities `0, ..., 4999` is well formed and entity 5000 is not
present; `insertData(5000, 1)` writes behind the end of the dense array, which
is undefined behaviour. Second, in the store that `getData(9)` leaves of an
empty store, entity 1 is not present and entity 9 is; `getData(9)` returns 0
before `insertData(1, 42)` and 42 after it. -/
theorem insertData_postcondition_fails :
    (∃ c : ComponentArray Nat,
      (ComponentArray.empty : ComponentArray Nat).insertAll (entriesUpTo MAX_ENTITIES) =
        .ok c ∧
      c.WF ∧ c.mSize = MAX_ENTITIES ∧ ¬ c.present 5000 ∧
      c.insertData 5000 1 = .error .undefinedBehaviour) ∧
    ((ComponentArray.empty : ComponentArray Nat).getData 9 = .ok (0, staleStore) ∧
      ¬ staleStore.present 1 ∧ staleStore.present 9 ∧ staleStore.readData 9 = .ok 0 ∧
      ∃ c', staleStore.insertData 1 42 = .ok c' ∧ c'.readData 1 = .ok 42 ∧
        c'.readData 9 = .ok 42) := by
  constructor
  · obtain ⟨c, hr, hw, hsz, hp⟩ := insertAll_entriesUpTo MAX_ENTITIES (le_refl _)
    refine ⟨c, hr, hw, hsz, ?_, ?_⟩
    · rw [hp]
      rintro ⟨_, hh⟩
      exact absurd hh (by decide)
    · have hn : ¬ c.mSize < MAX_ENTITIES := by rw [hsz]; exact lt_irrefl _
      simp only [ComponentArray.insertData, if_neg hn]
  · refine ⟨staleStore_built, by decide, by decide, by decide, ?_⟩
    exact Result.of_holds (r := staleStore.insertData 1 42)
      (p := fun c => c.readData 1 = .ok 42 ∧ c.readData 9 = .ok 42) (by decide)


/-! ## C17: type ids and the width of the signature -/

theorem Result.of_fault {σ : Type} {r : Result σ} {f : Fault} (h : r.fault = some f) :
    r = .error f := by
  cases r with
  | ok s => cases h
  | error g =>
    have hg : some g = some f := h
    rw [Option.some.inj hg]

namespace ComponentManager
variable {α : Type} [Inhabited α]

/-- After the registrations `l`, the counter has advanced by at most the
number of calls, every id is below it, and every type of `l` has an id. -/
theorem registerAll_below :
    ∀ (l : List TypeName) (m : ComponentManager α),
      (∀ t k, m.mComponentTypes.find t = some k → k < m.mNextComponentType) →
      m.mNextComponentType + l.length < U8_MOD →
      (m.registerAll l).mNextComponentType ≤ m.mNextComponentType + l.length ∧
      (∀ t k, (m.registerAll l).mComponentTypes.find t = some k →
        k < m.mNextComponentType + l.length) ∧
      (∀ t, t ∈ l → t ∈ (m.registerAll l).mComponentTypes) ∧
      (∀ t, t ∈ m.mComponentTypes → t ∈ (m.registerAll l).mComponentTypes) := by
  intro l
  induction l with
  | nil =>
    intro m hb _
    refine ⟨le_refl _, fun t k h => ?_, fun t h => (by cases h), fun t h => h⟩
    have := hb t k h
    simpa using this
  | cons x xs ih =>
    intro m hb hl
    simp only [List.length_cons] at hl
    have hlt : m.mNextComponentType < U8_MOD := by omega
    have hnext : (m.registerComponent x).mNextComponentType = m.mNextComponentType + 1 := by
      show (m.mNextComponentType + 1) % U8_MOD = _
      exact Nat.mod_eq_of_lt (by omega)
    have hb' : ∀ t k, (m.registerComponent x).mComponentTypes.find t = some k →
        k < (m.registerComponent x).mNextComponentType := by
      intro t k h
      rw [hnext]
      have h' : (m.mComponentTypes.emplace x m.mNextComponentType).find t = some k := h
      by_cases hx : x ∈ m.mComponentTypes
      · rw [Map.emplace_of_mem _ hx] at h'
        exact Nat.lt_succ_of_lt (hb t k h')
      · rw [Map.emplace_of_not_mem _ hx, Map.find_assign] at h'
        by_cases htx : t = x
        · rw [if_pos htx] at h'
          cases h'
          exact Nat.lt_succ_self _
        · rw [if_neg htx] at h'
          exact Nat.lt_succ_of_lt (hb t k h')
    have hmem : ∀ t, t = x ∨ t ∈ m.mComponentTypes →
        t ∈ (m.registerComponent x).mComponentTypes := by
      intro t ht
      show t ∈ m.mComponentTypes.emplace x m.mNextComponentType
      by_cases hx : x ∈ m.mComponentTypes
      · rw [Map.emplace_of_mem _ hx]
        rcases ht with ht | ht
        · rw [ht]; exact hx
        · exact ht
      · rw [Map.emplace_of_not_mem _ hx, Map.mem_assign]
        exact ht
    obtain ⟨h1, h2, h3, h4⟩ := ih (m.registerComponent x) hb' (by rw [hnext]; omega)
    rw [hnext] at h1 h2
    refine ⟨?_, ?_, ?_, ?_⟩
    · show (registerAll (m.registerComponent x) xs).mNextComponentType ≤ _
      simp only [List.length_cons]
      omega
    · intro t k h
      have := h2 t k h
      simp only [List.length_cons]
      omega
    · intro t ht
      rcases List.mem_cons.1 ht with ht | ht
      · exact h4 t (hmem t (Or.inl ht))
      · exact h3 t ht
    · intro t ht
      exact h4 t (hmem t (Or.inr ht))

end ComponentManager

/-- C17, as amended: after at most `MAX_COMPONENTS` calls of
`registerComponent` on a fresh manager, on any types, every registered type
has an id, `getComponentType` returns it, the id is less than
`MAX_COMPONENTS`, and `signature.set` with this id as position returns. -/
theorem type_ids_within_signature_width {α : Type} [Inhabited α] (l : List TypeName)
    (hl : l.length ≤ MAX_COMPONENTS) (t : TypeName) (ht : t ∈ l) :
    ∃ k, ((ComponentManager.empty : ComponentManager α).registerAll l).getComponentType t =
        (k, (ComponentManager.empty : ComponentManager α).registerAll l) ∧
      k < MAX_COMPONENTS ∧
      ∀ (s : Signature) (val : Bool), ∃ s', Signature.set s k val = .ok s' := by
  obtain ⟨_, h2, h3, _⟩ := ComponentManager.registerAll_below l
    (ComponentManager.empty : ComponentManager α)
    (fun t k h => by
      have h' : (∅ : Map TypeName Nat).find t = some k := h
      rw [Map.find_empty] at h'
      cases h')
    (by
      show 0 + l.length < U8_MOD
      unfold MAX_COMPONENTS at hl
      unfold U8_MOD
      omega)
  obtain ⟨k, hk⟩ := Map.mem_iff_find.1 (h3 t ht)
  have hlt : k < MAX_COMPONENTS := by
    have := h2 t k hk
    have h0 : (ComponentManager.empty : ComponentManager α).mNextComponentType = 0 := rfl
    rw [h0] at this
    omega
  exact ⟨k, ComponentManager.typeId_of_find hk, hlt,
    fun s val => ⟨_, Signature.set_eq hlt s val⟩⟩

/-- Witness of C17 (amended): the theorem at the registrations of the types
4, 7 and again 4, for the type 7. -/
theorem type_ids_within_signature_width_witness :
    [4, 7, 4].length ≤ MAX_COMPONENTS ∧ (7 : TypeName) ∈ [4, 7, 4] ∧
    ∃ k, ((ComponentManager.empty : ComponentManager Nat).registerAll
        [4, 7, 4]).getComponentType 7 =
        (k, (ComponentManager.empty : ComponentManager Nat).registerAll [4, 7, 4]) ∧
      k < MAX_COMPONENTS ∧
      ∀ (s : Signature) (val : Bool), ∃ s', Signature.set s k val = .ok s' :=
  ⟨by decide, by decide, type_ids_within_signature_width [4, 7, 4] (by decide) 7 (by decide)⟩

set_option maxRecDepth 100000 in
/-- Counterexample to C17 as stated: after the 33 registrations of the types
`0, ..., 32` the type 32 has the id 32, which is not less than
`MAX_COMPONENTS`; `signature.set(32, true)` throws `std::out_of_range`, and so
does `ECS::addComponent` for this type. -/
theorem type_id_exceeds_signature_width :
    (((ComponentManager.empty : ComponentManager Nat).registerAll
      (List.range 33)).getComponentType 32).1 = 32 ∧
    ¬ 32 < MAX_COMPONENTS ∧
    Signature.set 0 32 true = .error .outOfRange ∧
    ECS.run (ECS.init : ECS Nat) manyTypesCalls = .error .outOfRange :=
  ⟨by decide, by decide, by decide, Result.of_fault (by decide)⟩


/-! ## C18: removal of the entity in the last dense slot -/

/-- C18: self-swap is safe. In a well-formed store, `removeData(e)` of the
entity `e` in the last dense slot `mSize - 1` returns, leaves a well-formed
store, removes the two mappings of `e`, decreases `mSize` by one, and leaves
unchanged the dense array, the mappings of every other entity and of every
other slot, and the value that `getData` returns for every other present
entity. -/
theorem self_swap_safe {α : Type} (c : ComponentArray α) (h : c.WF) (e : Entity)
    (he : c.mEntityToIndexMap.find e = some (c.mSize - 1)) :
    ∃ c', c.removeData e = .ok c' ∧ c'.WF ∧ c'.mSize + 1 = c.mSize ∧
      c'.mEntityToIndexMap.find e = none ∧
      c'.mIndexToEntityMap.find (c.mSize - 1) = none ∧
      c'.mComponentArray = c.mComponentArray ∧
      (∀ e', e' ≠ e → c'.mEntityToIndexMap.find e' = c.mEntityToIndexMap.find e') ∧
      (∀ i, i ≠ c.mSize - 1 → c'.mIndexToEntityMap.find i = c.mIndexToEntityMap.find i) ∧
      (∀ e' i, e' ≠ e → c.mEntityToIndexMap.find e' = some i →
        c.getData e' = .ok (c.mComponentArray i, c) ∧
        c'.getData e' = .ok (c.mComponentArray i, c')) := by
  have hx : c.mIndexToEntityMap.find (c.mSize - 1) = some e := (h.inverse _ _).1 he
  have hpos := ComponentArray.slot_lt h he
  have hwf := ComponentArray.removeData_wf h he hx
  have harr : Function.update c.mComponentArray (c.mSize - 1)
      (c.mComponentArray (c.mSize - 1)) = c.mComponentArray := Function.update_eq_self _ _
  have hmap : ∀ e', e' ≠ e →
      ((c.mEntityToIndexMap.assign e (c.mSize - 1)).erase e).find e' =
        c.mEntityToIndexMap.find e' := by
    intro e' hne
    rw [Map.find_erase, if_neg hne, Map.find_assign, if_neg hne]
  refine ⟨_, ComponentArray.removeData_eq h he hx, hwf, ?_, ?_, ?_, harr, hmap, ?_, ?_⟩
  · show c.mSize - 1 + 1 = c.mSize
    omega
  · show ((c.mEntityToIndexMap.assign e (c.mSize - 1)).erase e).find e = none
    rw [Map.find_erase, if_pos rfl]
  · show ((c.mIndexToEntityMap.assign (c.mSize - 1) e).erase (c.mSize - 1)).find
      (c.mSize - 1) = none
    rw [Map.find_erase, if_pos rfl]
  · intro i hi
    show ((c.mIndexToEntityMap.assign (c.mSize - 1) e).erase (c.mSize - 1)).find i = _
    rw [Map.find_erase, if_neg hi, Map.find_assign, if_neg hi]
  · intro e' i hne hf
    refine ⟨ComponentArray.getData_of_present h hf, ?_⟩
    have hf' : ((c.mEntityToIndexMap.assign e (c.mSize - 1)).erase e).find e' = some i := by
      rw [hmap e' hne]
      exact hf
    rw [ComponentArray.getData_of_present hwf hf']
    show Except.ok (Function.update c.mComponentArray (c.mSize - 1)
      (c.mComponentArray (c.mSize - 1)) i, _) = _
    rw [harr]

/-- Witness of C18: the theorem at `demoStore`, whose last inserted entity 3
is in the last dense slot 2. -/
theorem self_swap_safe_witness :
    demoStore.WF ∧ demoStore.mEntityToIndexMap.find 3 = some (demoStore.mSize - 1) ∧
    ∃ c', demoStore.removeData 3 = .ok c' ∧ c'.WF ∧ c'.mSize + 1 = demoStore.mSize ∧
      c'.mEntityToIndexMap.find 3 = none ∧
      c'.mIndexToEntityMap.find (demoStore.mSize - 1) = none ∧
      c'.mComponentArray = demoStore.mComponentArray ∧
      (∀ e', e' ≠ 3 →
        c'.mEntityToIndexMap.find e' = demoStore.mEntityToIndexMap.find e') ∧
      (∀ i, i ≠ demoStore.mSize - 1 →
        c'.mIndexToEntityMap.find i = demoStore.mIndexToEntityMap.find i) ∧
      (∀ e' i, e' ≠ 3 → demoStore.mEntityToIndexMap.find e' = some i →
        demoStore.getData e' = .ok (demoStore.mComponentArray i, demoStore) ∧
        c'.getData e' = .ok (demoStore.mComponentArray i, c')) :=
  ⟨demoStore_wf, by decide, self_swap_safe demoStore demoStore_wf 3 (by decide)⟩


/-! ## C20: live ids are distinct -/

namespace EntityManager

/-- The live ids and the queued ids are `MAX_ENTITIES` together. -/
theorem Inv.length_eq {m : EntityManager} {live : List Entity} (h : m.Inv live) :
    live.length + m.mAvailableEntities.length = MAX_ENTITIES := by
  have hnd : (live ++ m.mAvailableEntities).Nodup :=
    List.nodup_append.2 ⟨h.liveNodup, h.queueNodup, fun _ he hq => h.disjoint _ he hq⟩
  have hperm : (live ++ m.mAvailableEntities).Perm EntityManager.new.mAvailableEntities := by
    rw [List.perm_ext_iff_of_nodup hnd new_inv.queueNodup]
    intro e
    rw [List.mem_append, ← h.cover e, new_inv.cover e]
    simp
  have := hperm.length_eq
  rw [List.length_append, new_queue_length] at this
  exact this

/-- The entity that `createEntity` returns was queued, so it is not live. -/
theorem Inv.created_not_live {m m' : EntityManager} {live : List Entity} (h : m.Inv live)
    {e : Entity} (hc : m.createEntity = .ok (e, m')) : e ∉ live := by
  intro hl
  cases hq : m.mAvailableEntities with
  | nil =>
    rw [createEntity_of_nil hq] at hc
    cases hc
  | cons id rest =>
    rw [createEntity_of_cons hq] at hc
    have hid : id = e := by
      have := Except.ok.inj hc
      exact congrArg Prod.fst this
    apply h.disjoint e hl
    rw [hq, ← hid]
    exact List.mem_cons_self _ _

end EntityManager

/-- C20: live ids are distinct. In every state reached from the constructor
by `createEntity` calls that return and `destroyEntity` calls on live
entities, the free queue has no duplicate and holds no live id, no id is live
twice, the live ids together with the queued ids are exactly
`0, ..., MAX_ENTITIES - 1`, and their numbers add up to `MAX_ENTITIES`;
`createEntity` returns whenever fewer than `MAX_ENTITIES` entities are live,
and the id it returns is never a live one. -/
theorem live_ids_distinct (cs : List PoolCall) (m : EntityManager) (live : List Entity)
    (hr : EntityManager.new.runLive [] cs = some (m, live)) :
    m.mAvailableEntities.Nodup ∧ live.Nodup ∧
    (∀ e, e ∈ live → e ∉ m.mAvailableEntities) ∧
    (∀ e : Int, (e ∈ live ∨ e ∈ m.mAvailableEntities) ↔
      (0 ≤ e ∧ e < (MAX_ENTITIES : Int))) ∧
    live.length + m.mAvailableEntities.length = MAX_ENTITIES ∧
    (live.length < MAX_ENTITIES → ∃ e m', m.createEntity = .ok (e, m')) ∧
    (∀ e m', m.createEntity = .ok (e, m') → e ∉ live) := by
  have h := EntityManager.runLive_inv cs _ _ _ _ EntityManager.new_inv hr
  refine ⟨h.queueNodup, h.liveNodup, h.disjoint, fun e => (h.cover e).symm, h.length_eq, ?_,
    fun e m' hc => h.created_not_live hc⟩
  intro hlt
  have hlen := h.length_eq
  cases hq : m.mAvailableEntities with
  | nil =>
    rw [hq, List.length_nil] at hlen
    omega
  | cons id rest => exact ⟨_, _, EntityManager.createEntity_of_cons hq⟩

/-- The live list of `demoPool`: the entities 2 and 0. -/
theorem demoPool_live : demoPool.2 = [2, 0] := by rfl

/-- Witness of C20: the theorem at `demoPoolCalls`, after which the entities
0 and 2 are live and entity 1 is queued again. -/
theorem live_ids_distinct_witness :
    EntityManager.new.runLive [] demoPoolCalls = some (demoPool.1, demoPool.2) ∧
    demoPool.2 = [2, 0] ∧
    demoPool.1.mAvailableEntities.Nodup ∧ demoPool.2.Nodup ∧
    (∀ e, e ∈ demoPool.2 → e ∉ demoPool.1.mAvailableEntities) ∧
    (∀ e : Int, (e ∈ demoPool.2 ∨ e ∈ demoPool.1.mAvailableEntities) ↔
      (0 ≤ e ∧ e < (MAX_ENTITIES : Int))) ∧
    demoPool.2.length + demoPool.1.mAvailableEntities.length = MAX_ENTITIES ∧
    (demoPool.2.length < MAX_ENTITIES → ∃ e m', demoPool.1.createEntity = .ok (e, m')) ∧
    (∀ e m', demoPool.1.createEntity = .ok (e, m') → e ∉ demoPool.2) :=
  ⟨demoPool_run, demoPool_live,
    live_ids_distinct demoPoolCalls demoPool.1 demoPool.2 demoPool_run⟩


/-! ## C22: the effect of `getData` on the store -/

/-- C22, as amended: `getData(e)` is read-only for a present entity `e` whose
slot lies inside the dense array, as it does in every well-formed store: it
returns the value of the slot and leaves the whole store unchanged. For an
absent `e` it returns the value of slot 0 and leaves `mSize`, the dense array
and the index-to-entity map unchanged, but the read `mEntityToIndexMap[e]`
adds the entry `e -> 0`: `e` is present afterwards, the entries of all other
entities are unchanged, and `entityDestroyed(e)`, which changed nothing
before, now runs `removeData(e)`. -/
theorem getData_frame {α : Type} (c : ComponentArray α) (e : Entity) :
    (∀ i, c.mEntityToIndexMap.find e = some i → i < MAX_ENTITIES →
      c.getData e = .ok (c.mComponentArray i, c)) ∧
    (c.WF → ∀ i, c.mEntityToIndexMap.find e = some i → i < MAX_ENTITIES) ∧
    (¬ c.present e → ∃ c', c.getData e = .ok (c.mComponentArray 0, c') ∧
      c'.mSize = c.mSize ∧ c'.mComponentArray = c.mComponentArray ∧
      c'.mIndexToEntityMap = c.mIndexToEntityMap ∧
      c'.mEntityToIndexMap = c.mEntityToIndexMap.assign e 0 ∧ c'.present e ∧
      (∀ e', e' ≠ e → c'.mEntityToIndexMap.find e' = c.mEntityToIndexMap.find e') ∧
      c.entityDestroyed e = .ok c ∧ c'.entityDestroyed e = c'.removeData e) := by
  refine ⟨?_, ?_, ?_⟩
  · intro i hi hlt
    simp only [ComponentArray.getData, Map.index_of_find 0 hi, if_pos hlt]
  · intro h i hi
    have := ComponentArray.slot_lt h hi
    have := h.capacity
    omega
  · intro ha
    have hp : ComponentArray.present
        { c with mEntityToIndexMap := c.mEntityToIndexMap.assign e 0 } e :=
      Map.mem_assign.2 (Or.inl rfl)
    refine ⟨_, ComponentArray.getData_of_absent ha, rfl, rfl, rfl, rfl, hp, ?_,
      ComponentArray.entityDestroyed_of_absent ha, ComponentArray.entityDestroyed_of_present hp⟩
    intro e' hne
    show (c.mEntityToIndexMap.assign e 0).find e' = _
    rw [Map.find_assign, if_neg hne]

/-- Witness of C22 (amended): the theorem at `demoStore`, for the present
entity 2 in slot 1 and for the absent entity 9. -/
theorem getData_frame_witness :
    demoStore.WF ∧ demoStore.mEntityToIndexMap.find 2 = some 1 ∧ ¬ demoStore.present 9 ∧
    demoStore.getData 2 = .ok (demoStore.mComponentArray 1, demoStore) ∧
    (∃ c', demoStore.getData 9 = .ok (demoStore.mComponentArray 0, c') ∧
      c'.mSize = demoStore.mSize ∧ c'.mComponentArray = demoStore.mComponentArray ∧
      c'.mIndexToEntityMap = demoStore.mIndexToEntityMap ∧
      c'.mEntityToIndexMap = demoStore.mEntityToIndexMap.assign 9 0 ∧ c'.present 9 ∧
      (∀ e', e' ≠ 9 →
        c'.mEntityToIndexMap.find e' = demoStore.mEntityToIndexMap.find e') ∧
      demoStore.entityDestroyed 9 = .ok demoStore ∧
      c'.entityDestroyed 9 = c'.removeData 9) :=
  ⟨demoStore_wf, by decide, by decide,
    (getData_frame demoStore 2).1 1 (by decide)
      ((getData_frame demoStore 2).2.1 demoStore_wf 1 (by decide)),
    (getData_frame demoStore 9).2.2 (by decide)⟩

/-- Counterexample to C22 as stated: in `demoStore`, which holds the entities
1, 2 and 3 with the values 10, 20 and 30, entity 9 is absent. `getData(9)`
returns and leaves a store in which entity 9 is present, so the
entity-to-index map has changed. Before the lookup `entityDestroyed(9)`
changes nothing: `mSize` stays 3 and entity 1 keeps the value 10; after the
lookup the same call removes a slot: `mSize` is 2 and `getData(1)` returns
30. -/
theorem getData_changes_store :
    ¬ demoStore.present 9 ∧
    (∃ d, demoStore.entityDestroyed 9 = .ok d ∧ d.mSize = 3 ∧ d.readData 1 = .ok 10) ∧
    demoStore.mEntityToIndexMap.find 9 = none ∧
    ∃ r, demoStore.getData 9 = .ok r ∧ r.2.present 9 ∧ r.2.mSize = demoStore.mSize ∧
      r.2.mEntityToIndexMap.find 9 = some 0 ∧
      ∃ d', r.2.entityDestroyed 9 = .ok d' ∧ d'.mSize = 2 ∧ d'.readData 1 = .ok 30 := by
  refine ⟨by decide, Result.of_holds (r := demoStore.entityDestroyed 9)
    (p := fun d => d.mSize = 3 ∧ d.readData 1 = .ok 10) (by decide), by decide, ?_⟩
  obtain ⟨r, hr, h1, h2, h3, h4⟩ := Result.of_holds (r := demoStore.getData 9)
    (p := fun r => r.2.present 9 ∧ r.2.mSize = demoStore.mSize ∧
      r.2.mEntityToIndexMap.find 9 = some 0 ∧
      (r.2.entityDestroyed 9).holds (fun d => d.mSize = 2 ∧ d.readData 1 = .ok 30) = true)
    (by decide)
  exact ⟨r, hr, h1, h2, h3, Result.of_holds h4⟩


/-! ## C21: adding and then removing a component -/

namespace ComponentArray
variable {α : Type}

/-- Inserting an absent entity into a well-formed store and removing it again
restores both index maps, `mSize` and the value of every entity. -/
theorem insertData_removeData {c : ComponentArray α} (h : c.WF) {e : Entity}
    (ha : ¬ c.present e) (hs : c.mSize < MAX_ENTITIES) (v : α) :
    ∃ c1 c2, c.insertData e v = .ok c1 ∧ c1.removeData e = .ok c2 ∧ c2.WF ∧
      c2.mSize = c.mSize ∧
      (∀ x, c2.mEntityToIndexMap.find x = c.mEntityToIndexMap.find x) ∧
      (∀ i, c2.mIndexToEntityMap.find i = c.mIndexToEntityMap.find i) ∧
      (∀ x, c2.valueOf x = c.valueOf x) := by
  have hwf := insertData_wf h ha hs v
  have hn : c.mEntityToIndexMap.find e = none := Map.not_mem_iff_find.1 ha
  have hfree : c.mIndexToEntityMap.find c.mSize = none := by
    apply Map.not_mem_iff_find.1
    intro hm
    have := (h.dense _).1 hm
    omega
  have he1 : (c.mEntityToIndexMap.assign e c.mSize).find e = some c.mSize := by
    rw [Map.find_assign, if_pos rfl]
  have hx1 : (c.mIndexToEntityMap.assign c.mSize e).find (c.mSize + 1 - 1) = some e := by
    rw [Nat.add_sub_cancel, Map.find_assign, if_pos rfl]
  refine ⟨_, _, insertData_eq hs e v, removeData_eq hwf he1 hx1, removeData_wf hwf he1 hx1,
    Nat.add_sub_cancel .., ?_, ?_, ?_⟩
  · intro x
    show (((c.mEntityToIndexMap.assign e c.mSize).assign e c.mSize).erase e).find x = _
    rw [Map.find_erase]
    by_cases hxe : x = e
    · rw [if_pos hxe, hxe, hn]
    · rw [if_neg hxe, Map.find_assign, if_neg hxe, Map.find_assign, if_neg hxe]
  · intro i
    show (((c.mIndexToEntityMap.assign c.mSize e).assign c.mSize e).erase
      (c.mSize + 1 - 1)).find i = _
    rw [Nat.add_sub_cancel, Map.find_erase]
    by_cases hi : i = c.mSize
    · rw [if_pos hi, hi, hfree]
    · rw [if_neg hi, Map.find_assign, if_neg hi, Map.find_assign, if_neg hi]
  · intro x
    show ((((c.mEntityToIndexMap.assign e c.mSize).assign e c.mSize).erase e).find x).map
      (Function.update (Function.update c.mComponentArray c.mSize v) c.mSize
        (Function.update c.mComponentArray c.mSize v (c.mSize + 1 - 1))) = _
    have hfx : (((c.mEntityToIndexMap.assign e c.mSize).assign e c.mSize).erase e).find x =
        c.mEntityToIndexMap.find x := by
      rw [Map.find_erase]
      by_cases hxe : x = e
      · rw [if_pos hxe, hxe, hn]
      · rw [if_neg hxe, Map.find_assign, if_neg hxe, Map.find_assign, if_neg hxe]
    rw [hfx]
    unfold valueOf
    cases hf : c.mEntityToIndexMap.find x with
    | none => rfl
    | some i =>
      have hi := slot_lt h hf
      have hne : i ≠ c.mSize := by omega
      simp only [Option.map_some', Function.update_noteq hne]

/-- The entities of a store whose keys are ids of the pool, one of which is
absent, do not fill the dense array. -/
theorem mSize_lt_of_absent {c : ComponentArray α} (h : c.WF) {e : Int}
    (hin : ∀ x : Int, c.present x → EntityManager.inRange x) (he : EntityManager.inRange e)
    (ha : ¬ c.present e) : c.mSize < MAX_ENTITIES := by
  have hnd : c.mEntityToIndexMap.keys.Nodup := c.mEntityToIndexMap.keys_nodup
  have hsub : c.mEntityToIndexMap.keys.toFinset ⊆
      (Finset.Ico (0 : Int) (MAX_ENTITIES : Int)).erase e := by
    intro x hx
    rw [List.mem_toFinset] at hx
    have hp : c.present x := AList.mem_keys.1 hx
    have hr := hin x hp
    rw [Finset.mem_erase, Finset.mem_Ico]
    exact ⟨fun hxe => ha (hxe ▸ hp), hr.1, hr.2⟩
  have hcard := Finset.card_le_card hsub
  have hmem : e ∈ Finset.Ico (0 : Int) (MAX_ENTITIES : Int) :=
    Finset.mem_Ico.2 ⟨he.1, he.2⟩
  rw [List.toFinset_card_of_nodup hnd, h.count, Finset.card_erase_of_mem hmem,
    Int.card_Ico] at hcard
  have hpos : (0 : Nat) < MAX_ENTITIES := by decide
  simp only [sub_zero, Int.toNat_ofNat] at hcard
  omega

end ComponentArray

/-- Setting a clear bit of a signature and clearing it again gives the
signature back. -/
theorem Signature.set_clear {s : Signature} {pos : Nat} (h : s.testBit pos = false) :
    (s ||| 2 ^ pos) ^^^ ((s ||| 2 ^ pos) &&& 2 ^ pos) = s := by
  apply Nat.eq_of_testBit_eq
  intro j
  rw [Signature.testBit_set_false, Signature.testBit_set_true]
  by_cases hj : j = pos
  · rw [if_pos hj, hj, h]
  · rw [if_neg hj, if_neg hj]

/-- Testing an entity against a required signature twice, the second time
with the signature it had when the interest set was correct for it, gives the
interest set back. -/
theorem SystemManager.retest_restore {e : Entity} {sig sig1 req : Signature} {sys : System}
    (h : e ∈ sys.mEntities ↔ sig &&& req = req) :
    System.retest e sig req (System.retest e sig1 req sys) = sys := by
  have hm : ∀ x, x ∈ (System.retest e sig req (System.retest e sig1 req sys)).mEntities ↔
      x ∈ sys.mEntities := by
    intro x
    rw [SystemManager.mem_retest]
    by_cases hx : x = e
    · rw [if_pos hx, hx]
      exact h.symm
    · rw [if_neg hx, SystemManager.mem_retest, if_neg hx]
  cases hsys : System.retest e sig req (System.retest e sig1 req sys) with
  | mk ents =>
    cases sys with
    | mk ents0 =>
      rw [hsys] at hm
      have : ents = ents0 := Finset.ext hm
      rw [this]


namespace ECS
variable {α : Type}

/-- In a state that satisfies the store invariant and interest correctness
and in which every registered system has its signature, adding a component
of a registered type to an entity of the pool that has none and removing it
again returns and restores the entity manager, the type ids, the interest
sets and required signatures, and presence and value of every component. -/
theorem addThenRemove_restores {s : ECS α} {t : TypeName} {e : Entity} (v : α)
    (hst : s.StoreInv) (hint : s.InterestCorrect) (he : EntityManager.inRange e)
    (ht : t ∈ s.mComponentManager.mComponentArrays) (hno : ¬ s.hasComponent t e)
    (hall : ∀ k ∈ s.mSystemManager.mSystems.keys, k ∈ s.mSystemManager.mSignatures) :
    ∃ s1 s2, s.addComponent t e v = .ok s1 ∧ s1.removeComponent t e = .ok s2 ∧
      s2.mEntityManager = s.mEntityManager ∧
      s2.mComponentManager.mComponentTypes = s.mComponentManager.mComponentTypes ∧
      (∀ k, s2.mSystemManager.mSystems.find k = s.mSystemManager.mSystems.find k) ∧
      (∀ k, s2.mSystemManager.mSignatures.find k = s.mSystemManager.mSignatures.find k) ∧
      (∀ t' x, (s2.hasComponent t' x ↔ s.hasComponent t' x) ∧
        s2.componentValue t' x = s.componentValue t' x) := by
  obtain ⟨a, ha⟩ := Map.mem_iff_find.1 ht
  obtain ⟨k, hk⟩ := Map.mem_iff_find.1 ((hst.types.sameKeys t).2 ht)
  have hklt : k < MAX_COMPONENTS := lt_of_lt_of_le (hst.types.below t k hk) hst.types.bound
  have hidx : s.mComponentManager.mComponentTypes.index t 0 =
      (k, s.mComponentManager.mComponentTypes) := Map.index_of_find 0 hk
  have hwf : a.WF := hst.stores t a ha
  have hab : ¬ a.present e := fun hp => hno ⟨a, ha, hp⟩
  have hin : ∀ x : Int, a.present x → EntityManager.inRange x :=
    fun x hp => ((hst.consistent t a k ha hk x).1 hp).1
  have hsz := ComponentArray.mSize_lt_of_absent hwf hin he hab
  have hbit : (s.mEntityManager.mSignatures e.toNat).testBit k = false := by
    cases hb : (s.mEntityManager.mSignatures e.toNat).testBit k with
    | false => rfl
    | true => exact absurd ((hst.consistent t a k ha hk e).2 ⟨he, hb⟩) hab
  obtain ⟨a1, a2, hins, hrem, _, _, hmap, _, hval⟩ :=
    ComponentArray.insertData_removeData hwf hab hsz v
  rw [ComponentArray.insertData_eq hsz] at hins
  have hk0 : (s.mComponentManager.mComponentTypes.index t 0).1 < MAX_COMPONENTS := by
    rw [hidx]; exact hklt
  obtain ⟨s1, hadd, hty1, har1, hem1, hsm1⟩ : ∃ s1, s.addComponent t e v = .ok s1 ∧
      s1.mComponentManager.mComponentTypes = s.mComponentManager.mComponentTypes ∧
      s1.mComponentManager.mComponentArrays =
        s.mComponentManager.mComponentArrays.assign t a1 ∧
      s1.mEntityManager = { s.mEntityManager with
        mSignatures := Function.update s.mEntityManager.mSignatures e.toNat
          (s.mEntityManager.mSignatures e.toNat ||| 2 ^ k) } ∧
      s1.mSystemManager = s.mSystemManager.entitySignatureChanged e
        (s.mEntityManager.mSignatures e.toNat ||| 2 ^ k) := by
    refine ⟨_, addComponent_eq v ha hsz he hk0, ?_, ?_, ?_, ?_⟩
    · rw [hidx]
    · cases hins; rfl
    · rw [hidx]
    · rw [hidx]
  have hidx1 : s1.mComponentManager.mComponentTypes.index t 0 =
      (k, s.mComponentManager.mComponentTypes) := by rw [hty1]; exact hidx
  have ha1 : s1.mComponentManager.mComponentArrays.find t = some a1 := by
    rw [har1, Map.find_assign, if_pos rfl]
  have hk1 : (s1.mComponentManager.mComponentTypes.index t 0).1 < MAX_COMPONENTS := by
    rw [hidx1]; exact hklt
  have hsig1 : s1.mEntityManager.mSignatures e.toNat =
      s.mEntityManager.mSignatures e.toNat ||| 2 ^ k := by
    rw [hem1]
    exact Function.update_same _ _ _
  obtain ⟨s2, hrm, hty2, har2, hem2, hsm2⟩ : ∃ s2, s1.removeComponent t e = .ok s2 ∧
      s2.mComponentManager.mComponentTypes = s.mComponentManager.mComponentTypes ∧
      s2.mComponentManager.mComponentArrays =
        (s.mComponentManager.mComponentArrays.assign t a1).assign t a2 ∧
      s2.mEntityManager = s.mEntityManager ∧
      s2.mSystemManager = (s.mSystemManager.entitySignatureChanged e
        (s.mEntityManager.mSignatures e.toNat ||| 2 ^ k)).entitySignatureChanged e
        (s.mEntityManager.mSignatures e.toNat) := by
    refine ⟨_, removeComponent_eq ha1 hrem he hk1, ?_, ?_, ?_, ?_⟩
    · rw [hidx1]
    · rw [har1]
    · rw [hidx1, hsig1]
      simp only [Signature.set_clear hbit]
      rw [hem1]
      simp only [Function.update_idem, Function.update_eq_self]
    · rw [hidx1, hsig1]
      simp only [Signature.set_clear hbit]
      rw [hsm1]
  refine ⟨s1, s2, hadd, hrm, hem2, hty2, ?_, ?_, ?_⟩
  · intro k'
    rw [hsm2, (SystemManager.entitySignatureChanged_spec _ e _ k').1]
    unfold SystemManager.systemAfter SystemManager.required
    rw [(SystemManager.entitySignatureChanged_spec _ e _ k').1,
      (SystemManager.entitySignatureChanged_spec _ e _ k').2]
    unfold SystemManager.systemAfter SystemManager.signatureAfter SystemManager.required
    cases hs : s.mSystemManager.mSystems.find k' with
    | none => rfl
    | some sys =>
      obtain ⟨req, hreq⟩ :=
        Map.mem_iff_find.1 (hall k' (AList.mem_keys.1 (Map.mem_of_find hs)))
      have hold := hint k' sys hs
      rw [hreq] at hold
      simp only at hold
      simp only [hreq, Option.map_some', Option.isSome_some, if_true, Option.getD_some]
      rw [SystemManager.retest_restore]
      rw [hold.2 e]
      exact ⟨fun hh => hh.2, fun hh => ⟨he, hh⟩⟩
  · intro k'
    rw [hsm2, (SystemManager.entitySignatureChanged_spec _ e _ k').2]
    unfold SystemManager.signatureAfter SystemManager.required
    rw [(SystemManager.entitySignatureChanged_spec _ e _ k').1,
      (SystemManager.entitySignatureChanged_spec _ e _ k').2]
    unfold SystemManager.systemAfter SystemManager.signatureAfter SystemManager.required
    cases hs : s.mSystemManager.mSystems.find k' with
    | none => simp only [Option.map_none', Option.isSome_none, Bool.false_eq_true, if_false]
    | some sys =>
      obtain ⟨req, hreq⟩ :=
        Map.mem_iff_find.1 (hall k' (AList.mem_keys.1 (Map.mem_of_find hs)))
      simp only [hreq, Option.map_some', Option.isSome_some, if_true, Option.getD_some]
  · intro t' x
    have hfind : s2.mComponentManager.mComponentArrays.find t' =
        if t' = t then some a2 else s.mComponentManager.mComponentArrays.find t' := by
      rw [har2, Map.find_assign]
      by_cases htt : t' = t
      · rw [if_pos htt, if_pos htt]
      · rw [if_neg htt, if_neg htt, Map.find_assign, if_neg htt]
    by_cases htt : t' = t
    · subst htt
      rw [if_pos rfl] at hfind
      have hp : a2.present x ↔ a.present x := by
        rw [ComponentArray.present_iff_find, ComponentArray.present_iff_find, hmap x]
      constructor
      · constructor
        · rintro ⟨b, hb, hbp⟩
          rw [hfind] at hb
          cases hb
          exact ⟨a, ha, hp.1 hbp⟩
        · rintro ⟨b, hb, hbp⟩
          rw [ha] at hb
          cases hb
          exact ⟨a2, hfind, hp.2 hbp⟩
      · unfold componentValue
        rw [hfind, ha]
        exact hval x
    · rw [if_neg htt] at hfind
      constructor
      · unfold hasComponent
        rw [hfind]
      · unfold componentValue
        rw [hfind]

end ECS


/-- The three invariants hold in every state reached by calls that respect
all preconditions. -/
theorem Tracked.all_of_run {α : Type} [Inhabited α] {cs : List (Call α)} {w : Tracked α}
    (hr : Tracked.runWhere Tracked.allRespected (Tracked.init : Tracked α) cs = some w) :
    w.ecs.StoreInv ∧ w.PoolInv ∧ w.ecs.InterestCorrect :=
  Tracked.runWhere_invariant
    (P := fun w => w.ecs.StoreInv ∧ w.PoolInv ∧ w.ecs.InterestCorrect)
    (fun _ _ _ hP hp hs => ⟨Tracked.store_step hP.1 hp.2.1 hs, hP.2.1.step hp.1 hs,
      Tracked.interest_step hP.2.1 hP.2.2 ⟨hp.1, hp.2.2⟩ hs⟩)
    cs _ _ ⟨ECS.init_storeInv, Tracked.init_poolInv, ECS.init_interestCorrect⟩ hr

/-- The calls `demoCalls` respect all preconditions and return. -/
theorem demoWorld_allRespected :
    Tracked.runWhere Tracked.allRespected Tracked.init demoCalls = some demoWorld := by rfl

/-- Every returning call of the facade keeps a registered system registered
and keeps its stored signature. -/
theorem ECS.call_keeps_signature {α : Type} [Inhabited α] {s : ECS α} {c : Call α}
    {r : Option Entity × ECS α} {t : TypeName} {R : Signature} (h : s.call c = .ok r)
    (hs : t ∈ s.mSystemManager.mSystems)
    (hR : s.mSystemManager.mSignatures.find t = some R) :
    t ∈ r.2.mSystemManager.mSystems ∧ r.2.mSystemManager.mSignatures.find t = some R := by
  have hstep : Tracked.step { ecs := s, live := [] } c =
      some { ecs := r.2, live := Tracked.liveAfter [] c r.1 } := by
    simp only [Tracked.step, h]
  obtain ⟨sys, hsys⟩ := Map.mem_iff_find.1 hs
  have hreq : s.mSystemManager.required t = R := by
    simp only [SystemManager.required, hR, Option.getD_some]
  have hchange : ∀ e sig,
      t ∈ (s.mSystemManager.entitySignatureChanged e sig).mSystems ∧
      (s.mSystemManager.entitySignatureChanged e sig).mSignatures.find t = some R := by
    intro e sig
    have hspec := SystemManager.entitySignatureChanged_spec s.mSystemManager e sig t
    constructor
    · apply Map.mem_iff_find.2
      rw [hspec.1]
      simp only [SystemManager.systemAfter, hsys, Option.map_some']
      exact ⟨_, rfl⟩
    · rw [hspec.2]
      simp only [SystemManager.signatureAfter, hsys, Option.isSome_some, if_true, hreq]
  suffices key : ∀ w' : Tracked α, Tracked.step { ecs := s, live := [] } c = some w' →
      t ∈ w'.ecs.mSystemManager.mSystems ∧
        w'.ecs.mSystemManager.mSignatures.find t = some R from key _ hstep
  intro w' hw
  cases c with
  | registerComponent t' =>
    rw [Tracked.step_registerComponent hw]
    exact ⟨hs, hR⟩
  | createEntity =>
    obtain ⟨id, rest, _, rfl⟩ := Tracked.step_createEntity hw
    exact ⟨hs, hR⟩
  | destroyEntity e =>
    obtain ⟨_, cm, _, rfl⟩ := Tracked.step_destroyEntity hw
    have hspec := SystemManager.systems_entityDestroyed_spec s.mSystemManager e
    constructor
    · apply Map.mem_iff_find.2
      show ∃ v, (s.mSystemManager.entityDestroyed e).mSystems.find t = some v
      rw [hspec.2 t, hsys]
      exact ⟨_, rfl⟩
    · show (s.mSystemManager.entityDestroyed e).mSignatures.find t = some R
      rw [hspec.1]
      exact hR
  | addComponent t' e v =>
    obtain ⟨sig', _, _, _, hsm⟩ := Tracked.addComponent_managers hw
    rw [hsm]
    exact hchange e sig'
  | removeComponent t' e =>
    obtain ⟨sig', _, _, _, hsm⟩ := Tracked.removeComponent_managers hw
    rw [hsm]
    exact hchange e sig'
  | getComponent t' e =>
    obtain ⟨q, hg, rfl⟩ := Tracked.step_getComponent hw
    show t ∈ q.2.mSystemManager.mSystems ∧ q.2.mSystemManager.mSignatures.find t = some R
    rw [(ECS.getComponent_ok hg).2]
    exact ⟨hs, hR⟩
  | getComponentType t' =>
    rw [Tracked.step_getComponentType hw]
    exact ⟨hs, hR⟩
  | registerSystem t' =>
    rw [Tracked.step_registerSystem hw]
    refine ⟨?_, hR⟩
    show t ∈ s.mSystemManager.mSystems.emplace t' _
    by_cases ht' : t' ∈ s.mSystemManager.mSystems
    · rw [Map.emplace_of_mem _ ht']
      exact hs
    · rw [Map.emplace_of_not_mem _ ht', Map.mem_assign]
      exact Or.inr hs
  | setSystemSignature t' sig =>
    rw [Tracked.step_setSystemSignature hw]
    refine ⟨hs, ?_⟩
    show (s.mSystemManager.mSignatures.emplace t' sig).find t = some R
    by_cases ht' : t' ∈ s.mSystemManager.mSignatures
    · rw [Map.emplace_of_mem _ ht']
      exact hR
    · have hne : t ≠ t' := fun hh => ht' (hh ▸ Map.mem_of_find hR)
      rw [Map.emplace_of_not_mem _ ht', Map.find_assign, if_neg hne]
      exact hR

/-- Every returning sequence of calls of the facade keeps a registered system
registered and keeps its stored signature. -/
theorem ECS.run_keeps_signature {α : Type} [Inhabited α] {t : TypeName} {R : Signature} :
    ∀ (cs : List (Call α)) (s s' : ECS α), s.run cs = .ok s' →
      t ∈ s.mSystemManager.mSystems → s.mSystemManager.mSignatures.find t = some R →
      t ∈ s'.mSystemManager.mSystems ∧ s'.mSystemManager.mSignatures.find t = some R := by
  intro cs
  induction cs with
  | nil =>
    intro s s' h hs hR
    simp only [ECS.run, Except.ok.injEq] at h
    rw [← h]
    exact ⟨hs, hR⟩
  | cons c cs ih =>
    intro s s' h hs hR
    unfold ECS.run at h
    cases hc : s.call c with
    | error f => rw [hc] at h; cases h
    | ok r =>
      rw [hc] at h
      obtain ⟨hs1, hR1⟩ := ECS.call_keeps_signature hc hs hR
      exact ih r.2 s' h hs1 hR1

/-- The calls `signedCalls` return `signedWorld`. -/
theorem signedWorld_run :
    (((ECS.init : ECS Nat).registerSystem 5).setSystemSignature 5 2).run signedCalls =
      .ok signedWorld := by rfl

/-- C19, as amended: for a registered system `S` without a stored signature
(no earlier `setSystemSignature<S>`, and no `addComponent` or
`removeComponent` since `registerSystem<S>`), after `setSystemSignature<S>(R)`
the stored signature is `R` and stays `R` over every later sequence of calls
of the facade, so that every later `entitySignatureChanged(e, sig)` leaves `e`
in the interest set of `S` exactly when `(sig & R) == R`. For a system that
has a stored signature, `setSystemSignature<S>(R)` changes nothing: the
signature stored first is kept. -/
theorem first_system_signature_is_used {α : Type} [Inhabited α] (s : ECS α) (t : TypeName)
    (R : Signature) :
    (t ∈ s.mSystemManager.mSignatures → s.setSystemSignature t R = s) ∧
    (t ∈ s.mSystemManager.mSystems → t ∉ s.mSystemManager.mSignatures →
      ∀ cs s', (s.setSystemSignature t R).run cs = .ok s' →
        s'.mSystemManager.mSignatures.find t = some R ∧
        ∀ e sig, ∃ sys,
          (s'.mSystemManager.entitySignatureChanged e sig).mSystems.find t = some sys ∧
          (e ∈ sys.mEntities ↔ sig &&& R = R)) := by
  constructor
  · intro ht
    show { s with mSystemManager := s.mSystemManager.setSignature t R } = s
    rw [SystemManager.setSignature_of_stored ht]
  · intro hs hn cs s' hrun
    have hR0 : (s.setSystemSignature t R).mSystemManager.mSignatures.find t = some R := by
      show (s.mSystemManager.mSignatures.emplace t R).find t = some R
      rw [Map.emplace_of_not_mem _ hn, Map.find_assign, if_pos rfl]
    obtain ⟨hs', hR'⟩ := ECS.run_keeps_signature cs _ s' hrun hs hR0
    refine ⟨hR', ?_⟩
    intro e sig
    obtain ⟨sys, hsys⟩ := Map.mem_iff_find.1 hs'
    refine ⟨System.retest e sig R sys, ?_, ?_⟩
    · rw [(SystemManager.entitySignatureChanged_spec _ e sig t).1]
      simp only [SystemManager.systemAfter, SystemManager.required, hsys, hR',
        Option.map_some', Option.getD_some]
    · rw [SystemManager.mem_retest, if_pos rfl]

/-- Witness of C19 (amended): the theorem at the state after
`registerSystem<5>`, for the required signature 2 and the later calls
`signedCalls`; and at the state after `setSystemSignature<5>(2)`, where a
second `setSystemSignature<5>(1)` changes nothing. -/
theorem first_system_signature_is_used_witness :
    (5 : TypeName) ∈ ((ECS.init : ECS Nat).registerSystem 5).mSystemManager.mSystems ∧
    (5 : TypeName) ∉ ((ECS.init : ECS Nat).registerSystem 5).mSystemManager.mSignatures ∧
    (((ECS.init : ECS Nat).registerSystem 5).setSystemSignature 5 2).run signedCalls =
      .ok signedWorld ∧
    signedWorld.mSystemManager.mSignatures.find 5 = some 2 ∧
    (∀ e sig, ∃ sys,
      (signedWorld.mSystemManager.entitySignatureChanged e sig).mSystems.find 5 = some sys ∧
      (e ∈ sys.mEntities ↔ sig &&& 2 = 2)) ∧
    (5 : TypeName) ∈ signedWorld.mSystemManager.mSignatures ∧
    signedWorld.setSystemSignature 5 1 = signedWorld :=
  ⟨by decide, by decide, signedWorld_run,
    ((first_system_signature_is_used ((ECS.init : ECS Nat).registerSystem 5) 5 2).2
      (by decide) (by decide) signedCalls signedWorld signedWorld_run).1,
    ((first_system_signature_is_used ((ECS.init : ECS Nat).registerSystem 5) 5 2).2
      (by decide) (by decide) signedCalls signedWorld signedWorld_run).2,
    by decide, (first_system_signature_is_used signedWorld 5 1).1 (by decide)⟩

end Nomad
